import Mathlib

/-!
# Board widgets: polymorphic JSON decoding of `BoardWidget`

A verification development for `board_widgets.go`.

The Go file declares the widget structs with their `json` struct tags, the type
switch `GetWidgetType`, and the custom decoder `BoardWidget.UnmarshalJSON`, which
peeks the discriminator `definition.type` with one call of `json.Unmarshal` and then
decodes the whole document a second time into the struct selected by it.

The embedding has three layers.

* `Json`: a parsed JSON document.  The decoder is modelled on documents, not on bytes:
  what the scanner of `json.Unmarshal` rejects is outside the model, that is, bytes
  that are not JSON and documents nested deeper than `maxNestingDepth`.
* `GoType`, `GoVal`, `TypeName.fields`: the Go types of the file, as a table of struct
  declarations (one entry per struct, one `Field` per struct field carrying the
  `json` tag), and the values of those types.
* `decodeValue` / `encode`: the behaviour of `encoding/json` on such types, which the
  Go code calls as `json.Unmarshal` and `json.Marshal`.  `json.Unmarshal` goes on
  decoding after an error, be it a value of the wrong kind or an error returned by a
  nested `UnmarshalJSON`, and returns the first error met, as `encoding/json` of
  Go 1.27 does; only a fault of a nested `UnmarshalJSON` ends the call.

Idealisations: a `float64` is the exact rational value of its literal, provided the
literal is in the range of `float64` (a literal out of range is a type error, as with
`strconv.ParseFloat`; rounding is not modelled, and there is no NaN or infinity);
strings are sequences of Unicode scalar values, so a Go string that is not valid UTF-8
has no counterpart; the `Value` of a `json.UnmarshalTypeError` is the kind of the JSON
value (`number`, without the literal), and its context fields `Struct`, `Field` and
`Offset` are not modelled; when one object repeats a key three times or more, the reuse
of a slice's backing array beyond its length is not modelled.
-/

namespace BoardWidgets

/-! ## JSON documents -/

/-- A JSON number literal: `int i` is a literal written without fraction and exponent,
`frac q` is any other literal, with value `q`. -/
inductive JNumber where
  | int (i : Int)
  | frac (q : ℚ)
  deriving DecidableEq, Repr

/-- A parsed JSON document.  An object keeps its members in document order, repeated
keys included. -/
inductive Json where
  | null
  | bool (b : Bool)
  | num (n : JNumber)
  | str (s : String)
  | arr (xs : List Json)
  | obj (kvs : List (String × Json))
  deriving Repr

mutual
/-- Nesting depth of a document. -/
def Json.depth : Json → Nat
  | .arr xs => depthElems xs + 1
  | .obj kvs => depthMembers kvs + 1
  | _ => 0
/-- Largest depth among the elements of an array. -/
def depthElems : List Json → Nat
  | [] => 0
  | x :: xs => max x.depth (depthElems xs)
/-- Largest depth among the member values of an object. -/
def depthMembers : List (String × Json) → Nat
  | [] => 0
  | (_, v) :: kvs => max v.depth (depthMembers kvs)
end

/-! ## Go types and values -/

/-- The struct types of `board_widgets.go`.  The anonymous structs of the file get a
name made of the enclosing declaration and the field: the local variables of
`UnmarshalJSON` (`widgetHandler`, `alertGraphWidget`, ...) and the anonymous structs
inside `WidgetApmOrLogQuery`. -/
inductive TypeName where
  | BoardWidget
  | WidgetLayout
  | AlertGraphDefinition
  | AlertValueDefinition
  | ChangeDefinition
  | ChangeRequest
  | CheckStatusDefinition
  | DistributionDefinition
  | DistributionRequest
  | GroupDefinition
  | NoteDefinition
  | TimeseriesDefinition
  | TimeseriesRequest
  | TimeseriesRequestStyle
  | WidgetTime
  | WidgetAxis
  | WidgetEvent
  | WidgetMarker
  | WidgetMetadata
  | WidgetRequest
  | WidgetApmOrLogQuery
  | WidgetApmOrLogQuery_Compute
  | WidgetApmOrLogQuery_Search
  | WidgetApmOrLogQuery_GroupBy
  | WidgetApmOrLogQuery_GroupBy_Sort
  | WidgetProcessQuery
  | WidgetRequestStyle
  | widgetHandler
  | widgetHandler_Definition
  | alertGraphWidget
  | alertValueWidget
  | changeWidget
  | checkStatusWidget
  | distributionWidget
  | groupWidget
  | noteWidget
  | timeseriesWidget
  deriving DecidableEq, Repr

/-- Go types occurring in the file. `iface` is `interface{}`. -/
inductive GoType where
  | string
  | int
  | float64
  | bool
  | iface
  | ptr (t : GoType)
  | slice (t : GoType)
  | named (n : TypeName)
  deriving DecidableEq, Repr

/-- One struct field: its Go name, the key of its `json` tag, whether the tag has
`omitempty`, and its type. -/
structure Field where
  name : String
  json : String
  omitempty : Bool
  type : GoType
  deriving DecidableEq, Repr

/-- Values of Go types.  `nil` is the nil pointer, the nil slice and the nil
interface; `slice xs` is a non-nil slice; `struct fs` lists the field values in
declaration order; `iface t v` is an interface holding `v` of dynamic type `t`. -/
inductive GoVal where
  | str (s : String)
  | int (i : Int)
  | float (q : ℚ)
  | bool (b : Bool)
  | nil
  | ptr (v : GoVal)
  | slice (xs : List GoVal)
  | struct (fs : List GoVal)
  | iface (t : GoType) (v : GoVal)
  deriving Repr

/-- Fields of `WidgetRequest`, which the three request structs embed. -/
def WidgetRequest.fields : List Field :=
  [ ⟨"MetricQuery", "q", true, .ptr .string⟩,
    ⟨"ApmQuery", "apm_query", true, .ptr (.named .WidgetApmOrLogQuery)⟩,
    ⟨"LogQuery", "log_query", true, .ptr (.named .WidgetApmOrLogQuery)⟩,
    ⟨"ProcessQuery", "process_query", true, .ptr (.named .WidgetProcessQuery)⟩ ]

/-- Fields of `WidgetRequestStyle`, which `TimeseriesRequestStyle` embeds. -/
def WidgetRequestStyle.fields : List Field :=
  [ ⟨"Palette", "palette", true, .ptr .string⟩ ]

/-- The struct declarations of the file, tag by tag.  An embedded struct contributes
its fields in place, as `encoding/json` promotes them. -/
def TypeName.fields : TypeName → List Field
  | .BoardWidget =>
    [ ⟨"Definition", "definition", false, .iface⟩,
      ⟨"Id", "id", true, .ptr .int⟩,
      ⟨"Layout", "layout", true, .ptr (.named .WidgetLayout)⟩ ]
  | .WidgetLayout =>
    [ ⟨"X", "x", true, .ptr .float64⟩,
      ⟨"Y", "y", true, .ptr .float64⟩,
      ⟨"Height", "height", true, .ptr .float64⟩,
      ⟨"Width", "width", true, .ptr .float64⟩ ]
  | .AlertGraphDefinition =>
    [ ⟨"Type", "type", false, .ptr .string⟩,
      ⟨"AlertId", "alert_id", false, .ptr .string⟩,
      ⟨"VizType", "viz_type", false, .ptr .string⟩,
      ⟨"Title", "title", true, .ptr .string⟩,
      ⟨"TitleSize", "title_size", true, .ptr .string⟩,
      ⟨"TitleAlign", "title_align", true, .ptr .string⟩,
      ⟨"Time", "time", true, .ptr (.named .WidgetTime)⟩ ]
  | .AlertValueDefinition =>
    [ ⟨"Type", "type", false, .ptr .string⟩,
      ⟨"AlertId", "alert_id", false, .ptr .string⟩,
      ⟨"Precision", "precision", true, .ptr .int⟩,
      ⟨"Unit", "unit", true, .ptr .string⟩,
      ⟨"TextAlign", "text_align", true, .ptr .string⟩,
      ⟨"Title", "title", true, .ptr .string⟩,
      ⟨"TitleSize", "title_size", true, .ptr .string⟩,
      ⟨"TitleAlign", "title_align", true, .ptr .string⟩ ]
  | .ChangeDefinition =>
    [ ⟨"Type", "type", false, .ptr .string⟩,
      ⟨"Requests", "requests", false, .slice (.named .ChangeRequest)⟩,
      ⟨"Title", "title", true, .ptr .string⟩,
      ⟨"TitleSize", "title_size", true, .ptr .string⟩,
      ⟨"TitleAlign", "title_align", true, .ptr .string⟩,
      ⟨"Time", "time", true, .ptr (.named .WidgetTime)⟩ ]
  | .ChangeRequest =>
    WidgetRequest.fields ++
    [ ⟨"ChangeType", "change_type", true, .ptr .string⟩,
      ⟨"CompareTo", "compare_to", true, .ptr .string⟩,
      ⟨"IncreaseGood", "increase_good", true, .ptr .bool⟩,
      ⟨"OrderBy", "order_by", true, .ptr .string⟩,
      ⟨"OrderDir", "order_dir", true, .ptr .string⟩,
      ⟨"ShowPresent", "show_present", true, .ptr .bool⟩ ]
  | .CheckStatusDefinition =>
    [ ⟨"Type", "type", false, .ptr .string⟩,
      ⟨"Check", "check", false, .ptr .string⟩,
      ⟨"Grouping", "grouping", false, .ptr .string⟩,
      ⟨"Group", "group", true, .ptr .string⟩,
      ⟨"GroupBy", "group_by", true, .slice .string⟩,
      ⟨"Tags", "tags", true, .slice .string⟩,
      ⟨"Title", "title", true, .ptr .string⟩,
      ⟨"TitleSize", "title_size", true, .ptr .string⟩,
      ⟨"TitleAlign", "title_align", true, .ptr .string⟩,
      ⟨"Time", "time", true, .ptr (.named .WidgetTime)⟩ ]
  | .DistributionDefinition =>
    [ ⟨"Type", "type", false, .ptr .string⟩,
      ⟨"Requests", "requests", false, .slice (.named .DistributionRequest)⟩,
      ⟨"Title", "title", true, .ptr .string⟩,
      ⟨"TitleSize", "title_size", true, .ptr .string⟩,
      ⟨"TitleAlign", "title_align", true, .ptr .string⟩,
      ⟨"Time", "time", true, .ptr (.named .WidgetTime)⟩ ]
  | .DistributionRequest =>
    WidgetRequest.fields ++
    [ ⟨"Style", "style", true, .ptr (.named .WidgetRequestStyle)⟩ ]
  | .GroupDefinition =>
    [ ⟨"Type", "type", false, .ptr .string⟩,
      ⟨"LayoutType", "layout_type", false, .ptr .string⟩,
      ⟨"Widgets", "widgets", false, .slice (.named .BoardWidget)⟩,
      ⟨"Title", "title", true, .ptr .string⟩ ]
  | .NoteDefinition =>
    [ ⟨"Type", "type", false, .ptr .string⟩,
      ⟨"Content", "content", false, .ptr .string⟩,
      ⟨"BackgroundColor", "background_color", true, .ptr .string⟩,
      ⟨"FontSize", "font_size", true, .ptr .string⟩,
      ⟨"TextAlign", "text_align", true, .ptr .string⟩,
      ⟨"ShowTick", "show_tick", true, .ptr .bool⟩,
      ⟨"TickPos", "tick_pos", true, .ptr .string⟩,
      ⟨"TickEdge", "tick_edge", true, .ptr .string⟩ ]
  | .TimeseriesDefinition =>
    [ ⟨"Type", "type", false, .ptr .string⟩,
      ⟨"Requests", "requests", false, .slice (.named .TimeseriesRequest)⟩,
      ⟨"Yaxis", "yaxis", true, .ptr (.named .WidgetAxis)⟩,
      ⟨"Events", "events", true, .slice (.named .WidgetEvent)⟩,
      ⟨"Markers", "markers", true, .slice (.named .WidgetMarker)⟩,
      ⟨"Title", "title", true, .ptr .string⟩,
      ⟨"TitleSize", "title_size", true, .ptr .string⟩,
      ⟨"TitleAlign", "title_align", true, .ptr .string⟩,
      ⟨"ShowLegend", "show_legend", true, .ptr .bool⟩,
      ⟨"LegendSize", "legend_size", true, .ptr .string⟩,
      ⟨"Time", "time", true, .ptr (.named .WidgetTime)⟩ ]
  | .TimeseriesRequest =>
    WidgetRequest.fields ++
    [ ⟨"Style", "style", true, .ptr (.named .TimeseriesRequestStyle)⟩,
      ⟨"Metadata", "metadata", true, .slice (.named .WidgetMetadata)⟩,
      ⟨"DisplayType", "display_type", true, .ptr .string⟩ ]
  | .TimeseriesRequestStyle =>
    WidgetRequestStyle.fields ++
    [ ⟨"LineType", "line_type", true, .ptr .string⟩,
      ⟨"LineWidth", "line_width", true, .ptr .string⟩ ]
  | .WidgetTime =>
    [ ⟨"LiveSpan", "live_span", true, .ptr .string⟩ ]
  | .WidgetAxis =>
    [ ⟨"Label", "label", true, .ptr .string⟩,
      ⟨"Scale", "scale", true, .ptr .string⟩,
      ⟨"Min", "min", true, .ptr .string⟩,
      ⟨"Max", "max", true, .ptr .string⟩,
      ⟨"IncludeZero", "include_zero", true, .ptr .bool⟩ ]
  | .WidgetEvent =>
    [ ⟨"Query", "q", false, .ptr .string⟩ ]
  | .WidgetMarker =>
    [ ⟨"Value", "value", false, .ptr .string⟩,
      ⟨"DisplayType", "display_type", true, .ptr .string⟩,
      ⟨"Label", "label", true, .ptr .string⟩ ]
  | .WidgetMetadata =>
    [ ⟨"Expression", "expression", false, .ptr .string⟩,
      ⟨"AliasName", "alias_name", true, .ptr .string⟩ ]
  | .WidgetRequest => WidgetRequest.fields
  | .WidgetApmOrLogQuery =>
    [ ⟨"Index", "index", false, .ptr .string⟩,
      ⟨"Compute", "compute", false, .ptr (.named .WidgetApmOrLogQuery_Compute)⟩,
      ⟨"Search", "search", true, .ptr (.named .WidgetApmOrLogQuery_Search)⟩,
      ⟨"GroupBy", "group_by", true, .slice (.named .WidgetApmOrLogQuery_GroupBy)⟩ ]
  | .WidgetApmOrLogQuery_Compute =>
    [ ⟨"Aggregation", "aggregation", false, .ptr .string⟩,
      ⟨"Facet", "facet", true, .ptr .string⟩,
      ⟨"Interval", "interval", true, .ptr .int⟩ ]
  | .WidgetApmOrLogQuery_Search =>
    [ ⟨"Query", "query", false, .ptr .string⟩ ]
  | .WidgetApmOrLogQuery_GroupBy =>
    [ ⟨"Facet", "facet", false, .ptr .string⟩,
      ⟨"Limit", "limit", true, .ptr .int⟩,
      ⟨"Sort", "sort", true, .ptr (.named .WidgetApmOrLogQuery_GroupBy_Sort)⟩ ]
  | .WidgetApmOrLogQuery_GroupBy_Sort =>
    [ ⟨"Aggregation", "aggregation", false, .ptr .string⟩,
      ⟨"Order", "order", false, .ptr .string⟩,
      ⟨"Facet", "facet", true, .ptr .string⟩ ]
  | .WidgetProcessQuery =>
    [ ⟨"Metric", "metric", false, .ptr .string⟩,
      ⟨"SearchBy", "search_by", true, .ptr .string⟩,
      ⟨"FilterBy", "filter_by", true, .slice .string⟩,
      ⟨"Limit", "limit", true, .ptr .int⟩ ]
  | .WidgetRequestStyle => WidgetRequestStyle.fields
  | .widgetHandler =>
    [ ⟨"Definition", "definition", false, .ptr (.named .widgetHandler_Definition)⟩,
      ⟨"Id", "id", true, .ptr .int⟩,
      ⟨"Layout", "layout", true, .ptr (.named .WidgetLayout)⟩ ]
  | .widgetHandler_Definition =>
    [ ⟨"Type", "type", false, .ptr .string⟩ ]
  | .alertGraphWidget =>
    [ ⟨"Definition", "definition", false, .named .AlertGraphDefinition⟩ ]
  | .alertValueWidget =>
    [ ⟨"Definition", "definition", false, .named .AlertValueDefinition⟩ ]
  | .changeWidget =>
    [ ⟨"Definition", "definition", false, .named .ChangeDefinition⟩ ]
  | .checkStatusWidget =>
    [ ⟨"Definition", "definition", false, .named .CheckStatusDefinition⟩ ]
  | .distributionWidget =>
    [ ⟨"Definition", "definition", false, .named .DistributionDefinition⟩ ]
  | .groupWidget =>
    [ ⟨"Definition", "definition", false, .named .GroupDefinition⟩ ]
  | .noteWidget =>
    [ ⟨"Definition", "definition", false, .named .NoteDefinition⟩ ]
  | .timeseriesWidget =>
    [ ⟨"Definition", "definition", false, .named .TimeseriesDefinition⟩ ]

/-- The types with a custom `UnmarshalJSON` method: `BoardWidget` only. -/
def TypeName.hasUnmarshaler : TypeName → Bool
  | .BoardWidget => true
  | _ => false

/-- Strip the pointers of a type. -/
def GoType.base : GoType → GoType
  | .ptr t => t.base
  | t => t

/-- Element type of a pointer or slice type. -/
def GoType.elem : GoType → GoType
  | .ptr t => t
  | .slice t => t
  | t => t

/-- Fields of a struct type, none for the other types. -/
def GoType.fields : GoType → List Field
  | .named n => n.fields
  | _ => []

/-- Whether decoding into the type goes through a custom `UnmarshalJSON`. -/
def GoType.hasUnmarshaler : GoType → Bool
  | .named n => n.hasUnmarshaler
  | _ => false

/-- Zero value of a type, with structs held by value expanded `n` levels deep. -/
def zeroN : Nat → GoType → GoVal
  | _, .string => .str ""
  | _, .int => .int 0
  | _, .float64 => .float 0
  | _, .bool => .bool false
  | _, .iface => .nil
  | _, .ptr _ => .nil
  | _, .slice _ => .nil
  | 0, .named _ => .struct []
  | n + 1, .named m => .struct (m.fields.map (fun f => zeroN n f.type))

/-- Zero value of a type.  No struct of the file holds structs by value more than one
level deep (the local wrappers of `UnmarshalJSON` hold a definition struct, whose
fields are pointers and slices). -/
def zero (t : GoType) : GoVal := zeroN 3 t

/-- Field values of a struct value. -/
def GoVal.structFields : GoVal → List GoVal
  | .struct fs => fs
  | _ => []

/-- Elements of a slice value, none for the nil slice. -/
def GoVal.elems : GoVal → List GoVal
  | .slice xs => xs
  | _ => []

/-- Position of a field in a struct declaration, by its Go name. -/
def fieldIndex : List Field → String → Nat
  | [], _ => 0
  | f :: fs, nm => if f.name = nm then 0 else fieldIndex fs nm + 1

/-- Selector `v.nm` on a value `v` of struct type `n`; `nil` when there is no such
field. -/
def GoVal.get (n : TypeName) (nm : String) (v : GoVal) : GoVal :=
  v.structFields.getD (fieldIndex n.fields nm) .nil

/-! ## Errors and outcomes -/

/-- The errors the decoder returns: `json.UnmarshalTypeError` with its `Value` (the
kind of JSON value met) and `Type` (the Go type it could not be stored in), and the
error built by `fmt.Errorf`, with its message. -/
inductive JsonError where
  | UnmarshalTypeError (value : String) (type : GoType)
  | Errorf (msg : String)
  deriving DecidableEq, Repr

/-- How a call ends: `nil` is the nil error, `error e` a returned error, `panic` a
run-time fault (nil pointer dereference); `outOfFuel` is the bounded model giving up,
which `status_ne_outOfFuel` excludes. -/
inductive Status where
  | nil
  | error (e : JsonError)
  | panic
  | outOfFuel
  deriving DecidableEq, Repr

/-- A status that ends the decoding a call is part of: a fault, which is not a returned
value (the model's `outOfFuel` is handled like it). -/
def Status.isFault : Status → Bool
  | .panic => true
  | .outOfFuel => true
  | _ => false

/-- Result of a decoding step of `encoding/json`: `ok v saved` is the destination after
the step together with the decoder's saved error (`d.savedError`), `stop st` is a step
that ended the whole decoding at once, by a fault of an `UnmarshalJSON` method. -/
inductive Res (α : Type) where
  | ok (a : α) (saved : Option JsonError)
  | stop (st : Status)
  deriving Repr

/-- The method `d.saveError`: keep the first error. -/
def saveError (saved : Option JsonError) (e : JsonError) : Option JsonError :=
  match saved with
  | none => some e
  | some e0 => some e0

/-- A custom `UnmarshalJSON` method: from the receiver and the raw document to the
status and the receiver afterwards. -/
abbrev Hook := GoVal → Json → Status × GoVal

/-! ## `encoding/json`: decoding -/

/-- Case folding of one code point, as far as it can matter against the field names
of the file, which are lower-case ASCII: upper-case ASCII letters, and the two
non-ASCII code points whose simple fold is an ASCII letter (U+017F and U+212A). -/
def foldCode (n : Nat) : Nat :=
  if 65 ≤ n ∧ n ≤ 90 then n + 32
  else if n = 0x17F then 115
  else if n = 0x212A then 107
  else n

/-- Folded form of a key: two keys match case-insensitively when their folded forms
are equal. -/
def foldName (s : String) : List Nat := s.data.map (fun c => foldCode c.toNat)

/-- First field satisfying `p`, with its position. -/
def findIdx (p : Field → Bool) : List Field → Option (Nat × Field)
  | [] => none
  | f :: fs => if p f then some (0, f) else (findIdx p fs).map (fun r => (r.1 + 1, r.2))

/-- The field an object key is decoded into: the field whose key is exactly `key`,
otherwise the first field whose key matches it case-insensitively. -/
def findField (fields : List Field) (key : String) : Option (Nat × Field) :=
  match findIdx (fun f => f.json = key) fields with
  | some r => some r
  | none => findIdx (fun f => foldName f.json = foldName key) fields

/-- The function `indirect` of `encoding/json` on a non-null value: walk down the
pointers of the destination, allocating a zero value where a pointer is nil. -/
def indirect : GoType → GoVal → GoVal
  | .ptr t, .ptr v => indirect t v
  | .ptr t, _ => zero t.base
  | _, v => v

/-- Put a value decoded at the base type back behind the pointers of the type. -/
def reref : GoType → GoVal → GoVal
  | .ptr t, v => .ptr (reref t v)
  | _, v => v

/-- Store a value met where the base type cannot hold it: the destination keeps what
`indirect` made of it and the type error is saved. -/
def typeError (t : GoType) (cur : GoVal) (value : String) (saved : Option JsonError) :
    Res GoVal :=
  .ok (reref t (indirect t cur)) (saveError saved (.UnmarshalTypeError value t.base))

/-- Hand a non-null document to the `UnmarshalJSON` method of the base type.  An error
the method returns is saved like a type error and the decoding goes on, so that
`json.Unmarshal` returns the first error met; the destination is what the method left.
A fault of the method ends the decoding. -/
def callHook (hook : Hook) (t : GoType) (cur : GoVal) (j : Json)
    (saved : Option JsonError) : Res GoVal :=
  match hook (indirect t cur) j with
  | (.nil, v) => .ok (reref t v) saved
  | (.error e, v) => .ok (reref t v) (saveError saved e)
  | (st, _) => .stop st

/-- The method `d.literalStore` on `null`: pointers, slices and interfaces become nil,
a type with `UnmarshalJSON` receives the literal, any other destination is left as it
is. -/
def storeNull (hook : Hook) (t : GoType) (cur : GoVal) (saved : Option JsonError) :
    Res GoVal :=
  match t with
  | .ptr _ => .ok .nil saved
  | .slice _ => .ok .nil saved
  | .iface => .ok .nil saved
  | .named n =>
    if n.hasUnmarshaler then
      match hook cur .null with
      | (.nil, v) => .ok v saved
      | (.error e, v) => .ok v (saveError saved e)
      | (st, _) => .stop st
    else .ok cur saved
  | _ => .ok cur saved

/-- Integers of Go's 64-bit `int`. -/
def inIntRange (i : Int) : Prop := -(2 : Int) ^ 63 ≤ i ∧ i < (2 : Int) ^ 63

instance (i : Int) : Decidable (inIntRange i) := by
  unfold inIntRange
  exact inferInstance

/-- The bound of `float64`: a number of this absolute value or more rounds to an
infinity.  It is `2^1024 - 2^970`, half a unit in the last place above the largest
`float64`. -/
def floatBound : Nat :=
  179769313486231580793728971405303415079934132710037826936173778980444968292764750946649017977587207096330286416692887910946555547851940402630657488671505820681908902000708383676273854845817711531764475730270069855571366959622842914819860834936475292719074168444365510704342711559699508093042880177904174497792

/-- The numbers `strconv.ParseFloat` accepts for a `float64`: those of absolute value
below `floatBound`. -/
def inFloatRange (q : ℚ) : Prop := q.num.natAbs < floatBound * q.den

instance (q : ℚ) : Decidable (inFloatRange q) := by
  unfold inFloatRange
  exact inferInstance

mutual
/-- The method `d.value` of `encoding/json`: decode the document `j` into the
destination `cur` of type `t`.  An interface destination is left as it is: the only
interface field of the file is `BoardWidget.Definition`, and a `BoardWidget` is always
decoded by its own `UnmarshalJSON`. -/
def decodeValue (hook : Hook) (t : GoType) (cur : GoVal) :
    Json → Option JsonError → Res GoVal
  | .null, saved => storeNull hook t cur saved
  | .bool b, saved =>
    if t.base.hasUnmarshaler then callHook hook t cur (.bool b) saved
    else match t.base with
      | .bool => .ok (reref t (.bool b)) saved
      | .iface => .ok cur saved
      | _ => typeError t cur "bool" saved
  | .str s, saved =>
    if t.base.hasUnmarshaler then callHook hook t cur (.str s) saved
    else match t.base with
      | .string => .ok (reref t (.str s)) saved
      | .iface => .ok cur saved
      | _ => typeError t cur "string" saved
  | .num n, saved =>
    if t.base.hasUnmarshaler then callHook hook t cur (.num n) saved
    else match t.base with
      | .int =>
        match n with
        | .int i => if inIntRange i then .ok (reref t (.int i)) saved
                    else typeError t cur "number" saved
        | .frac _ => typeError t cur "number" saved
      | .float64 =>
        match n with
        | .int i => if inFloatRange i then .ok (reref t (.float i)) saved
                    else typeError t cur "number" saved
        | .frac q => if inFloatRange q then .ok (reref t (.float q)) saved
                     else typeError t cur "number" saved
      | .iface => .ok cur saved
      | _ => typeError t cur "number" saved
  | .arr xs, saved =>
    if t.base.hasUnmarshaler then callHook hook t cur (.arr xs) saved
    else match t.base with
      | .slice e =>
        match decodeElems hook e (indirect t cur).elems xs saved with
        | .ok vs s => .ok (reref t (.slice vs)) s
        | .stop st => .stop st
      | .iface => .ok cur saved
      | _ => typeError t cur "array" saved
  | .obj kvs, saved =>
    if t.base.hasUnmarshaler then callHook hook t cur (.obj kvs) saved
    else match t.base with
      | .named n =>
        match decodeFields hook n.fields (indirect t cur).structFields kvs saved with
        | .ok fs s => .ok (reref t (.struct fs)) s
        | .stop st => .stop st
      | .iface => .ok cur saved
      | _ => typeError t cur "object" saved
/-- The loop of `d.array` over the elements: element `i` is decoded into the element
the slice already has at `i`, or into a zero value; a fault of an element ends the
decoding. -/
def decodeElems (hook : Hook) (e : GoType) :
    List GoVal → List Json → Option JsonError → Res (List GoVal)
  | _, [], saved => .ok [] saved
  | cur, x :: xs, saved =>
    match decodeValue hook e (cur.headD (zero e)) x saved with
    | .ok v s =>
      match decodeElems hook e cur.tail xs s with
      | .ok vs s2 => .ok (v :: vs) s2
      | .stop st => .stop st
    | .stop st => .stop st
/-- The loop of `d.object` over the members: a member whose key names a field is
decoded into that field, any other member is skipped. -/
def decodeFields (hook : Hook) (fields : List Field) :
    List GoVal → List (String × Json) → Option JsonError → Res (List GoVal)
  | cur, [], saved => .ok cur saved
  | cur, (k, v) :: kvs, saved =>
    match findField fields k with
    | none => decodeFields hook fields cur kvs saved
    | some (i, f) =>
      match decodeValue hook f.type (cur.getD i .nil) v saved with
      | .ok x s => decodeFields hook fields (cur.set i x) kvs s
      | .stop st => .stop st
end

/-- The call `json.Unmarshal(data, &x)` for a fresh variable `x` of type `t`: `ok v`
when it returns the nil error, with `v` the value of `x` afterwards; otherwise the
status (on an error the callers of this file never read `x`).  The status is the fault
that ended the decoding, otherwise the first error saved. -/
def jsonUnmarshal (hook : Hook) (t : GoType) (data : Json) : Except Status GoVal :=
  match decodeValue hook t (zero t) data none with
  | .ok v none => .ok v
  | .ok _ (some e) => .error (.error e)
  | .stop st => .error st

/-! ## `encoding/json`: encoding -/

/-- The function `isEmptyValue` of `encoding/json`, which decides `omitempty`. -/
def isEmptyValue : GoVal → Bool
  | .nil => true
  | .slice [] => true
  | .str s => s = ""
  | .int i => i = 0
  | .float q => q = 0
  | .bool b => b = false
  | _ => false

/-- The literal `json.Marshal` writes for a `float64`: no fraction and no exponent for
an integral value below `1e21` in absolute value. -/
def encodeFloat (q : ℚ) : JNumber :=
  if q.den = 1 ∧ |q.num| < 10 ^ 21 then .int q.num else .frac q

mutual
/-- The document `json.Marshal` writes for a value of static type `t`. -/
def encode : GoType → GoVal → Json
  | _, .nil => .null
  | _, .str s => .str s
  | _, .int i => .num (.int i)
  | _, .float q => .num (encodeFloat q)
  | _, .bool b => .bool b
  | t, .ptr v => encode t.elem v
  | t, .slice xs => .arr (encodeElems t.elem xs)
  | t, .struct fs => .obj (encodeFields t.fields fs)
  | _, .iface t v => encode t v
/-- The elements of an encoded slice. -/
def encodeElems : GoType → List GoVal → List Json
  | _, [] => []
  | e, v :: vs => encode e v :: encodeElems e vs
/-- The members of an encoded struct, in declaration order: a field tagged `omitempty`
is left out when its value is empty. -/
def encodeFields : List Field → List GoVal → List (String × Json)
  | f :: fields, v :: vs =>
    if f.omitempty && isEmptyValue v then encodeFields fields vs
    else (f.json, encode f.type v) :: encodeFields fields vs
  | _, _ => []
end

/-! ## The widget -/

/-- The constant `ALERT_GRAPH_WIDGET`. -/
abbrev ALERT_GRAPH_WIDGET : String := "alert_graph"
/-- The constant `ALERT_VALUE_WIDGET`. -/
abbrev ALERT_VALUE_WIDGET : String := "alert_value"
/-- The constant `CHANGE_WIDGET`. -/
abbrev CHANGE_WIDGET : String := "change"
/-- The constant `CHECK_STATUS_WIDGET`. -/
abbrev CHECK_STATUS_WIDGET : String := "check_status"
/-- The constant `DISTRIBUTION_WIDGET`. -/
abbrev DISTRIBUTION_WIDGET : String := "distribution"
/-- The constant `GROUP_WIDGET`. -/
abbrev GROUP_WIDGET : String := "group"
/-- The constant `NOTE_WIDGET`. -/
abbrev NOTE_WIDGET : String := "note"
/-- The constant `TIMESERIES_WIDGET`. -/
abbrev TIMESERIES_WIDGET : String := "timeseries"

/-- The struct `BoardWidget`: `Definition` is the `interface{}`, `Id` the `*int`,
`Layout` the `*WidgetLayout`. -/
structure BoardWidget where
  Definition : GoVal
  Id : GoVal
  Layout : GoVal
  deriving Repr

/-- A `BoardWidget` as a value of the struct type `BoardWidget`. -/
def BoardWidget.toVal (w : BoardWidget) : GoVal :=
  .struct [w.Definition, w.Id, w.Layout]

/-- The `BoardWidget` a struct value stands for. -/
def BoardWidget.ofVal (v : GoVal) : BoardWidget :=
  ⟨v.structFields.getD 0 .nil, v.structFields.getD 1 .nil, v.structFields.getD 2 .nil⟩

/-- The method `GetWidgetType`: a type switch on the dynamic type of `Definition`. -/
def BoardWidget.GetWidgetType (widget : BoardWidget) : String × Option JsonError :=
  match widget.Definition with
  | .iface (.named .AlertGraphDefinition) _ => (ALERT_GRAPH_WIDGET, none)
  | .iface (.named .AlertValueDefinition) _ => (ALERT_VALUE_WIDGET, none)
  | .iface (.named .ChangeDefinition) _ => (CHANGE_WIDGET, none)
  | .iface (.named .CheckStatusDefinition) _ => (CHECK_STATUS_WIDGET, none)
  | .iface (.named .DistributionDefinition) _ => (DISTRIBUTION_WIDGET, none)
  | .iface (.named .GroupDefinition) _ => (GROUP_WIDGET, none)
  | .iface (.named .NoteDefinition) _ => (NOTE_WIDGET, none)
  | .iface (.named .TimeseriesDefinition) _ => (TIMESERIES_WIDGET, none)
  | _ => ("", some (.Errorf "Unsupported widget type"))

/-- One case of the switch of `UnmarshalJSON`: decode `data` into a local struct
`wrapper` whose only field `Definition` has the struct type `defn`; on an error return
it, otherwise store the decoded definition in `widget.Definition`. -/
def unmarshalDefinition (hook : Hook) (wrapper defn : TypeName) (widget : BoardWidget)
    (data : Json) : Status × BoardWidget :=
  match jsonUnmarshal hook (.named wrapper) data with
  | .error st => (st, widget)
  | .ok v => (.nil, { widget with Definition := .iface (.named defn) (v.get wrapper "Definition") })

/-- The switch of `UnmarshalJSON` on the discriminator `type`. -/
def unmarshalSwitch (hook : Hook) (type : String) (widget : BoardWidget) (data : Json) :
    Status × BoardWidget :=
  if type = ALERT_GRAPH_WIDGET then
    unmarshalDefinition hook .alertGraphWidget .AlertGraphDefinition widget data
  else if type = ALERT_VALUE_WIDGET then
    unmarshalDefinition hook .alertValueWidget .AlertValueDefinition widget data
  else if type = CHANGE_WIDGET then
    unmarshalDefinition hook .changeWidget .ChangeDefinition widget data
  else if type = CHECK_STATUS_WIDGET then
    unmarshalDefinition hook .checkStatusWidget .CheckStatusDefinition widget data
  else if type = DISTRIBUTION_WIDGET then
    unmarshalDefinition hook .distributionWidget .DistributionDefinition widget data
  else if type = GROUP_WIDGET then
    unmarshalDefinition hook .groupWidget .GroupDefinition widget data
  else if type = NOTE_WIDGET then
    unmarshalDefinition hook .noteWidget .NoteDefinition widget data
  else if type = TIMESERIES_WIDGET then
    unmarshalDefinition hook .timeseriesWidget .TimeseriesDefinition widget data
  else
    (.error (.Errorf ("Cannot unmarshal widget of type: " ++ type)), widget)

/-- The body of `BoardWidget.UnmarshalJSON`, with `hook` standing for the method
itself where `json.Unmarshal` calls it on the widgets nested in a group.  The result
is the status and the receiver afterwards.  Dereferencing a nil pointer in
`*widgetHandler.Definition.Type` is the fault `panic`. -/
def unmarshalBody (hook : Hook) (widget : BoardWidget) (data : Json) :
    Status × BoardWidget :=
  match jsonUnmarshal hook (.named .widgetHandler) data with
  | .error st => (st, widget)
  | .ok widgetHandler =>
    -- Get the widget id
    let widget := { widget with Id := widgetHandler.get .widgetHandler "Id" }
    -- Get the widget layout
    let widget := { widget with Layout := widgetHandler.get .widgetHandler "Layout" }
    -- Get the widget definition based on the widget type
    match widgetHandler.get .widgetHandler "Definition" with
    | .ptr definition =>
      match definition.get .widgetHandler_Definition "Type" with
      | .ptr (.str type) => unmarshalSwitch hook type widget data
      | _ => (.panic, widget)
    | _ => (.panic, widget)

/-- The method `UnmarshalJSON` with a bound on the nesting of groups: with `n + 1` the
nested widgets are decoded with bound `n`. -/
def UnmarshalJSONFuel : Nat → BoardWidget → Json → Status × BoardWidget
  | 0, widget, _ => (.outOfFuel, widget)
  | n + 1, widget, data =>
    unmarshalBody
      (fun cur j => ((UnmarshalJSONFuel n (BoardWidget.ofVal cur) j).1,
        (UnmarshalJSONFuel n (BoardWidget.ofVal cur) j).2.toVal))
      widget data

/-- The method `BoardWidget.UnmarshalJSON` on the receiver `widget` and the document
`data`: the status and the receiver afterwards.  The bound is the depth of the
document, which no nesting of groups inside it can reach. -/
def BoardWidget.UnmarshalJSON (widget : BoardWidget) (data : Json) : Status × BoardWidget :=
  UnmarshalJSONFuel (data.depth + 1) widget data

/-- The call `json.Marshal(widget)`. -/
def BoardWidget.marshal (widget : BoardWidget) : Json :=
  encode (.named .BoardWidget) widget.toVal

/-! ## Notions used to state the properties -/

/-- The zero `BoardWidget`. -/
def zeroWidget : BoardWidget := ⟨.nil, .nil, .nil⟩

/-- The method `UnmarshalJSON` as `json.Unmarshal` calls it on a destination of type
`BoardWidget`, with nesting bound `n`. -/
def fuelHook (n : Nat) : Hook :=
  fun cur j => ((UnmarshalJSONFuel n (BoardWidget.ofVal cur) j).1,
    (UnmarshalJSONFuel n (BoardWidget.ofVal cur) j).2.toVal)

/-- A hook for decoding types that contain no `BoardWidget`: it is never called. -/
def noHook : Hook := fun cur _ => (.panic, cur)

/-- The first pass of `UnmarshalJSON`: the light struct `widgetHandler` decoded from
the document. -/
def peek (data : Json) : Except Status GoVal :=
  jsonUnmarshal noHook (.named .widgetHandler) data

/-- The discriminator the first pass finds at `definition.type`, when the pass
returns no error and the two pointers are set. -/
def discriminator (data : Json) : Option String :=
  match peek data with
  | .ok h =>
    match h.get .widgetHandler "Definition" with
    | .ptr d =>
      match d.get .widgetHandler_Definition "Type" with
      | .ptr (.str t) => some t
      | _ => none
    | _ => none
  | .error _ => none

/-- The discriminator of each of the eight definition structs. -/
def TypeName.discriminator : TypeName → Option String
  | .AlertGraphDefinition => some ALERT_GRAPH_WIDGET
  | .AlertValueDefinition => some ALERT_VALUE_WIDGET
  | .ChangeDefinition => some CHANGE_WIDGET
  | .CheckStatusDefinition => some CHECK_STATUS_WIDGET
  | .DistributionDefinition => some DISTRIBUTION_WIDGET
  | .GroupDefinition => some GROUP_WIDGET
  | .NoteDefinition => some NOTE_WIDGET
  | .TimeseriesDefinition => some TIMESERIES_WIDGET
  | _ => none

/-- The local struct `UnmarshalJSON` decodes each definition struct through. -/
def TypeName.wrapper : TypeName → TypeName
  | .AlertGraphDefinition => .alertGraphWidget
  | .AlertValueDefinition => .alertValueWidget
  | .ChangeDefinition => .changeWidget
  | .CheckStatusDefinition => .checkStatusWidget
  | .DistributionDefinition => .distributionWidget
  | .GroupDefinition => .groupWidget
  | .NoteDefinition => .noteWidget
  | .TimeseriesDefinition => .timeseriesWidget
  | n => n

/-- The struct types in which no `BoardWidget` occurs. -/
def TypeName.hookFree : TypeName → Bool
  | .BoardWidget => false
  | .GroupDefinition => false
  | .groupWidget => false
  | _ => true

/-- The types in which no `BoardWidget` occurs. -/
def GoType.hookFree : GoType → Bool
  | .ptr t => t.hookFree
  | .slice t => t.hookFree
  | .named n => n.hookFree
  | _ => true

/-- The types a pointer of the file points to: basic types and structs. -/
def GoType.isValueType : GoType → Bool
  | .string => true
  | .int => true
  | .float64 => true
  | .bool => true
  | .named _ => true
  | _ => false

/-- The values of the members of an object that are decoded into field `i`, in
document order. -/
def membersOf (fields : List Field) (i : Nat) (kvs : List (String × Json)) : List Json :=
  (kvs.filter (fun kv => (findField fields kv.1).map Prod.fst = some i)).map Prod.snd

/-- First error wins: the saved error after a step that started with `s` saved and
saves `e` when it starts with nothing saved. -/
def firstError (s e : Option JsonError) : Option JsonError :=
  match s with
  | some e0 => some e0
  | none => e

/-- A result with an earlier saved error put in front of its own. -/
def Res.addSaved {α : Type} (s : Option JsonError) : Res α → Res α
  | .ok a e => .ok a (firstError s e)
  | .stop st => .stop st

/-- The field `Definition` of a widget struct holds one of the eight definition
structs, by value, whose field `Type` points to the discriminator of the struct. -/
def definitionOK : List GoVal → Bool
  | .iface (.named d) dv :: _ =>
    match d.discriminator, dv.get d "Type" with
    | some t, .ptr (.str s) => s = t
    | _, _ => false
  | _ => false

/-- An empty slice that is not nil. -/
def emptyNotNil : GoVal → Bool
  | .slice [] => true
  | _ => false

mutual
/-- Depth of a value. -/
def GoVal.depth : GoVal → Nat
  | .ptr v => v.depth + 1
  | .slice xs => depthVals xs + 1
  | .struct fs => depthVals fs + 1
  | .iface _ v => v.depth + 1
  | _ => 0
/-- Largest depth among a list of values. -/
def depthVals : List GoVal → Nat
  | [] => 0
  | v :: vs => max v.depth (depthVals vs)
end

mutual
/-- Well-formed values of a type: the value has the shape of the type (an `int` is in
the 64-bit range, a `float64` in the range of `float64`, a pointer points to a basic
type or a struct), and every
`BoardWidget` in it satisfies `definitionOK`.  With `strict`, moreover no slice field
tagged `omitempty` holds an empty slice that is not nil. -/
def wellFormed (strict : Bool) : GoType → GoVal → Bool
  | .string, .str _ => true
  | .int, .int i => decide (inIntRange i)
  | .float64, .float q => decide (inFloatRange q)
  | .bool, .bool _ => true
  | .ptr _, .nil => true
  | .slice _, .nil => true
  | .iface, .nil => true
  | .ptr t, .ptr v => t.isValueType && wellFormed strict t v
  | .slice t, .slice xs => wellFormedElems strict t xs
  | .named n, .struct fs =>
    wellFormedFields strict n.fields fs && (n != .BoardWidget || definitionOK fs)
  | .iface, .iface t v => wellFormed strict t v
  | _, _ => false
/-- Well-formed elements of a slice. -/
def wellFormedElems (strict : Bool) : GoType → List GoVal → Bool
  | _, [] => true
  | t, v :: vs => wellFormed strict t v && wellFormedElems strict t vs
/-- Well-formed field values of a struct. -/
def wellFormedFields (strict : Bool) : List Field → List GoVal → Bool
  | [], [] => true
  | f :: fields, v :: vs =>
    wellFormed strict f.type v && !(strict && f.omitempty && emptyNotNil v)
      && wellFormedFields strict fields vs
  | _, _ => false
end

/-- Decode the documents `vs` one after the other into the same destination of type
`t`: what `decodeFields` does to one field when several members name it. -/
def decodeSeq (hook : Hook) (t : GoType) :
    GoVal → List Json → Option JsonError → Res GoVal
  | cur, [], saved => .ok cur saved
  | cur, v :: vs, saved =>
    match decodeValue hook t cur v saved with
    | .ok x s => decodeSeq hook t x vs s
    | .stop st => .stop st

/-- The types in which no `interface{}` occurs outside a struct. -/
def GoType.noIface : GoType → Bool
  | .iface => false
  | .ptr t => t.noIface
  | .slice t => t.noIface
  | _ => true

/-- A step into a document: to the member of an object for the key `k` of a struct
tag, or to the element `i` of an array. -/
inductive Step where
  | key (k : String)
  | index (i : Nat)
  deriving DecidableEq, Repr

/-- Follow a path in an encoded document. -/
def Json.follow : Json → List Step → Option Json
  | j, [] => some j
  | .obj kvs, .key k :: p =>
    match kvs.lookup k with
    | some v => v.follow p
    | none => none
  | .arr xs, .index i :: p =>
    match xs.get? i with
    | some x => x.follow p
    | none => none
  | _, _ => none

/-- The definition struct the switch of `UnmarshalJSON` selects for a discriminator. -/
def definitionOf (type : String) : Option TypeName :=
  if type = ALERT_GRAPH_WIDGET then some .AlertGraphDefinition
  else if type = ALERT_VALUE_WIDGET then some .AlertValueDefinition
  else if type = CHANGE_WIDGET then some .ChangeDefinition
  else if type = CHECK_STATUS_WIDGET then some .CheckStatusDefinition
  else if type = DISTRIBUTION_WIDGET then some .DistributionDefinition
  else if type = GROUP_WIDGET then some .GroupDefinition
  else if type = NOTE_WIDGET then some .NoteDefinition
  else if type = TIMESERIES_WIDGET then some .TimeseriesDefinition
  else none

/-- The fields the members of an object are decoded into when the destination is a
struct `n`: its own fields, and for a `BoardWidget`, whose `UnmarshalJSON` decodes `id`
and `layout` in its first pass, the fields of the light struct of that pass. -/
def TypeName.decodedFields (n : TypeName) : List Field :=
  if n = .BoardWidget then TypeName.widgetHandler.fields else n.fields

/-- Follow a path in a document that is decoded into a destination of type `t`, along
with the types: a step `key k` goes to the member decoded into the field tagged `k`,
provided it is the only member decoded into that field; in an envelope, the member
`definition` is decoded into the struct selected by the discriminator. -/
def descend : GoType → Json → List Step → Option (GoType × Json)
  | t, j, [] => some (t, j)
  | t, .obj kvs, .key k :: p =>
    match t.base with
    | .named n =>
      if n = .BoardWidget ∧ k = "definition" then
        match (discriminator (.obj kvs)).bind definitionOf with
        | some d =>
          match membersOf d.wrapper.fields 0 kvs with
          | [v] => descend (.named d) v p
          | _ => none
        | none => none
      else
        match findIdx (fun f => f.json = k) n.decodedFields with
        | some (i, f) =>
          match membersOf n.decodedFields i kvs with
          | [v] => descend f.type v p
          | _ => none
        | none => none
    | _ => none
  | t, .arr xs, .index i :: p =>
    match t.base with
    | .slice e =>
      match xs.get? i with
      | some x => descend e x p
      | none => none
    | _ => none
  | _, _, _ => none

/-- A timeseries envelope used as an example: `id` is `0`, the layout gives `x` as `0`
and no `height`, and the log query of its request computes with `interval` `0`. -/
def exampleTimeseries : Json :=
  .obj [("id", .num (.int 0)),
    ("definition", .obj [("type", .str "timeseries"),
      ("requests", .arr [.obj [("q", .str "avg:system.load.1"),
        ("log_query", .obj [("index", .str "main"),
          ("compute", .obj [("aggregation", .str "count"), ("interval", .num (.int 0))]),
          ("group_by", .arr [.obj [("facet", .str "host")]])])]])]),
    ("layout", .obj [("x", .num (.int 0)), ("y", .num (.frac (3 / 2)))])]

/-- An envelope with the discriminator `type` whose definition has one request. -/
def requestEnvelope (type : String) (request : Json) : Json :=
  .obj [("definition", .obj [("type", .str type), ("requests", .arr [request])])]

/-- A request that sets both `q` and `log_query`. -/
def bothQueries : Json :=
  .obj [("q", .str "avg:system.load.1"), ("log_query", .obj [("index", .str "main")])]

/-- The query fields `MetricQuery`, `ApmQuery`, `LogQuery` and `ProcessQuery` of each
request of a change, distribution or timeseries definition: the fields of the embedded
`WidgetRequest`, which come first in the three request structs. -/
def requestQueries (w : BoardWidget) : List (List GoVal) :=
  match w.Definition with
  | .iface (.named d) dv => (dv.get d "Requests").elems.map (fun r => r.structFields.take 4)
  | _ => []

/-- The `Type` pointer the first pass holds: `widgetHandler.Definition.Type` once
`Definition` is set, nil while `Definition` is nil. -/
def peekedType : GoVal → GoVal
  | .ptr x => x.structFields.getD 0 .nil
  | _ => .nil

/-- The types of the fields of the file other than `interface{}`: a pointer points to
a basic type or a struct, and a slice holds basic types or structs. -/
def GoType.regular : GoType → Bool
  | .iface => false
  | .ptr t => t.isValueType
  | .slice t => t.isValueType
  | _ => true

mutual
/-- The widgets nested in a widget, at any depth: the `Widgets` of the group definition
it holds, and the widgets nested in those. -/
def nestedWidgets : GoVal → List GoVal
  | .struct (.iface (.named .GroupDefinition) (.struct [_, _, .slice ws, _]) :: _) =>
    nestedWidgetsList ws
  | _ => []
/-- The widgets of a list, each followed by the widgets nested in it. -/
def nestedWidgetsList : List GoVal → List GoVal
  | [] => []
  | x :: xs => x :: (nestedWidgets x ++ nestedWidgetsList xs)
end

/-- A group envelope used as an example: a note, and a group that holds an alert
value. -/
def exampleGroup : Json :=
  .obj [("definition", .obj [("type", .str "group"), ("layout_type", .str "ordered"),
    ("widgets", .arr [
      .obj [("definition", .obj [("type", .str "note"), ("content", .str "hi")])],
      .obj [("id", .num (.int 3)),
        ("definition", .obj [("type", .str "group"), ("layout_type", .str "ordered"),
          ("widgets", .arr [
            .obj [("definition", .obj [("type", .str "alert_value"),
              ("alert_id", .str "17")])]])])]])])]

mutual
/-- No slice field tagged `omitempty` inside a value of type `t` holds an empty slice
that is not nil. -/
def noEmptyOptional : GoType → GoVal → Bool
  | t, .ptr v => noEmptyOptional t.elem v
  | t, .slice xs => noEmptyOptionalElems t.elem xs
  | t, .struct fs => noEmptyOptionalFields t.fields fs
  | _, .iface t v => noEmptyOptional t v
  | _, _ => true
/-- The elements of a slice: as `noEmptyOptional`. -/
def noEmptyOptionalElems : GoType → List GoVal → Bool
  | _, [] => true
  | e, v :: vs => noEmptyOptional e v && noEmptyOptionalElems e vs
/-- The fields of a struct: as `noEmptyOptional`. -/
def noEmptyOptionalFields : List Field → List GoVal → Bool
  | f :: fields, v :: vs =>
    !(f.omitempty && emptyNotNil v) && noEmptyOptional f.type v
      && noEmptyOptionalFields fields vs
  | _, _ => true
end

/-- A check status envelope that gives the optional list `tags` as an empty array. -/
def exampleEmptyTags : Json :=
  .obj [("definition", .obj [("type", .str "check_status"), ("check", .str "c"),
    ("grouping", .str "g"), ("tags", .arr [])])]

/-- A timeseries envelope that gives the required list `requests` as `null`, in a group
that gives an optional list with one element. -/
def exampleNullRequests : Json :=
  .obj [("definition", .obj [("type", .str "group"),
    ("widgets", .arr [
      .obj [("definition", .obj [("type", .str "timeseries"), ("requests", .null)])],
      .obj [("definition", .obj [("type", .str "check_status"),
        ("tags", .arr [.str "env:prod"])])],
      .obj [("definition", .obj [("type", .str "group"), ("widgets", .null)])]])])]

/-- A JSON value other than `null` of a kind the type cannot hold: the cases in which
`encoding/json` saves an `UnmarshalTypeError`. -/
def wrongKind : GoType → Json → Bool
  | _, .null => false
  | .iface, _ => false
  | .bool, .bool _ => false
  | .string, .str _ => false
  | .int, .num (.int i) => !decide (inIntRange i)
  | .float64, .num (.int i) => !decide (inFloatRange i)
  | .float64, .num (.frac q) => !decide (inFloatRange q)
  | .slice _, .arr _ => false
  | .named _, .obj _ => false
  | _, _ => true

mutual
/-- The document has, at a place `json.Unmarshal` reaches when it decodes into a
destination of type `t` without going through an `UnmarshalJSON` method, a value of a
kind the field or element there cannot hold. -/
def typeErrorIn : GoType → Json → Bool
  | t, .arr xs =>
    !t.base.hasUnmarshaler &&
      (match t.base with
        | .slice e => typeErrorInElems e xs
        | .iface => false
        | _ => true)
  | t, .obj kvs =>
    !t.base.hasUnmarshaler &&
      (match t.base with
        | .named n => typeErrorInMembers n.fields kvs
        | .iface => false
        | _ => true)
  | t, j => !t.base.hasUnmarshaler && wrongKind t.base j
/-- The elements of an array: as `typeErrorIn`. -/
def typeErrorInElems : GoType → List Json → Bool
  | _, [] => false
  | e, x :: xs => typeErrorIn e x || typeErrorInElems e xs
/-- The members of an object: as `typeErrorIn`. -/
def typeErrorInMembers : List Field → List (String × Json) → Bool
  | _, [] => false
  | fields, (k, v) :: kvs =>
    (match findField fields k with
      | some (_, f) => typeErrorIn f.type v
      | none => false) || typeErrorInMembers fields kvs
end

/-- A group envelope whose `title` is a number and whose only nested widget has no
`definition`. -/
def exampleWrongTitle : Json :=
  .obj [("definition", .obj [("type", .str "group"), ("title", .num (.int 5)),
    ("widgets", .arr [.obj []])])]

mutual
/-- The documents `json.Unmarshal` hands to an `UnmarshalJSON` method while it decodes a
document into a destination of type `t`. -/
def hookDocs : GoType → Json → List Json
  | t, .null => if t.hasUnmarshaler then [.null] else []
  | t, .arr xs =>
    if t.base.hasUnmarshaler then [.arr xs]
    else match t.base with
      | .slice e => hookDocsElems e xs
      | _ => []
  | t, .obj kvs =>
    if t.base.hasUnmarshaler then [.obj kvs]
    else match t.base with
      | .named n => hookDocsMembers n.fields kvs
      | _ => []
  | t, j => if t.base.hasUnmarshaler then [j] else []
/-- The elements of an array: as `hookDocs`. -/
def hookDocsElems : GoType → List Json → List Json
  | _, [] => []
  | e, x :: xs => hookDocs e x ++ hookDocsElems e xs
/-- The members of an object: as `hookDocs`. -/
def hookDocsMembers : List Field → List (String × Json) → List Json
  | _, [] => []
  | fields, (k, v) :: kvs =>
    (match findField fields k with
      | some (_, f) => hookDocs f.type v
      | none => []) ++ hookDocsMembers fields kvs
end

/-- The envelopes nested in an envelope: the elements of the arrays given for `widgets`
in the objects given for `definition`, that is, among the members decoded into the
field `Widgets` of a `GroupDefinition`, itself among the members decoded into the field
`Definition` of the local struct of the group case. -/
def nestedEnvelopes : Json → List Json
  | .obj kvs =>
    (membersOf TypeName.groupWidget.fields 0 kvs).flatMap (fun m =>
      match m with
      | .obj dkvs =>
        (membersOf TypeName.GroupDefinition.fields 2 dkvs).flatMap (fun a =>
          match a with
          | .arr ws => ws
          | _ => [])
      | _ => [])
  | _ => []

/-- The deepest nesting of arrays and objects `json.Unmarshal` accepts: its scanner
rejects a document nested deeper, before anything is decoded. -/
def maxNestingDepth : Nat := 10000

/-- The members of an object that stand before the first member decoded into field
`i`, in document order. -/
def membersBefore (fields : List Field) (i : Nat) (kvs : List (String × Json)) :
    List (String × Json) :=
  kvs.takeWhile (fun kv => decide ((findField fields kv.1).map Prod.fst ≠ some i))

/-! # Theorems -/

/-- The bound of `float64`, written out in `floatBound`, is `2^1024 - 2^970`. -/
theorem floatBound_eq : floatBound = 2 ^ 1024 - 2 ^ 970 := by
  norm_num [floatBound]


/-! ## The saved error -/

@[simp] theorem firstError_none (e : Option JsonError) : firstError none e = e := rfl

@[simp] theorem firstError_none_right (s : Option JsonError) : firstError s none = s := by
  cases s <;> rfl

@[simp] theorem firstError_some (e0 : JsonError) (e : Option JsonError) :
    firstError (some e0) e = some e0 := rfl

theorem firstError_assoc (a b c : Option JsonError) :
    firstError (firstError a b) c = firstError a (firstError b c) := by
  cases a <;> rfl

theorem firstError_eq_none {a b : Option JsonError} (h : firstError a b = none) :
    a = none ∧ b = none := by
  cases a <;> simp_all [firstError]

@[simp] theorem saveError_eq (s : Option JsonError) (e : JsonError) :
    saveError s e = firstError s (some e) := by
  cases s <;> rfl

@[simp] theorem Res.addSaved_none {α : Type} (r : Res α) : r.addSaved none = r := by
  cases r <;> rfl

@[simp] theorem Res.addSaved_ok {α : Type} (s e : Option JsonError) (a : α) :
    (Res.ok a e).addSaved s = .ok a (firstError s e) := rfl

@[simp] theorem Res.addSaved_stop {α : Type} (s : Option JsonError) (st : Status) :
    (Res.stop st : Res α).addSaved s = .stop st := rfl

theorem callHook_saved (hook : Hook) (t : GoType) (cur : GoVal) (j : Json)
    (s : Option JsonError) :
    callHook hook t cur j s = (callHook hook t cur j none).addSaved s := by
  unfold callHook
  split <;> simp

theorem storeNull_saved (hook : Hook) (t : GoType) (cur : GoVal) (s : Option JsonError) :
    storeNull hook t cur s = (storeNull hook t cur none).addSaved s := by
  unfold storeNull
  split <;> try simp
  split <;> try simp
  split <;> simp

theorem typeError_saved (t : GoType) (cur : GoVal) (v : String) (s : Option JsonError) :
    typeError t cur v s = (typeError t cur v none).addSaved s := by
  simp [typeError]

mutual
/-- The value a decoding step produces does not depend on the error saved before it,
and the step only adds to the saved error. -/
theorem decodeValue_saved (hook : Hook) (t : GoType) (cur : GoVal) :
    ∀ (j : Json) (s : Option JsonError),
      decodeValue hook t cur j s = (decodeValue hook t cur j none).addSaved s
  | .null, s => by simp only [decodeValue]; exact storeNull_saved ..
  | .bool b, s => by
    simp only [decodeValue]
    split
    · exact callHook_saved ..
    · split <;> first | simp | exact typeError_saved ..
  | .str x, s => by
    simp only [decodeValue]
    split
    · exact callHook_saved ..
    · split <;> first | simp | exact typeError_saved ..
  | .num n, s => by
    simp only [decodeValue]
    split
    · exact callHook_saved ..
    · split
      · split
        · split <;> first | simp | exact typeError_saved ..
        · exact typeError_saved ..
      · split <;> split <;> first | simp | exact typeError_saved ..
      · simp
      · exact typeError_saved ..
  | .arr xs, s => by
    simp only [decodeValue]
    split
    · exact callHook_saved ..
    · split
      · rw [decodeElems_saved hook _ _ xs s]
        cases decodeElems hook _ _ xs none <;> simp
      · simp
      · exact typeError_saved ..
  | .obj kvs, s => by
    simp only [decodeValue]
    split
    · exact callHook_saved ..
    · split
      · rw [decodeFields_saved hook _ _ kvs s]
        cases decodeFields hook _ _ kvs none <;> simp
      · simp
      · exact typeError_saved ..
/-- The elements of an array: as `decodeValue_saved`. -/
theorem decodeElems_saved (hook : Hook) (e : GoType) :
    ∀ (cur : List GoVal) (xs : List Json) (s : Option JsonError),
      decodeElems hook e cur xs s = (decodeElems hook e cur xs none).addSaved s
  | _, [], s => by simp [decodeElems]
  | cur, x :: xs, s => by
    simp only [decodeElems]
    rw [decodeValue_saved hook e _ x s]
    cases hx : decodeValue hook e (cur.headD (zero e)) x none with
    | stop st => simp
    | ok v s1 =>
      simp only [Res.addSaved_ok]
      rw [decodeElems_saved hook e cur.tail xs (firstError s s1),
        decodeElems_saved hook e cur.tail xs s1]
      cases decodeElems hook e cur.tail xs none <;> simp [firstError_assoc]
/-- The members of an object: as `decodeValue_saved`. -/
theorem decodeFields_saved (hook : Hook) (fields : List Field) :
    ∀ (cur : List GoVal) (kvs : List (String × Json)) (s : Option JsonError),
      decodeFields hook fields cur kvs s = (decodeFields hook fields cur kvs none).addSaved s
  | cur, [], s => by simp [decodeFields]
  | cur, (k, v) :: kvs, s => by
    simp only [decodeFields]
    split
    · exact decodeFields_saved hook fields cur kvs s
    · rename_i i f _
      rw [decodeValue_saved hook f.type _ v s]
      cases hx : decodeValue hook f.type (cur.getD i .nil) v none with
      | stop st => simp
      | ok x s1 =>
        simp only [Res.addSaved_ok]
        rw [decodeFields_saved hook fields _ kvs (firstError s s1),
          decodeFields_saved hook fields _ kvs s1]
        cases decodeFields hook fields (cur.set i x) kvs none <;> simp [firstError_assoc]
end

/-! ## Types without `BoardWidget` -/

theorem TypeName.hookFree_fields (n : TypeName) (h : n.hookFree = true) :
    ∀ f ∈ n.fields, f.type.hookFree = true := by
  cases n <;> revert h <;> decide

theorem GoType.hookFree_base : ∀ (t : GoType), t.hookFree = true → t.base.hookFree = true
  | .ptr t, h => by simpa [GoType.base] using GoType.hookFree_base t (by simpa [GoType.hookFree] using h)
  | .string, _ => rfl
  | .int, _ => rfl
  | .float64, _ => rfl
  | .bool, _ => rfl
  | .iface, _ => rfl
  | .slice t, h => by simpa [GoType.base] using h
  | .named n, h => by simpa [GoType.base] using h

theorem GoType.hookFree_hasUnmarshaler (t : GoType) (h : t.hookFree = true) :
    t.hasUnmarshaler = false := by
  cases t <;> try rfl
  rename_i n
  cases n <;> first | rfl | simp [GoType.hookFree, TypeName.hookFree] at h

theorem findIdx_mem (p : Field → Bool) :
    ∀ (fields : List Field) (i : Nat) (f : Field), findIdx p fields = some (i, f) →
      fields.get? i = some f ∧ p f = true
  | [], _, _, h => by simp [findIdx] at h
  | g :: gs, i, f, h => by
    simp only [findIdx] at h
    split at h
    · rename_i hp
      simp only [Option.some.injEq, Prod.mk.injEq] at h
      obtain ⟨rfl, rfl⟩ := h
      exact ⟨rfl, hp⟩
    · cases hr : findIdx p gs with
      | none => simp [hr] at h
      | some r =>
        simp only [hr, Option.map_some', Option.some.injEq, Prod.mk.injEq] at h
        obtain ⟨rfl, rfl⟩ := h
        have := findIdx_mem p gs r.1 r.2 (by simpa using hr)
        simpa using this

theorem findField_get (fields : List Field) (k : String) (i : Nat) (f : Field)
    (h : findField fields k = some (i, f)) : fields.get? i = some f := by
  unfold findField at h
  split at h
  · rename_i r hr
    simp only [Option.some.injEq] at h
    subst h
    exact (findIdx_mem _ fields _ _ hr).1
  · exact (findIdx_mem _ fields _ _ h).1

theorem findField_mem (fields : List Field) (k : String) (i : Nat) (f : Field)
    (h : findField fields k = some (i, f)) : f ∈ fields :=
  List.get?_mem (findField_get fields k i f h)

theorem storeNull_hookFree (h h2 : Hook) (t : GoType) (ht : t.hookFree = true) (cur : GoVal)
    (s : Option JsonError) :
    (∃ v s2, storeNull h t cur s = .ok v s2) ∧ storeNull h t cur s = storeNull h2 t cur s := by
  have hu := GoType.hookFree_hasUnmarshaler t ht
  cases t <;> simp_all [storeNull, GoType.hasUnmarshaler]

mutual
/-- Decoding into a type without `BoardWidget` never stops early and does not depend
on the hook. -/
theorem decodeValue_hookFree (h h2 : Hook) (t : GoType) (ht : t.hookFree = true)
    (cur : GoVal) : ∀ (j : Json) (s : Option JsonError),
      (∃ v s2, decodeValue h t cur j s = .ok v s2) ∧
        decodeValue h t cur j s = decodeValue h2 t cur j s
  | .null, s => by simp only [decodeValue]; exact storeNull_hookFree h h2 t ht cur s
  | .bool b, s => by
    have hu := GoType.hookFree_hasUnmarshaler _ (GoType.hookFree_base t ht)
    simp only [decodeValue, hu]
    cases t.base <;> simp [typeError]
  | .str x, s => by
    have hu := GoType.hookFree_hasUnmarshaler _ (GoType.hookFree_base t ht)
    simp only [decodeValue, hu]
    cases t.base <;> simp [typeError]
  | .num n, s => by
    have hu := GoType.hookFree_hasUnmarshaler _ (GoType.hookFree_base t ht)
    simp only [decodeValue, hu]
    cases t.base <;> cases n <;> simp [typeError]
    all_goals (split <;> simp)
  | .arr xs, s => by
    have hb := GoType.hookFree_base t ht
    have hu := GoType.hookFree_hasUnmarshaler _ hb
    simp only [decodeValue, hu]
    cases htb : t.base with
    | slice e =>
      have he : e.hookFree = true := by simpa [htb, GoType.hookFree] using hb
      obtain ⟨⟨vs, s2, hok⟩, heq⟩ := decodeElems_hookFree h h2 e he (indirect t cur).elems xs s
      simp [← heq, hok]
    | _ => simp [typeError]
  | .obj kvs, s => by
    have hb := GoType.hookFree_base t ht
    have hu := GoType.hookFree_hasUnmarshaler _ hb
    simp only [decodeValue, hu]
    cases htb : t.base with
    | named n =>
      have hn : n.hookFree = true := by simpa [htb, GoType.hookFree] using hb
      obtain ⟨⟨vs, s2, hok⟩, heq⟩ := decodeFields_hookFree h h2 n.fields
        (TypeName.hookFree_fields n hn) (indirect t cur).structFields kvs s
      simp [← heq, hok]
    | _ => simp [typeError]
/-- The elements of an array: as `decodeValue_hookFree`. -/
theorem decodeElems_hookFree (h h2 : Hook) (e : GoType) (he : e.hookFree = true) :
    ∀ (cur : List GoVal) (xs : List Json) (s : Option JsonError),
      (∃ vs s2, decodeElems h e cur xs s = .ok vs s2) ∧
        decodeElems h e cur xs s = decodeElems h2 e cur xs s
  | _, [], s => by simp [decodeElems]
  | cur, x :: xs, s => by
    obtain ⟨⟨v, s1, hok⟩, heq⟩ := decodeValue_hookFree h h2 e he (cur.headD (zero e)) x s
    obtain ⟨⟨vs, s2, hok2⟩, heq2⟩ := decodeElems_hookFree h h2 e he cur.tail xs s1
    simp only [decodeElems, ← heq, hok, ← heq2, hok2]
    simp
/-- The members of an object: as `decodeValue_hookFree`. -/
theorem decodeFields_hookFree (h h2 : Hook) (fields : List Field)
    (hf : ∀ f ∈ fields, f.type.hookFree = true) :
    ∀ (cur : List GoVal) (kvs : List (String × Json)) (s : Option JsonError),
      (∃ vs s2, decodeFields h fields cur kvs s = .ok vs s2) ∧
        decodeFields h fields cur kvs s = decodeFields h2 fields cur kvs s
  | cur, [], s => by simp [decodeFields]
  | cur, (k, v) :: kvs, s => by
    simp only [decodeFields]
    cases hk : findField fields k with
    | none => exact decodeFields_hookFree h h2 fields hf cur kvs s
    | some r =>
      obtain ⟨i, f⟩ := r
      have hft := hf f (findField_mem fields k i f hk)
      obtain ⟨⟨x, s1, hok⟩, heq⟩ := decodeValue_hookFree h h2 f.type hft (cur.getD i .nil) v s
      obtain ⟨⟨vs, s2, hok2⟩, heq2⟩ := decodeFields_hookFree h h2 fields hf (cur.set i x) kvs s1
      simp only [← heq, hok, ← heq2, hok2]
      simp
end

/-- The first pass of `UnmarshalJSON` does not depend on the hook: it is `peek`. -/
theorem jsonUnmarshal_widgetHandler (h : Hook) (data : Json) :
    jsonUnmarshal h (.named .widgetHandler) data = peek data := by
  unfold peek jsonUnmarshal
  rw [(decodeValue_hookFree h noHook (.named .widgetHandler) rfl _ data none).2]

/-! ## The body of `UnmarshalJSON` -/

theorem UnmarshalJSONFuel_succ (n : Nat) (widget : BoardWidget) (data : Json) :
    UnmarshalJSONFuel (n + 1) widget data = unmarshalBody (fuelHook n) widget data := rfl

theorem UnmarshalJSON_eq (widget : BoardWidget) (data : Json) :
    widget.UnmarshalJSON data = unmarshalBody (fuelHook data.depth) widget data := rfl

/-- The receiver after the body ran past the first pass and did not store a
definition. -/
theorem unmarshalSwitch_not_nil (hook : Hook) (type : String) (widget : BoardWidget)
    (data : Json) (hs : (unmarshalSwitch hook type widget data).1 ≠ .nil) :
    (unmarshalSwitch hook type widget data).2 = widget := by
  have key : ∀ (wr dn : TypeName) (w : BoardWidget),
      (unmarshalDefinition hook wr dn w data).1 ≠ .nil →
        (unmarshalDefinition hook wr dn w data).2 = w := by
    intro wr dn w hne
    unfold unmarshalDefinition at hne ⊢
    cases hj : jsonUnmarshal hook (.named wr) data with
    | error st => simp
    | ok v => simp [hj] at hne
  unfold unmarshalSwitch at hs ⊢
  repeat' split
  all_goals first
    | rfl
    | (apply key; simp_all)

/-- The body in terms of the discriminator found by the first pass. -/
theorem unmarshalBody_discriminator (hook : Hook) (widget : BoardWidget) (data : Json)
    (t : String) (h d : GoVal) (hp : peek data = .ok h)
    (hdef : h.get .widgetHandler "Definition" = .ptr d)
    (htype : d.get .widgetHandler_Definition "Type" = .ptr (.str t)) :
    unmarshalBody hook widget data =
      unmarshalSwitch hook t
        { widget with Id := h.get .widgetHandler "Id", Layout := h.get .widgetHandler "Layout" }
        data := by
  unfold unmarshalBody
  rw [jsonUnmarshal_widgetHandler, hp]
  simp only [hdef, htype]

/-- The receiver after the body ran past the first pass and did not store a
definition. -/
theorem unmarshalBody_peek_ok (hook : Hook) (widget : BoardWidget) (data : Json) (h : GoVal)
    (hp : peek data = .ok h) (hs : (unmarshalBody hook widget data).1 ≠ .nil) :
    (unmarshalBody hook widget data).2 =
      { widget with Id := h.get .widgetHandler "Id", Layout := h.get .widgetHandler "Layout" } := by
  unfold unmarshalBody at hs ⊢
  rw [jsonUnmarshal_widgetHandler, hp] at hs ⊢
  simp only at hs ⊢
  split
  · split
    · rename_i hdef _ _ htype
      simp only [hdef, htype] at hs
      exact unmarshalSwitch_not_nil hook _ _ data hs
    · rfl
  · rfl

/-! ## Unknown and missing discriminators -/

/-- What `discriminator data = some t` says about the first pass. -/
theorem discriminator_some {data : Json} {t : String} (hd : discriminator data = some t) :
    ∃ h d, peek data = .ok h ∧ h.get .widgetHandler "Definition" = .ptr d ∧
      d.get .widgetHandler_Definition "Type" = .ptr (.str t) := by
  unfold discriminator at hd
  split at hd
  · rename_i h hp
    split at hd
    · rename_i d hdef
      split at hd
      · rename_i t2 htype
        simp only [Option.some.injEq] at hd
        subst hd
        exact ⟨h, d, hp, hdef, htype⟩
      · simp at hd
    · simp at hd
  · simp at hd

/-- C3: on the envelope `{"definition":{}}`, whose definition has no key `type`, and on
`{"definition":{"type":null}}`, `UnmarshalJSON` does not return an error: it faults,
dereferencing the nil pointer `widgetHandler.Definition.Type`.  (On
`{"definition":{"type":5}}`, where `type` is not a string, it does return an error, the
type error of the first pass.) -/
theorem missing_type_panics (widget : BoardWidget) :
    (widget.UnmarshalJSON (.obj [("definition", .obj [])])).1 = .panic ∧
    (widget.UnmarshalJSON (.obj [("definition", .obj [("type", .null)])])).1 = .panic ∧
    (widget.UnmarshalJSON (.obj [("definition", .obj [("type", .num (.int 5))])])).1
      = .error (.UnmarshalTypeError "number" .string) :=
  ⟨rfl, rfl, rfl⟩

/-- C4: on the envelope `{}`, which has no key `definition`, and on
`{"definition":null}`, `UnmarshalJSON` does not return an error: it faults,
dereferencing the nil pointer `widgetHandler.Definition`. -/
theorem missing_definition_panics (widget : BoardWidget) :
    (widget.UnmarshalJSON (.obj [])).1 = .panic ∧
    (widget.UnmarshalJSON (.obj [("definition", .null)])).1 = .panic :=
  ⟨rfl, rfl⟩

/-! ## The receiver after an error -/

/-- C8, as stated, fails: on `{"definition":{"type":"unknown_widget"},"id":7}` the
method returns an error and the receiver's `Id`, which pointed to `1`, points to `7`. -/
theorem all_or_nothing_counterexample :
    ((⟨.nil, .ptr (.int 1), .nil⟩ : BoardWidget).UnmarshalJSON
        (.obj [("definition", .obj [("type", .str "unknown_widget")]),
               ("id", .num (.int 7))])) =
      (.error (.Errorf "Cannot unmarshal widget of type: unknown_widget"),
        ⟨.nil, .ptr (.int 7), .nil⟩) ∧
      (⟨.nil, .ptr (.int 7), .nil⟩ : BoardWidget).Id
        ≠ (⟨.nil, .ptr (.int 1), .nil⟩ : BoardWidget).Id :=
  ⟨rfl, by simp⟩

/-- C8, amended: when `UnmarshalJSON` returns an error, `Definition` is unchanged; if
the error comes from the first pass the whole receiver is unchanged, and otherwise
`Id` and `Layout` have been overwritten with the values the first pass decoded from
the document. -/
theorem error_keeps_definition (widget : BoardWidget) (data : Json) (e : JsonError)
    (herr : (widget.UnmarshalJSON data).1 = .error e) :
    (widget.UnmarshalJSON data).2.Definition = widget.Definition ∧
      match peek data with
      | .error _ => (widget.UnmarshalJSON data).2 = widget
      | .ok h =>
        (widget.UnmarshalJSON data).2.Id = h.get .widgetHandler "Id" ∧
        (widget.UnmarshalJSON data).2.Layout = h.get .widgetHandler "Layout" := by
  rw [UnmarshalJSON_eq] at herr ⊢
  cases hp : peek data with
  | error st =>
    have : unmarshalBody (fuelHook data.depth) widget data = (st, widget) := by
      unfold unmarshalBody
      rw [jsonUnmarshal_widgetHandler, hp]
    simp [this]
  | ok h =>
    have := unmarshalBody_peek_ok (fuelHook data.depth) widget data h hp (by simp [herr])
    simp [this]

/-- C8, amended, on `{"definition":{"type":"note","content":1},"id":7}`, where the
second pass fails. -/
theorem error_keeps_definition_witness :
    ((⟨.iface (.named .NoteDefinition) (.struct []), .ptr (.int 1), .nil⟩ :
        BoardWidget).UnmarshalJSON
      (.obj [("definition", .obj [("type", .str "note"), ("content", .num (.int 1))]),
             ("id", .num (.int 7))])).2.Definition
      = .iface (.named .NoteDefinition) (.struct []) :=
  (error_keeps_definition ⟨.iface (.named .NoteDefinition) (.struct []), .ptr (.int 1), .nil⟩
    (.obj [("definition", .obj [("type", .str "note"), ("content", .num (.int 1))]),
           ("id", .num (.int 7))])
    (.UnmarshalTypeError "number" .string) rfl).1

/-! ## The nesting bound -/

theorem callHook_congr (h h2 : Hook) (t : GoType) (cur : GoVal) (j : Json)
    (s : Option JsonError) (hh : ∀ c, h c j = h2 c j) :
    callHook h t cur j s = callHook h2 t cur j s := by
  unfold callHook
  rw [hh]

theorem storeNull_congr (h h2 : Hook) (t : GoType) (cur : GoVal) (s : Option JsonError)
    (hh : ∀ c, h c .null = h2 c .null) : storeNull h t cur s = storeNull h2 t cur s := by
  unfold storeNull
  rw [hh]

mutual
/-- Two hooks that agree on the documents no deeper than `j` decode `j` alike. -/
theorem decodeValue_congr (h h2 : Hook) (t : GoType) (cur : GoVal) :
    ∀ (j : Json) (s : Option JsonError),
      (∀ c j2, j2.depth ≤ j.depth → h c j2 = h2 c j2) →
      decodeValue h t cur j s = decodeValue h2 t cur j s
  | .null, s, hh => by
    simp only [decodeValue]
    exact storeNull_congr h h2 t cur s (fun c => hh c .null (Nat.le_refl _))
  | .bool b, s, hh => by
    simp only [decodeValue]
    rw [callHook_congr h h2 t cur _ s (fun c => hh c _ (Nat.le_refl _))]
  | .str x, s, hh => by
    simp only [decodeValue]
    rw [callHook_congr h h2 t cur _ s (fun c => hh c _ (Nat.le_refl _))]
  | .num n, s, hh => by
    simp only [decodeValue]
    rw [callHook_congr h h2 t cur _ s (fun c => hh c _ (Nat.le_refl _))]
  | .arr xs, s, hh => by
    simp only [decodeValue]
    rw [callHook_congr h h2 t cur _ s (fun c => hh c _ (Nat.le_refl _))]
    split
    · rfl
    · split
      · rw [decodeElems_congr h h2 _ _ xs s
          (fun c j2 hj => hh c j2 (by simp only [Json.depth]; omega))]
      · rfl
      · rfl
  | .obj kvs, s, hh => by
    simp only [decodeValue]
    rw [callHook_congr h h2 t cur _ s (fun c => hh c _ (Nat.le_refl _))]
    split
    · rfl
    · split
      · rw [decodeFields_congr h h2 _ _ kvs s
          (fun c j2 hj => hh c j2 (by simp only [Json.depth]; omega))]
      · rfl
      · rfl
/-- The elements of an array: as `decodeValue_congr`. -/
theorem decodeElems_congr (h h2 : Hook) (e : GoType) :
    ∀ (cur : List GoVal) (xs : List Json) (s : Option JsonError),
      (∀ c j2, j2.depth ≤ depthElems xs → h c j2 = h2 c j2) →
      decodeElems h e cur xs s = decodeElems h2 e cur xs s
  | _, [], s, _ => by simp [decodeElems]
  | cur, x :: xs, s, hh => by
    simp only [decodeElems]
    rw [decodeValue_congr h h2 e _ x s
      (fun c j2 hj => hh c j2 (by simp only [depthElems]; omega))]
    cases decodeValue h2 e (cur.headD (zero e)) x s with
    | stop st => rfl
    | ok v s1 =>
      simp only
      rw [decodeElems_congr h h2 e cur.tail xs s1
        (fun c j2 hj => hh c j2 (by simp only [depthElems]; omega))]
/-- The members of an object: as `decodeValue_congr`. -/
theorem decodeFields_congr (h h2 : Hook) (fields : List Field) :
    ∀ (cur : List GoVal) (kvs : List (String × Json)) (s : Option JsonError),
      (∀ c j2, j2.depth ≤ depthMembers kvs → h c j2 = h2 c j2) →
      decodeFields h fields cur kvs s = decodeFields h2 fields cur kvs s
  | cur, [], s, _ => by simp [decodeFields]
  | cur, (k, v) :: kvs, s, hh => by
    simp only [decodeFields]
    have hrest := fun (c : List GoVal) (s1 : Option JsonError) =>
      decodeFields_congr h h2 fields c kvs s1
        (fun c j2 hj => hh c j2 (by simp only [depthMembers]; omega))
    split
    · exact hrest _ _
    · rename_i i f _
      rw [decodeValue_congr h h2 f.type _ v s
        (fun c j2 hj => hh c j2 (by simp only [depthMembers]; omega))]
      cases decodeValue h2 f.type (cur.getD i .nil) v s with
      | stop st => rfl
      | ok x s1 => exact hrest _ _
end

/-- Into a type without `UnmarshalJSON` of its own, two hooks that agree on the
documents strictly less deep than `j` decode `j` alike. -/
theorem decodeValue_congr_strict (h h2 : Hook) (t : GoType) (hu : t.base.hasUnmarshaler = false)
    (cur : GoVal) (j : Json) (s : Option JsonError)
    (hh : ∀ c j2, j2.depth < j.depth → h c j2 = h2 c j2) :
    decodeValue h t cur j s = decodeValue h2 t cur j s := by
  cases j with
  | null =>
    simp only [decodeValue]
    unfold storeNull
    cases t <;> try rfl
    rename_i n
    have : n.hasUnmarshaler = false := by simpa [GoType.base, GoType.hasUnmarshaler] using hu
    simp [this]
  | bool b => simp only [decodeValue, hu]; rfl
  | str x => simp only [decodeValue, hu]; rfl
  | num n => simp only [decodeValue, hu]; rfl
  | arr xs =>
    simp only [decodeValue, hu]
    simp only [Bool.false_eq_true, if_false]
    split
    · rw [decodeElems_congr h h2 _ _ xs s
        (fun c j2 hj => hh c j2 (by simp only [Json.depth]; omega))]
    · rfl
    · rfl
  | obj kvs =>
    simp only [decodeValue, hu]
    simp only [Bool.false_eq_true, if_false]
    split
    · rw [decodeFields_congr h h2 _ _ kvs s
        (fun c j2 hj => hh c j2 (by simp only [Json.depth]; omega))]
    · rfl
    · rfl

theorem jsonUnmarshal_congr_strict (h h2 : Hook) (n : TypeName) (hu : n.hasUnmarshaler = false)
    (data : Json) (hh : ∀ c j2, j2.depth < data.depth → h c j2 = h2 c j2) :
    jsonUnmarshal h (.named n) data = jsonUnmarshal h2 (.named n) data := by
  unfold jsonUnmarshal
  rw [decodeValue_congr_strict h h2 (.named n) (by simpa [GoType.base, GoType.hasUnmarshaler] using hu)
    _ data none hh]

theorem unmarshalDefinition_congr (h h2 : Hook) (wr dn : TypeName)
    (hu : wr.hasUnmarshaler = false) (widget : BoardWidget) (data : Json)
    (hh : ∀ c j2, j2.depth < data.depth → h c j2 = h2 c j2) :
    unmarshalDefinition h wr dn widget data = unmarshalDefinition h2 wr dn widget data := by
  unfold unmarshalDefinition
  rw [jsonUnmarshal_congr_strict h h2 wr hu data hh]

/-- The body of `UnmarshalJSON` calls the hook only on documents strictly less deep
than `data`. -/
theorem unmarshalBody_congr (h h2 : Hook) (widget : BoardWidget) (data : Json)
    (hh : ∀ c j2, j2.depth < data.depth → h c j2 = h2 c j2) :
    unmarshalBody h widget data = unmarshalBody h2 widget data := by
  unfold unmarshalBody unmarshalSwitch
  simp only [jsonUnmarshal_widgetHandler]
  simp only [fun wr dn hu w => unmarshalDefinition_congr h h2 wr dn hu w data hh,
    TypeName.hasUnmarshaler]

/-- Any two bounds above the depth of the document give the same result. -/
theorem UnmarshalJSONFuel_agree : ∀ (n m : Nat) (widget : BoardWidget) (data : Json),
    data.depth < n → data.depth < m →
      UnmarshalJSONFuel n widget data = UnmarshalJSONFuel m widget data
  | 0, _, _, _, hn, _ => by omega
  | _ + 1, 0, _, _, _, hm => by omega
  | n + 1, m + 1, widget, data, hn, hm => by
    rw [UnmarshalJSONFuel_succ, UnmarshalJSONFuel_succ]
    apply unmarshalBody_congr
    intro c j2 hj
    unfold fuelHook
    rw [UnmarshalJSONFuel_agree n m (BoardWidget.ofVal c) j2 (by omega) (by omega)]

/-- With a bound above the depth of the document, the bounded method is
`UnmarshalJSON`. -/
theorem UnmarshalJSONFuel_eq (n : Nat) (widget : BoardWidget) (data : Json)
    (hn : data.depth < n) : UnmarshalJSONFuel n widget data = widget.UnmarshalJSON data :=
  UnmarshalJSONFuel_agree n (data.depth + 1) widget data hn (Nat.lt_succ_self _)

/-- The hook of the body, on a document below the bound, is `UnmarshalJSON`. -/
theorem fuelHook_eq (n : Nat) (cur : GoVal) (j : Json) (hn : j.depth < n) :
    fuelHook n cur j =
      (((BoardWidget.ofVal cur).UnmarshalJSON j).1, ((BoardWidget.ofVal cur).UnmarshalJSON j).2.toVal) := by
  unfold fuelHook
  rw [UnmarshalJSONFuel_eq n _ j hn]

/-! ## One field of an object -/

theorem decodeSeq_saved (hook : Hook) (t : GoType) :
    ∀ (vs : List Json) (cur : GoVal) (s : Option JsonError),
      decodeSeq hook t cur vs s = (decodeSeq hook t cur vs none).addSaved s
  | [], cur, s => by simp [decodeSeq]
  | v :: vs, cur, s => by
    simp only [decodeSeq]
    rw [decodeValue_saved hook t cur v s]
    cases decodeValue hook t cur v none with
    | stop st => simp
    | ok x s1 =>
      simp only [Res.addSaved_ok]
      rw [decodeSeq_saved hook t vs x (firstError s s1), decodeSeq_saved hook t vs x s1]
      cases decodeSeq hook t x vs none <;> simp [firstError_assoc]

theorem membersOf_nil (fields : List Field) (i : Nat) : membersOf fields i [] = [] := rfl

theorem membersOf_cons (fields : List Field) (i : Nat) (k : String) (v : Json)
    (kvs : List (String × Json)) :
    membersOf fields i ((k, v) :: kvs) =
      if (findField fields k).map Prod.fst = some i then v :: membersOf fields i kvs
      else membersOf fields i kvs := by
  unfold membersOf
  by_cases h : (findField fields k).map Prod.fst = some i <;> simp [List.filter_cons, h]

theorem decodeFields_saved_none {hook : Hook} {fields : List Field} {cur out : List GoVal}
    {kvs : List (String × Json)} {s : Option JsonError}
    (h : decodeFields hook fields cur kvs s = .ok out none) : s = none := by
  rw [decodeFields_saved] at h
  cases hd : decodeFields hook fields cur kvs none with
  | stop st => simp [hd] at h
  | ok o e =>
    simp only [hd, Res.addSaved_ok, Res.ok.injEq] at h
    exact (firstError_eq_none h.2).1

theorem decodeFields_length (hook : Hook) (fields : List Field) :
    ∀ (kvs : List (String × Json)) (cur out : List GoVal) (s s2 : Option JsonError),
      decodeFields hook fields cur kvs s = .ok out s2 → out.length = cur.length
  | [], cur, out, s, s2, h => by
    simp only [decodeFields, Res.ok.injEq] at h
    rw [← h.1]
  | (k, v) :: kvs, cur, out, s, s2, h => by
    simp only [decodeFields] at h
    split at h
    · exact decodeFields_length hook fields kvs cur out s s2 h
    · rename_i i f _
      cases hx : decodeValue hook f.type (cur.getD i .nil) v s with
      | stop st => rw [hx] at h; cases h
      | ok x s1 =>
        rw [hx] at h
        simpa using decodeFields_length hook fields kvs _ out s1 s2 h

/-- The value a field has after an object was decoded: the members decoded into the
field, decoded one after the other into the value the field had before. -/
theorem decodeFields_getD (hook : Hook) (fields : List Field) (i : Nat) (f : Field)
    (hf : fields.get? i = some f) :
    ∀ (kvs : List (String × Json)) (cur out : List GoVal) (s s2 : Option JsonError),
      i < cur.length → decodeFields hook fields cur kvs s = .ok out s2 →
      ∃ e, decodeSeq hook f.type (cur.getD i .nil) (membersOf fields i kvs) none
          = .ok (out.getD i .nil) e ∧ (s2 = none → e = none)
  | [], cur, out, s, s2, _, h => by
    simp only [decodeFields, Res.ok.injEq] at h
    exact ⟨none, by simp [membersOf_nil, decodeSeq, h.1], fun _ => rfl⟩
  | (k, v) :: kvs, cur, out, s, s2, hi, h => by
    simp only [decodeFields] at h
    rw [membersOf_cons]
    cases hk : findField fields k with
    | none =>
      simp only [hk] at h
      simpa using decodeFields_getD hook fields i f hf kvs cur out s s2 hi h
    | some r =>
      obtain ⟨i2, f2⟩ := r
      simp only [hk] at h
      cases hx : decodeValue hook f2.type (cur.getD i2 .nil) v s with
      | stop st => rw [hx] at h; cases h
      | ok x s1 =>
        rw [hx] at h
        simp only at h
        obtain ⟨e, he, hnone⟩ := decodeFields_getD hook fields i f hf kvs (cur.set i2 x) out
          s1 s2 (by simpa using hi) h
        by_cases hii : i2 = i
        · subst hii
          have hff : f2 = f := by
            have := findField_get fields k i2 f2 hk
            rw [hf] at this
            exact (Option.some.inj this).symm
          subst hff
          rw [decodeValue_saved] at hx
          cases hx0 : decodeValue hook f2.type (cur.getD i2 .nil) v none with
          | stop st => rw [hx0] at hx; cases hx
          | ok x0 e0 =>
            rw [hx0] at hx
            simp only [Res.addSaved_ok, Res.ok.injEq] at hx
            obtain ⟨rfl, hs1⟩ := hx
            refine ⟨firstError e0 e, ?_, ?_⟩
            · simp only [Option.map_some', if_true, decodeSeq, hx0]
              rw [decodeSeq_saved]
              have hget : (cur.set i2 x0).getD i2 .nil = x0 := by
                simp [List.getD_eq_getElem?_getD, hi]
              rw [hget] at he
              simp [he]
            · intro hs2
              have h1 : s1 = none := by
                subst hs2
                exact decodeFields_saved_none h
              rw [h1] at hs1
              rw [(firstError_eq_none hs1).2, hnone hs2]
              rfl
        · have hne : ¬ (some i2 = some i) := by simpa using hii
          simp only [Option.map_some', hne, if_false]
          have hget : (cur.set i2 x).getD i .nil = cur.getD i .nil := by
            simp [List.getD_eq_getElem?_getD, List.getElem?_set, hii]
          rw [hget] at he
          exact ⟨e, he, hnone⟩

/-- When the only field that contains a `BoardWidget` is field `i`, and one member is
decoded into it, the object decoding stops where the decoding of that member stops. -/
theorem decodeFields_stop (hook : Hook) (fields : List Field) (i : Nat) (f : Field)
    (hf : fields.get? i = some f)
    (hfree : ∀ i2 f2, fields.get? i2 = some f2 → i2 ≠ i → f2.type.hookFree = true)
    (v : Json) (st : Status) :
    ∀ (kvs : List (String × Json)) (cur : List GoVal) (s : Option JsonError),
      i < cur.length → membersOf fields i kvs = [v] →
      decodeValue hook f.type (cur.getD i .nil) v none = .stop st →
      decodeFields hook fields cur kvs s = .stop st
  | [], _, _, _, hm, _ => by simp [membersOf_nil] at hm
  | (k, v0) :: kvs, cur, s, hi, hm, hv => by
    rw [membersOf_cons] at hm
    simp only [decodeFields]
    cases hk : findField fields k with
    | none =>
      simp only [hk, Option.map_none', reduceCtorEq, if_false] at hm
      exact decodeFields_stop hook fields i f hf hfree v st kvs cur s hi hm hv
    | some r =>
      obtain ⟨i2, f2⟩ := r
      simp only
      by_cases hii : i2 = i
      · subst hii
        have hff : f2 = f := by
          have := findField_get fields k i2 f2 hk
          rw [hf] at this
          exact (Option.some.inj this).symm
        subst hff
        simp only [hk, Option.map_some', if_true, List.cons.injEq] at hm
        rw [hm.1, decodeValue_saved, hv]
        rfl
      · have hne : ¬ (some i2 = some i) := by simpa using hii
        simp only [hk, Option.map_some', hne, if_false] at hm
        have hfr := hfree i2 f2 (findField_get fields k i2 f2 hk) hii
        obtain ⟨⟨x, s1, hok⟩, _⟩ :=
          decodeValue_hookFree hook hook f2.type hfr (cur.getD i2 .nil) v0 s
        rw [hok]
        simp only
        apply decodeFields_stop hook fields i f hf hfree v st kvs _ s1 (by simpa using hi) hm
        have hget : (cur.set i2 x).getD i .nil = cur.getD i .nil := by
          simp [List.getD_eq_getElem?_getD, List.getElem?_set, hii]
        rw [hget]
        exact hv

/-! ## The widgets of a group -/

/-- Decoding into a destination of type `BoardWidget` is a call of the hook. -/
theorem decodeValue_widget (h : Hook) (cur : GoVal) (j : Json) (s : Option JsonError) :
    decodeValue h (.named .BoardWidget) cur j s =
      match h cur j with
      | (.nil, v) => .ok v s
      | (.error e, v) => .ok v (firstError s (some e))
      | (st, _) => .stop st := by
  cases j <;>
    simp [decodeValue, storeNull, callHook, GoType.base, GoType.hasUnmarshaler,
      TypeName.hasUnmarshaler, indirect, reref]

theorem decodeValue_widget_ok (h : Hook) (cur : GoVal) (j : Json) (s : Option JsonError)
    (hs : (h cur j).1 = .nil) :
    decodeValue h (.named .BoardWidget) cur j s = .ok (h cur j).2 s := by
  rw [decodeValue_widget]
  cases hh : h cur j with
  | mk st v =>
    rw [hh] at hs
    simp only at hs
    subst hs
    rfl

/-- A widget whose decoding returns an error: the error is saved and the decoding goes
on. -/
theorem decodeValue_widget_error (h : Hook) (cur : GoVal) (j : Json) (s : Option JsonError)
    (e : JsonError) (hs : (h cur j).1 = .error e) :
    decodeValue h (.named .BoardWidget) cur j s = .ok (h cur j).2 (firstError s (some e)) := by
  rw [decodeValue_widget]
  cases hh : h cur j with
  | mk st v =>
    rw [hh] at hs
    simp only at hs
    subst hs
    rfl

/-- A widget whose decoding faults ends the decoding. -/
theorem decodeValue_widget_stop (h : Hook) (cur : GoVal) (j : Json) (s : Option JsonError)
    (hs : (h cur j).1.isFault = true) :
    decodeValue h (.named .BoardWidget) cur j s = .stop (h cur j).1 := by
  rw [decodeValue_widget]
  cases hh : h cur j with
  | mk st v =>
    rw [hh] at hs
    simp only at hs
    cases st <;> first | rfl | (simp [Status.isFault] at hs)

/-- The widgets of a fresh slice all decode: the slice holds their results in order. -/
theorem decodeElems_widgets_ok (h : Hook) :
    ∀ (ws : List Json) (s : Option JsonError),
      (∀ y ∈ ws, (h (zero (.named .BoardWidget)) y).1 = .nil) →
      decodeElems h (.named .BoardWidget) [] ws s
        = .ok (ws.map (fun y => (h (zero (.named .BoardWidget)) y).2)) s
  | [], s, _ => by simp [decodeElems]
  | y :: ws, s, hall => by
    simp only [decodeElems, List.headD_nil, List.tail_nil]
    rw [decodeValue_widget_ok h _ y s (hall y (List.mem_cons_self _ _))]
    simp only
    rw [decodeElems_widgets_ok h ws s (fun z hz => hall z (List.mem_cons_of_mem _ hz))]
    rfl

/-- The first widget that faults stops the decoding of the slice, with its status. -/
theorem decodeElems_widgets_stop (h : Hook) (x : Json) (b : List Json) :
    ∀ (a : List Json) (s : Option JsonError),
      (∀ y ∈ a, (h (zero (.named .BoardWidget)) y).1 = .nil) →
      (h (zero (.named .BoardWidget)) x).1.isFault = true →
      decodeElems h (.named .BoardWidget) [] (a ++ x :: b) s
        = .stop (h (zero (.named .BoardWidget)) x).1
  | [], s, _, hx => by
    simp only [List.nil_append, decodeElems, List.headD_nil]
    rw [decodeValue_widget_stop h _ x s hx]
  | y :: a, s, hall, hx => by
    simp only [List.cons_append, decodeElems, List.headD_nil, List.tail_nil]
    rw [decodeValue_widget_ok h _ y s (hall y (List.mem_cons_self _ _))]
    simp only [List.append_eq]
    rw [decodeElems_widgets_stop h x b a s (fun z hz => hall z (List.mem_cons_of_mem _ hz)) hx]

/-- Widgets none of which faults are all decoded: the slice holds what each decoding
left, in order, and the saved error is the first error met. -/
theorem decodeElems_widgets_quiet (h : Hook) :
    ∀ (ws : List Json) (s : Option JsonError),
      (∀ y ∈ ws, (h (zero (.named .BoardWidget)) y).1.isFault = false) →
      ∃ s2, decodeElems h (.named .BoardWidget) [] ws s
        = .ok (ws.map (fun y => (h (zero (.named .BoardWidget)) y).2)) (firstError s s2)
  | [], s, _ => ⟨none, by simp [decodeElems]⟩
  | y :: ws, s, hall => by
    simp only [decodeElems, List.headD_nil, List.tail_nil]
    have hy := hall y (List.mem_cons_self _ _)
    cases hst : (h (zero (.named .BoardWidget)) y).1 with
    | nil =>
      rw [decodeValue_widget_ok h _ y s hst]
      simp only
      obtain ⟨s2, h2⟩ := decodeElems_widgets_quiet h ws s
        (fun z hz => hall z (List.mem_cons_of_mem _ hz))
      rw [h2]
      exact ⟨s2, rfl⟩
    | error e =>
      rw [decodeValue_widget_error h _ y s e hst]
      simp only
      obtain ⟨s2, h2⟩ := decodeElems_widgets_quiet h ws (firstError s (some e))
        (fun z hz => hall z (List.mem_cons_of_mem _ hz))
      rw [h2]
      exact ⟨firstError (some e) s2, by rw [firstError_assoc]; rfl⟩
    | panic => rw [hst] at hy; cases hy
    | outOfFuel => rw [hst] at hy; cases hy

/-- The first widget that returns an error, when no later widget faults: the decoding
of the slice goes to its end and that error is the saved one. -/
theorem decodeElems_widgets_error (h : Hook) (x : Json) (b : List Json) (e : JsonError) :
    ∀ (a : List Json),
      (∀ y ∈ a, (h (zero (.named .BoardWidget)) y).1 = .nil) →
      (h (zero (.named .BoardWidget)) x).1 = .error e →
      (∀ y ∈ b, (h (zero (.named .BoardWidget)) y).1.isFault = false) →
      decodeElems h (.named .BoardWidget) [] (a ++ x :: b) none
        = .ok ((a ++ x :: b).map (fun y => (h (zero (.named .BoardWidget)) y).2)) (some e)
  | [], _, hx, hb => by
    simp only [List.nil_append, decodeElems, List.headD_nil, List.tail_nil]
    rw [decodeValue_widget_error h _ x none e hx]
    simp only [firstError_none]
    obtain ⟨s2, h2⟩ := decodeElems_widgets_quiet h b (some e) hb
    rw [h2]
    rfl
  | y :: a, hall, hx, hb => by
    simp only [List.cons_append, decodeElems, List.headD_nil, List.tail_nil]
    rw [decodeValue_widget_ok h _ y none (hall y (List.mem_cons_self _ _))]
    simp only [List.append_eq]
    rw [decodeElems_widgets_error h x b e a
      (fun z hz => hall z (List.mem_cons_of_mem _ hz)) hx hb]
    rfl

theorem decodeElems_saved_none {h : Hook} {e : GoType} {cur ys : List GoVal}
    {xs : List Json} {s : Option JsonError}
    (hd : decodeElems h e cur xs s = .ok ys none) : s = none := by
  rw [decodeElems_saved] at hd
  cases hr : decodeElems h e cur xs none with
  | stop st => simp [hr] at hd
  | ok o e2 =>
    simp only [hr, Res.addSaved_ok, Res.ok.injEq] at hd
    exact (firstError_eq_none hd.2).1

/-- When the widgets of a fresh slice are decoded and no error is saved, each of them
decoded. -/
theorem decodeElems_widgets_inv (h : Hook) :
    ∀ (ws : List Json) (s : Option JsonError) (out : List GoVal),
      decodeElems h (.named .BoardWidget) [] ws s = .ok out none →
      (∀ y ∈ ws, (h (zero (.named .BoardWidget)) y).1 = .nil) ∧
        out = ws.map (fun y => (h (zero (.named .BoardWidget)) y).2)
  | [], s, out, hd => by
    simp only [decodeElems, Res.ok.injEq] at hd
    simp [hd.1]
  | y :: ws, s, out, hd => by
    simp only [decodeElems, List.headD_nil, List.tail_nil] at hd
    cases hy : (h (zero (.named .BoardWidget)) y).1 with
    | nil =>
      rw [decodeValue_widget_ok h _ y s hy] at hd
      simp only at hd
      cases hr : decodeElems h (.named .BoardWidget) [] ws s with
      | stop st => rw [hr] at hd; cases hd
      | ok vs s3 =>
        rw [hr] at hd
        simp only [Res.ok.injEq] at hd
        obtain ⟨hvs0, hs3⟩ := hd
        subst hs3
        obtain ⟨hall, hvs⟩ := decodeElems_widgets_inv h ws s vs hr
        refine ⟨?_, ?_⟩
        · intro z hz
          rcases List.mem_cons.mp hz with rfl | hz
          · exact hy
          · exact hall z hz
        · rw [← hvs0, hvs]
          rfl
    | error e =>
      rw [decodeValue_widget_error h _ y s e hy] at hd
      simp only at hd
      cases hr : decodeElems h (.named .BoardWidget) [] ws (firstError s (some e)) with
      | stop st => rw [hr] at hd; cases hd
      | ok vs s3 =>
        rw [hr] at hd
        simp only [Res.ok.injEq] at hd
        obtain ⟨_, hs3⟩ := hd
        subst hs3
        have := decodeElems_saved_none hr
        cases s <;> cases this
    | panic =>
      rw [decodeValue_widget_stop h _ y s (by rw [hy]; rfl)] at hd
      cases hd
    | outOfFuel =>
      rw [decodeValue_widget_stop h _ y s (by rw [hy]; rfl)] at hd
      cases hd

/-! ## Depth of the parts of a document -/

theorem depth_le_depthElems {x : Json} : ∀ {xs : List Json}, x ∈ xs → x.depth ≤ depthElems xs
  | [], hx => by cases hx
  | y :: ys, hx => by
    simp only [depthElems]
    rcases List.mem_cons.mp hx with rfl | hx
    · exact Nat.le_max_left _ _
    · exact Nat.le_trans (depth_le_depthElems hx) (Nat.le_max_right _ _)

theorem depth_le_depthMembers (fields : List Field) (i : Nat) {v : Json} :
    ∀ {kvs : List (String × Json)}, v ∈ membersOf fields i kvs → v.depth ≤ depthMembers kvs
  | [], hv => by simp [membersOf_nil] at hv
  | (k, v0) :: kvs, hv => by
    rw [membersOf_cons] at hv
    simp only [depthMembers]
    split at hv
    · rcases List.mem_cons.mp hv with rfl | hv
      · exact Nat.le_max_left _ _
      · exact Nat.le_trans (depth_le_depthMembers fields i hv) (Nat.le_max_right _ _)
    · exact Nat.le_trans (depth_le_depthMembers fields i hv) (Nat.le_max_right _ _)

/-! ## Decoding a group -/

theorem unmarshalSwitch_group (hook : Hook) (widget : BoardWidget) (data : Json) :
    unmarshalSwitch hook GROUP_WIDGET widget data =
      unmarshalDefinition hook .groupWidget .GroupDefinition widget data := rfl

/-- An object decoded into a struct without `UnmarshalJSON` of its own. -/
theorem decodeValue_struct (h : Hook) (n : TypeName) (hu : n.hasUnmarshaler = false)
    (cur : GoVal) (kvs : List (String × Json)) (s : Option JsonError) :
    decodeValue h (.named n) cur (.obj kvs) s =
      match decodeFields h n.fields cur.structFields kvs s with
      | .ok fs s2 => .ok (.struct fs) s2
      | .stop st => .stop st := by
  simp only [decodeValue, GoType.base, GoType.hasUnmarshaler, hu, indirect, reref,
    Bool.false_eq_true, if_false]

/-- The slice of widgets of a group, decoded from the array `ws` into the nil slice. -/
theorem decodeValue_widgets (h : Hook) (ws : List Json) (s : Option JsonError) :
    decodeValue h (.slice (.named .BoardWidget)) .nil (.arr ws) s =
      match decodeElems h (.named .BoardWidget) [] ws s with
      | .ok vs s2 => .ok (.slice vs) s2
      | .stop st => .stop st := by
  simp only [decodeValue, GoType.base, GoType.hasUnmarshaler, indirect, GoVal.elems, reref,
    Bool.false_eq_true, if_false]

theorem GroupDefinition_hookFree_others :
    ∀ (i2 : Nat) (f2 : Field), TypeName.GroupDefinition.fields.get? i2 = some f2 → i2 ≠ 2 →
      f2.type.hookFree = true := by
  intro i2 f2 hget hne
  rcases i2 with _ | _ | _ | _ | i2 <;>
    simp [TypeName.fields] at hget hne ⊢ <;> subst hget <;> rfl

theorem groupWidget_hookFree_others :
    ∀ (i2 : Nat) (f2 : Field), TypeName.groupWidget.fields.get? i2 = some f2 → i2 ≠ 0 →
      f2.type.hookFree = true := by
  intro i2 f2 hget hne
  rcases i2 with _ | i2 <;> simp [TypeName.fields] at hget hne

/-- The second pass on a group stops where the decoding of its widgets stops. -/
theorem jsonUnmarshal_group_stop (h : Hook) (kvs dkvs : List (String × Json))
    (ws : List Json) (st : Status)
    (hdef : membersOf TypeName.groupWidget.fields 0 kvs = [.obj dkvs])
    (hws : membersOf TypeName.GroupDefinition.fields 2 dkvs = [.arr ws])
    (hst : decodeElems h (.named .BoardWidget) [] ws none = .stop st) :
    jsonUnmarshal h (.named .groupWidget) (.obj kvs) = .error st := by
  have hinner : decodeValue h (.named .GroupDefinition)
      ((zero (.named .groupWidget)).structFields.getD 0 .nil) (.obj dkvs) none = .stop st := by
    rw [decodeValue_struct h .GroupDefinition rfl]
    rw [decodeFields_stop h TypeName.GroupDefinition.fields 2
      ⟨"Widgets", "widgets", false, .slice (.named .BoardWidget)⟩ rfl
      GroupDefinition_hookFree_others (.arr ws) st
      dkvs ((zero (.named .groupWidget)).structFields.getD 0 .nil).structFields none
      (by decide) hws
      (by
        show decodeValue h (.slice (.named .BoardWidget)) .nil (.arr ws) none = .stop st
        rw [decodeValue_widgets, hst])]
  unfold jsonUnmarshal
  rw [decodeValue_struct h .groupWidget rfl]
  rw [decodeFields_stop h TypeName.groupWidget.fields 0
    ⟨"Definition", "definition", false, .named .GroupDefinition⟩ rfl
    groupWidget_hookFree_others (.obj dkvs) st
    kvs (zero (.named .groupWidget)).structFields none (by decide) hdef hinner]

/-- The second pass on a group that decodes: the field `Widgets` holds the results of
the hook on the elements of the array, in order, and each of them decoded. -/
theorem jsonUnmarshal_group_ok (h : Hook) (kvs dkvs : List (String × Json))
    (ws : List Json) (v : GoVal)
    (hdef : membersOf TypeName.groupWidget.fields 0 kvs = [.obj dkvs])
    (hws : membersOf TypeName.GroupDefinition.fields 2 dkvs = [.arr ws])
    (hok : jsonUnmarshal h (.named .groupWidget) (.obj kvs) = .ok v) :
    (∀ y ∈ ws, (h (zero (.named .BoardWidget)) y).1 = .nil) ∧
      (v.get .groupWidget "Definition").get .GroupDefinition "Widgets"
        = .slice (ws.map (fun y => (h (zero (.named .BoardWidget)) y).2)) := by
  unfold jsonUnmarshal at hok
  rw [decodeValue_struct h .groupWidget rfl] at hok
  cases hd : decodeFields h TypeName.groupWidget.fields
      (zero (.named .groupWidget)).structFields kvs none with
  | stop st => rw [hd] at hok; simp at hok
  | ok fs s =>
    rw [hd] at hok
    cases s with
    | some e => simp at hok
    | none =>
      simp only [Except.ok.injEq] at hok
      subst hok
      obtain ⟨e, he, hnone⟩ := decodeFields_getD h TypeName.groupWidget.fields 0
        ⟨"Definition", "definition", false, .named .GroupDefinition⟩ rfl kvs _ fs none none
        (by decide) hd
      rw [hdef, hnone rfl] at he
      simp only [decodeSeq] at he
      cases hg : decodeValue h (.named .GroupDefinition)
          ((zero (.named .groupWidget)).structFields.getD 0 .nil) (.obj dkvs) none with
      | stop st => rw [hg] at he; cases he
      | ok g sg =>
        rw [hg] at he
        simp only [Res.ok.injEq] at he
        obtain ⟨hgv, hsg⟩ := he
        subst hsg
        rw [decodeValue_struct h .GroupDefinition rfl] at hg
        cases hgf : decodeFields h TypeName.GroupDefinition.fields
            ((zero (.named .groupWidget)).structFields.getD 0 .nil).structFields dkvs none with
        | stop st => rw [hgf] at hg; simp at hg
        | ok gfs sgf =>
          rw [hgf] at hg
          simp only [Res.ok.injEq] at hg
          obtain ⟨hgeq, hsgf⟩ := hg
          subst hsgf
          obtain ⟨e2, he2, hnone2⟩ := decodeFields_getD h TypeName.GroupDefinition.fields 2
            ⟨"Widgets", "widgets", false, .slice (.named .BoardWidget)⟩ rfl dkvs _ gfs none none
            (by decide) hgf
          rw [hws, hnone2 rfl] at he2
          simp only [decodeSeq] at he2
          rw [show ((zero (.named .groupWidget)).structFields.getD 0 .nil).structFields.getD 2 .nil
            = .nil from rfl, decodeValue_widgets] at he2
          cases hel : decodeElems h (.named .BoardWidget) [] ws none with
          | stop st => rw [hel] at he2; cases he2
          | ok vs sv =>
            rw [hel] at he2
            simp only [Res.ok.injEq] at he2
            have hsv : sv = none := he2.2
            subst hsv
            obtain ⟨hall, hvs⟩ := decodeElems_widgets_inv h ws none vs hel
            refine ⟨hall, ?_⟩
            have h1 : (GoVal.struct fs).get .groupWidget "Definition" = fs.getD 0 .nil := rfl
            rw [h1, ← hgv, ← hgeq]
            have h2 : (GoVal.struct gfs).get .GroupDefinition "Widgets" = gfs.getD 2 .nil := rfl
            rw [h2, ← he2.1, hvs]

/-! ## A decoding never stops with the nil status -/

theorem callHook_stop_ne_nil (h : Hook) (t : GoType) (cur : GoVal) (j : Json)
    (s : Option JsonError) (st : Status) (hs : callHook h t cur j s = .stop st) : st ≠ .nil := by
  unfold callHook at hs
  cases hh : h (indirect t cur) j with
  | mk st2 v =>
    rw [hh] at hs
    cases st2 <;> simp at hs <;> subst hs <;> simp

theorem storeNull_stop_ne_nil (h : Hook) (t : GoType) (cur : GoVal)
    (s : Option JsonError) (st : Status) (hs : storeNull h t cur s = .stop st) : st ≠ .nil := by
  unfold storeNull at hs
  split at hs <;> try cases hs
  split at hs
  · cases hh : h cur .null with
    | mk st2 v =>
      rw [hh] at hs
      cases st2 <;> simp at hs <;> subst hs <;> simp
  · cases hs

mutual
/-- A decoding step stops only with a status other than nil. -/
theorem decodeValue_stop_ne_nil (h : Hook) (t : GoType) (cur : GoVal) (st : Status) :
    ∀ (j : Json) (s : Option JsonError), decodeValue h t cur j s = .stop st → st ≠ .nil
  | .null, s, hs => by
    simp only [decodeValue] at hs
    exact storeNull_stop_ne_nil h t cur s st hs
  | .bool b, s, hs => by
    simp only [decodeValue] at hs
    split at hs
    · exact callHook_stop_ne_nil h t cur _ s st hs
    · split at hs <;> cases hs
  | .str x, s, hs => by
    simp only [decodeValue] at hs
    split at hs
    · exact callHook_stop_ne_nil h t cur _ s st hs
    · split at hs <;> cases hs
  | .num n, s, hs => by
    simp only [decodeValue] at hs
    split at hs
    · exact callHook_stop_ne_nil h t cur _ s st hs
    · split at hs
      · split at hs
        · split at hs <;> cases hs
        · simp [typeError] at hs
      · split at hs <;> split at hs <;> cases hs
      · cases hs
      · simp [typeError] at hs
  | .arr xs, s, hs => by
    simp only [decodeValue] at hs
    split at hs
    · exact callHook_stop_ne_nil h t cur _ s st hs
    · split at hs
      · cases hd : decodeElems h _ (indirect t cur).elems xs s with
        | ok vs s2 => rw [hd] at hs; cases hs
        | stop st2 =>
          rw [hd] at hs
          simp only [Res.stop.injEq] at hs
          subst hs
          exact decodeElems_stop_ne_nil h _ st2 _ xs s hd
      · cases hs
      · simp [typeError] at hs
  | .obj kvs, s, hs => by
    simp only [decodeValue] at hs
    split at hs
    · exact callHook_stop_ne_nil h t cur _ s st hs
    · split at hs
      · cases hd : decodeFields h _ (indirect t cur).structFields kvs s with
        | ok vs s2 => rw [hd] at hs; cases hs
        | stop st2 =>
          rw [hd] at hs
          simp only [Res.stop.injEq] at hs
          subst hs
          exact decodeFields_stop_ne_nil h _ st2 _ kvs s hd
      · cases hs
      · simp [typeError] at hs
/-- The elements of an array: as `decodeValue_stop_ne_nil`. -/
theorem decodeElems_stop_ne_nil (h : Hook) (e : GoType) (st : Status) :
    ∀ (cur : List GoVal) (xs : List Json) (s : Option JsonError),
      decodeElems h e cur xs s = .stop st → st ≠ .nil
  | _, [], s, hs => by simp [decodeElems] at hs
  | cur, x :: xs, s, hs => by
    simp only [decodeElems] at hs
    cases hx : decodeValue h e (cur.headD (zero e)) x s with
    | stop st2 =>
      rw [hx] at hs
      simp only [Res.stop.injEq] at hs
      subst hs
      exact decodeValue_stop_ne_nil h e _ st2 x s hx
    | ok v s1 =>
      rw [hx] at hs
      simp only at hs
      cases hr : decodeElems h e cur.tail xs s1 with
      | ok vs s2 => rw [hr] at hs; cases hs
      | stop st2 =>
        rw [hr] at hs
        simp only [Res.stop.injEq] at hs
        subst hs
        exact decodeElems_stop_ne_nil h e st2 _ xs s1 hr
/-- The members of an object: as `decodeValue_stop_ne_nil`. -/
theorem decodeFields_stop_ne_nil (h : Hook) (fields : List Field) (st : Status) :
    ∀ (cur : List GoVal) (kvs : List (String × Json)) (s : Option JsonError),
      decodeFields h fields cur kvs s = .stop st → st ≠ .nil
  | cur, [], s, hs => by simp [decodeFields] at hs
  | cur, (k, v) :: kvs, s, hs => by
    simp only [decodeFields] at hs
    split at hs
    · exact decodeFields_stop_ne_nil h fields st cur kvs s hs
    · rename_i i f _
      cases hx : decodeValue h f.type (cur.getD i .nil) v s with
      | stop st2 =>
        rw [hx] at hs
        simp only [Res.stop.injEq] at hs
        subst hs
        exact decodeValue_stop_ne_nil h f.type _ st2 v s hx
      | ok x s1 =>
        rw [hx] at hs
        exact decodeFields_stop_ne_nil h fields st _ kvs s1 hs
end

/-- The call `json.Unmarshal` never fails with the nil status. -/
theorem jsonUnmarshal_error_ne_nil (h : Hook) (t : GoType) (data : Json) (st : Status)
    (hs : jsonUnmarshal h t data = .error st) : st ≠ .nil := by
  unfold jsonUnmarshal at hs
  split at hs
  · cases hs
  · simp only [Except.error.injEq] at hs
    subst hs
    simp
  · rename_i st2 hd
    simp only [Except.error.injEq] at hs
    subst hs
    exact decodeValue_stop_ne_nil h t _ st2 data none hd

/-- What a case of the switch returns with the nil status. -/
theorem unmarshalDefinition_nil (hook : Hook) (wr dn : TypeName) (widget : BoardWidget)
    (data : Json) (hs : (unmarshalDefinition hook wr dn widget data).1 = .nil) :
    ∃ v, jsonUnmarshal hook (.named wr) data = .ok v ∧
      unmarshalDefinition hook wr dn widget data =
        (.nil, { widget with Definition := .iface (.named dn) (v.get wr "Definition") }) := by
  unfold unmarshalDefinition at hs ⊢
  cases hj : jsonUnmarshal hook (.named wr) data with
  | error st =>
    rw [hj] at hs
    exact absurd hs (jsonUnmarshal_error_ne_nil hook _ data st hj)
  | ok v => exact ⟨v, rfl, rfl⟩

/-! ## Groups: order of the nested widgets, and the first failure -/

/-- The widgets of a group are strictly less deep than the group. -/
theorem group_widget_depth (kvs dkvs : List (String × Json)) (ws : List Json)
    (hdef : membersOf TypeName.groupWidget.fields 0 kvs = [.obj dkvs])
    (hws : membersOf TypeName.GroupDefinition.fields 2 dkvs = [.arr ws])
    (y : Json) (hy : y ∈ ws) : y.depth < (Json.obj kvs).depth := by
  have h1 := depth_le_depthElems hy
  have h2 : (Json.arr ws).depth ≤ depthMembers dkvs :=
    depth_le_depthMembers _ 2 (by rw [hws]; exact List.mem_singleton_self _)
  have h3 : (Json.obj dkvs).depth ≤ depthMembers kvs :=
    depth_le_depthMembers _ 0 (by rw [hdef]; exact List.mem_singleton_self _)
  simp only [Json.depth] at h2 h3 ⊢
  omega

/-- The hook of the body on a widget of the group is `UnmarshalJSON` on the zero
widget. -/
theorem group_hook (kvs dkvs : List (String × Json)) (ws : List Json)
    (hdef : membersOf TypeName.groupWidget.fields 0 kvs = [.obj dkvs])
    (hws : membersOf TypeName.GroupDefinition.fields 2 dkvs = [.arr ws])
    (y : Json) (hy : y ∈ ws) :
    fuelHook (Json.obj kvs).depth (zero (.named .BoardWidget)) y =
      ((zeroWidget.UnmarshalJSON y).1, (zeroWidget.UnmarshalJSON y).2.toVal) :=
  fuelHook_eq _ _ y (group_widget_depth kvs dkvs ws hdef hws y hy)

/-- A group whose widgets decode up to one that faults: the group ends with that fault
and stores no definition. -/
theorem group_stop (widget : BoardWidget) (kvs dkvs : List (String × Json))
    (a : List Json) (x : Json) (b : List Json) (st : Status)
    (hdisc : discriminator (.obj kvs) = some GROUP_WIDGET)
    (hdef : membersOf TypeName.groupWidget.fields 0 kvs = [.obj dkvs])
    (hws : membersOf TypeName.GroupDefinition.fields 2 dkvs = [.arr (a ++ x :: b)])
    (ha : ∀ y ∈ a, (zeroWidget.UnmarshalJSON y).1 = .nil)
    (hx : (zeroWidget.UnmarshalJSON x).1 = st) (hst : st.isFault = true) :
    (widget.UnmarshalJSON (.obj kvs)).1 = st ∧
      (widget.UnmarshalJSON (.obj kvs)).2.Definition = widget.Definition := by
  obtain ⟨h, d, hp, hd, ht⟩ := discriminator_some hdisc
  have hstop : decodeElems (fuelHook (Json.obj kvs).depth) (.named .BoardWidget) []
      (a ++ x :: b) none = .stop st := by
    have hxh := group_hook kvs dkvs _ hdef hws x (by simp)
    rw [decodeElems_widgets_stop _ x b a none]
    · rw [hxh, hx]
    · intro y hy
      rw [group_hook kvs dkvs _ hdef hws y (by simp [hy])]
      exact ha y hy
    · rw [hxh]
      simpa only [hx] using hst
  rw [UnmarshalJSON_eq, unmarshalBody_discriminator _ widget _ _ h d hp hd ht,
    unmarshalSwitch_group]
  unfold unmarshalDefinition
  rw [jsonUnmarshal_group_stop _ kvs dkvs _ st hdef hws hstop]
  exact ⟨rfl, rfl⟩

/-- C5: when a group envelope decodes, where `definition` is the one member decoded
into the definition and `widgets` the one member decoded into the widget list, an
array `ws` of `n` envelopes: `Definition` holds a `GroupDefinition` whose `Widgets` has
length `n` and is, element by element and in array order, what `UnmarshalJSON` yields
on each nested envelope on its own, each of which decodes. -/
theorem group_widgets_in_order (widget : BoardWidget) (kvs dkvs : List (String × Json))
    (ws : List Json)
    (hdisc : discriminator (.obj kvs) = some GROUP_WIDGET)
    (hdef : membersOf TypeName.groupWidget.fields 0 kvs = [.obj dkvs])
    (hws : membersOf TypeName.GroupDefinition.fields 2 dkvs = [.arr ws])
    (hok : (widget.UnmarshalJSON (.obj kvs)).1 = .nil) :
    ∃ g, (widget.UnmarshalJSON (.obj kvs)).2.Definition = .iface (.named .GroupDefinition) g ∧
      g.get .GroupDefinition "Widgets"
        = .slice (ws.map (fun x => (zeroWidget.UnmarshalJSON x).2.toVal)) ∧
      (g.get .GroupDefinition "Widgets").elems.length = ws.length ∧
      ∀ x ∈ ws, (zeroWidget.UnmarshalJSON x).1 = .nil := by
  obtain ⟨h, d, hp, hd, ht⟩ := discriminator_some hdisc
  rw [UnmarshalJSON_eq, unmarshalBody_discriminator _ widget _ _ h d hp hd ht,
    unmarshalSwitch_group] at hok ⊢
  obtain ⟨v, hv, heq⟩ := unmarshalDefinition_nil _ _ _ _ _ hok
  obtain ⟨hall, hwidgets⟩ := jsonUnmarshal_group_ok _ kvs dkvs ws v hdef hws hv
  have hmap : ws.map (fun y => (fuelHook (Json.obj kvs).depth (zero (.named .BoardWidget)) y).2)
      = ws.map (fun x => (zeroWidget.UnmarshalJSON x).2.toVal) := by
    apply List.map_congr_left
    intro y hy
    rw [group_hook kvs dkvs ws hdef hws y hy]
  rw [hmap] at hwidgets
  refine ⟨v.get .groupWidget "Definition", ?_, hwidgets, ?_, ?_⟩
  · rw [heq]
  · rw [hwidgets]
    simp [GoVal.elems]
  · intro x hx
    have := hall x hx
    rw [group_hook kvs dkvs ws hdef hws x hx] at this
    exact this

/-- C5, on a group of three envelopes with the discriminators `note`, `alert_value`
and `check_status`. -/
theorem group_widgets_in_order_witness :
    ∃ g, (zeroWidget.UnmarshalJSON (.obj [("definition", .obj [("type", .str "group"),
        ("widgets", .arr [
          .obj [("definition", .obj [("type", .str "note"), ("content", .str "a")])],
          .obj [("definition", .obj [("type", .str "alert_value"), ("precision", .num (.int 2))])],
          .obj [("definition", .obj [("type", .str "check_status")]), ("id", .num (.int 4))]])])])).2.Definition
        = .iface (.named .GroupDefinition) g ∧
      g.get .GroupDefinition "Widgets" = .slice [
        .struct [.iface (.named .NoteDefinition)
          (.struct [.ptr (.str "note"), .ptr (.str "a"), .nil, .nil, .nil, .nil, .nil, .nil]),
          .nil, .nil],
        .struct [.iface (.named .AlertValueDefinition)
          (.struct [.ptr (.str "alert_value"), .nil, .ptr (.int 2), .nil, .nil, .nil, .nil, .nil]),
          .nil, .nil],
        .struct [.iface (.named .CheckStatusDefinition)
          (.struct [.ptr (.str "check_status"), .nil, .nil, .nil, .nil, .nil, .nil, .nil, .nil,
            .nil]),
          .ptr (.int 4), .nil]] :=
  (group_widgets_in_order zeroWidget
    [("definition", .obj [("type", .str "group"),
        ("widgets", .arr [
          .obj [("definition", .obj [("type", .str "note"), ("content", .str "a")])],
          .obj [("definition", .obj [("type", .str "alert_value"), ("precision", .num (.int 2))])],
          .obj [("definition", .obj [("type", .str "check_status")]), ("id", .num (.int 4))]])])]
    [("type", .str "group"),
        ("widgets", .arr [
          .obj [("definition", .obj [("type", .str "note"), ("content", .str "a")])],
          .obj [("definition", .obj [("type", .str "alert_value"), ("precision", .num (.int 2))])],
          .obj [("definition", .obj [("type", .str "check_status")]), ("id", .num (.int 4))]])]
    [ .obj [("definition", .obj [("type", .str "note"), ("content", .str "a")])],
      .obj [("definition", .obj [("type", .str "alert_value"), ("precision", .num (.int 2))])],
      .obj [("definition", .obj [("type", .str "check_status")]), ("id", .num (.int 4))]]
    rfl rfl rfl rfl).imp (fun _ hg => ⟨hg.1, hg.2.1⟩)

/-- C7, as stated, fails: a group whose failing envelope is the second one (index 1)
and a group whose failing envelope is the first one (index 0) return the same error,
`Cannot unmarshal widget of type: unknown_widget`, which is the error of the nested
envelope on its own: nothing in it tells the index. -/
theorem nested_error_index_counterexample :
    (zeroWidget.UnmarshalJSON (.obj [("definition", .obj [("type", .str "group"),
        ("widgets", .arr [
          .obj [("definition", .obj [("type", .str "note"), ("content", .str "a")])],
          .obj [("definition", .obj [("type", .str "unknown_widget")])]])])])).1
      = .error (.Errorf "Cannot unmarshal widget of type: unknown_widget") ∧
    (zeroWidget.UnmarshalJSON (.obj [("definition", .obj [("type", .str "group"),
        ("widgets", .arr [
          .obj [("definition", .obj [("type", .str "unknown_widget")])],
          .obj [("definition", .obj [("type", .str "note"), ("content", .str "a")])]])])])).1
      = .error (.Errorf "Cannot unmarshal widget of type: unknown_widget") ∧
    (zeroWidget.UnmarshalJSON (.obj [("definition", .obj [("type", .str "unknown_widget")])])).1
      = .error (.Errorf "Cannot unmarshal widget of type: unknown_widget") :=
  ⟨rfl, rfl, rfl⟩

/-! ## Encoding: which keys are written -/

/-- The keys of the fields of a struct are pairwise different. -/
theorem TypeName.fields_nodup (n : TypeName) : (n.fields.map Field.json).Nodup := by
  cases n <;> decide

theorem encodeFields_keys (k : String) :
    ∀ (fields : List Field) (vs : List GoVal), k ∉ fields.map Field.json →
      (encodeFields fields vs).lookup k = none
  | [], vs, _ => by cases vs <;> simp [encodeFields]
  | f :: fields, [], _ => by simp [encodeFields]
  | f :: fields, v :: vs, hk => by
    simp only [List.map_cons, List.mem_cons, not_or] at hk
    simp only [encodeFields]
    split
    · exact encodeFields_keys k fields vs hk.2
    · rw [List.lookup_cons]
      have : (k == f.json) = false := by simpa using hk.1
      rw [this]
      exact encodeFields_keys k fields vs hk.2

/-- The member written for a field: none when the field is tagged `omitempty` and its
value is empty, otherwise the encoding of the value of the field. -/
theorem encodeFields_lookup :
    ∀ (fields : List Field) (vs : List GoVal) (i : Nat) (f : Field),
      (fields.map Field.json).Nodup → fields.length = vs.length → fields.get? i = some f →
      (encodeFields fields vs).lookup f.json =
        if f.omitempty && isEmptyValue (vs.getD i .nil) then none
        else some (encode f.type (vs.getD i .nil))
  | [], _, _, _, _, _, hf => by simp at hf
  | g :: fields, [], _, _, _, hl, _ => by simp at hl
  | g :: fields, v :: vs, 0, f, hnd, _, hf => by
    simp only [List.get?_cons_zero, Option.some.injEq] at hf
    subst hf
    simp only [List.map_cons, List.nodup_cons] at hnd
    simp only [encodeFields, List.getD_cons_zero]
    split
    · exact encodeFields_keys _ fields vs hnd.1
    · simp [List.lookup_cons]
  | g :: fields, v :: vs, i + 1, f, hnd, hl, hf => by
    simp only [List.get?_cons_succ] at hf
    simp only [List.map_cons, List.nodup_cons] at hnd
    have hne : (f.json == g.json) = false := by
      have hmem : f.json ∈ fields.map Field.json :=
        List.mem_map_of_mem _ (List.get?_mem hf)
      have : f.json ≠ g.json := fun h => hnd.1 (h ▸ hmem)
      simpa using this
    have ih := encodeFields_lookup fields vs i f hnd.2 (by simpa using hl) hf
    simp only [encodeFields, List.getD_cons_succ]
    split
    · exact ih
    · rw [List.lookup_cons, hne]
      exact ih

/-- C10, as stated, fails: an alert graph whose `AlertId` and `VizType` are unset is
encoded with the members `"alert_id":null` and `"viz_type":null`, not without them; and
a check status whose `Tags` is set to the empty list is encoded without the key
`tags`. -/
theorem omit_unset_counterexample :
    (⟨.iface (.named .AlertGraphDefinition)
        (.struct [.ptr (.str "alert_graph"), .nil, .nil, .nil, .nil, .nil, .nil]),
      .nil, .nil⟩ : BoardWidget).marshal
      = .obj [("definition", .obj [("type", .str "alert_graph"), ("alert_id", .null),
          ("viz_type", .null)])] ∧
    (⟨.iface (.named .CheckStatusDefinition)
        (.struct [.ptr (.str "check_status"), .ptr (.str "c"), .ptr (.str "g"), .nil, .nil,
          .slice [], .nil, .nil, .nil, .nil]),
      .nil, .nil⟩ : BoardWidget).marshal
      = .obj [("definition", .obj [("type", .str "check_status"), ("check", .str "c"),
          ("grouping", .str "g")])] :=
  ⟨rfl, rfl⟩

/-- C10, amended: in the encoding of a value of any struct of the file, a field tagged
`omitempty` has its key written if and only if its value is not empty (a pointer that
is not nil, also one to a zero value, or a slice with at least one element), and a
field without `omitempty` always has its key written, with `null` when it is unset; a
key that is written carries the encoding of the value of the field. -/
theorem omitempty_decides_presence (n : TypeName) (fs : List GoVal) (i : Nat) (f : Field)
    (hf : n.fields.get? i = some f) (hl : n.fields.length = fs.length) :
    ∃ kvs, encode (.named n) (.struct fs) = .obj kvs ∧
      kvs.lookup f.json =
        if f.omitempty && isEmptyValue (fs.getD i .nil) then none
        else some (encode f.type (fs.getD i .nil)) :=
  ⟨encodeFields n.fields fs, rfl, encodeFields_lookup n.fields fs i f n.fields_nodup hl hf⟩

/-- C10, amended, on an alert value whose `Precision` points to `0`: the key
`precision` is written, with `0`. -/
theorem omitempty_decides_presence_witness :
    ∃ kvs, encode (.named .AlertValueDefinition)
        (.struct [.ptr (.str "alert_value"), .nil, .ptr (.int 0), .nil, .nil, .nil, .nil, .nil])
        = .obj kvs ∧
      kvs.lookup "precision" = some (.num (.int 0)) :=
  omitempty_decides_presence .AlertValueDefinition
    [.ptr (.str "alert_value"), .nil, .ptr (.int 0), .nil, .nil, .nil, .nil, .nil] 2
    ⟨"Precision", "precision", true, .ptr .int⟩ rfl rfl

/-! ## Round trip: preparations -/

theorem zero_fields (n : TypeName) :
    (zero (.named n)).structFields = n.fields.map (fun f => zero f.type) := by
  cases n <;> rfl

theorem TypeName.fields_noIface (n : TypeName) (hn : n ≠ .BoardWidget) :
    ∀ f ∈ n.fields, f.type.noIface = true := by
  cases n <;> first | exact absurd rfl hn | decide

/-- Decoding a document other than `null` into a nil pointer to a basic type or a
struct: decode into a zero value of that type, and point to the result. -/
theorem decodeValue_ptr (h : Hook) (t : GoType) (ht : t.isValueType = true) (j : Json)
    (hj : j ≠ .null) (s : Option JsonError) :
    decodeValue h (.ptr t) .nil j s =
      match decodeValue h t (zero t) j s with
      | .ok v s2 => .ok (.ptr v) s2
      | .stop st => .stop st := by
  cases t with
  | ptr t2 => simp [GoType.isValueType] at ht
  | slice t2 => simp [GoType.isValueType] at ht
  | iface => simp [GoType.isValueType] at ht
  | named n =>
    cases hn : n.hasUnmarshaler <;> cases j <;>
      first
      | exact absurd rfl hj
      | (simp only [decodeValue, GoType.base, GoType.hasUnmarshaler, hn, callHook, typeError,
          indirect, reref, Bool.false_eq_true, if_false, if_true] <;>
         first
          | rfl
          | (split <;> rfl))
  | string =>
    cases j <;>
      first
      | exact absurd rfl hj
      | (simp only [decodeValue, GoType.base, GoType.hasUnmarshaler, callHook, typeError,
          indirect, reref, Bool.false_eq_true, if_false])
  | int =>
    cases j <;>
      first
      | exact absurd rfl hj
      | (simp only [decodeValue, GoType.base, GoType.hasUnmarshaler, callHook, typeError,
          indirect, reref, Bool.false_eq_true, if_false] <;>
         first
          | rfl
          | (split <;> first | rfl | (split <;> rfl)))
  | float64 =>
    cases j <;>
      first
      | exact absurd rfl hj
      | (simp only [decodeValue, GoType.base, GoType.hasUnmarshaler, callHook, typeError,
          indirect, reref, Bool.false_eq_true, if_false] <;>
         first
          | rfl
          | (split <;> split_ifs <;> rfl))
  | bool =>
    cases j <;>
      first
      | exact absurd rfl hj
      | (simp only [decodeValue, GoType.base, GoType.hasUnmarshaler, callHook, typeError,
          indirect, reref, Bool.false_eq_true, if_false])

theorem findIdx_append (p : Field → Bool) (f : Field) (rest : List Field) (hp : p f = true) :
    ∀ (done : List Field), (∀ g ∈ done, p g = false) →
      findIdx p (done ++ f :: rest) = some (done.length, f)
  | [], _ => by simp [findIdx, hp]
  | g :: done, hg => by
    have h1 : p g = false := hg g (List.mem_cons_self _ _)
    have := findIdx_append p f rest hp done (fun x hx => hg x (List.mem_cons_of_mem _ hx))
    simp [findIdx, h1, this]

/-- The key of a field, written as it is in the tag, is decoded into that field. -/
theorem findField_exact (done : List Field) (f : Field) (rest : List Field)
    (hnd : ((done ++ f :: rest).map Field.json).Nodup) :
    findField (done ++ f :: rest) f.json = some (done.length, f) := by
  have hdone : ∀ g ∈ done, decide (g.json = f.json) = false := by
    intro g hg
    simp only [List.map_append, List.map_cons] at hnd
    have := (List.nodup_append.mp hnd).2.2
    have hne : g.json ≠ f.json := by
      intro heq
      exact this (List.mem_map_of_mem _ hg) (by rw [heq]; exact List.mem_cons_self _ _)
    simp [hne]
  unfold findField
  rw [findIdx_append (fun g => decide (g.json = f.json)) f rest (by simp) done hdone]

theorem getD_append_length (d x : GoVal) (b : List GoVal) :
    ∀ (a : List GoVal), (a ++ x :: b).getD a.length d = x
  | [] => rfl
  | _ :: a => by simpa using getD_append_length d x b a

theorem set_append_length (x y : GoVal) (b : List GoVal) :
    ∀ (a : List GoVal), (a ++ x :: b).set a.length y = a ++ y :: b
  | [] => rfl
  | _ :: a => by simp

/-- Members whose keys name no field are skipped. -/
theorem decodeFields_skip (h : Hook) (fields : List Field) (cur : List GoVal) :
    ∀ (kvs : List (String × Json)) (s : Option JsonError),
      (∀ kv ∈ kvs, findField fields kv.1 = none) → decodeFields h fields cur kvs s = .ok cur s
  | [], s, _ => by simp [decodeFields]
  | (k, v) :: kvs, s, hk => by
    simp only [decodeFields]
    rw [hk (k, v) (List.mem_cons_self _ _)]
    exact decodeFields_skip h fields cur kvs s (fun kv hkv => hk kv (List.mem_cons_of_mem _ hkv))

theorem encodeFields_mem_keys :
    ∀ (fields : List Field) (vs : List GoVal) (kv : String × Json),
      kv ∈ encodeFields fields vs → kv.1 ∈ fields.map Field.json
  | [], vs, kv, h => by cases vs <;> simp [encodeFields] at h
  | f :: fields, [], kv, h => by simp [encodeFields] at h
  | f :: fields, v :: vs, kv, h => by
    simp only [encodeFields] at h
    split at h
    · exact List.mem_cons_of_mem _ (encodeFields_mem_keys fields vs kv h)
    · rcases List.mem_cons.mp h with rfl | h
      · exact List.mem_cons_self _ _
      · exact List.mem_cons_of_mem _ (encodeFields_mem_keys fields vs kv h)

/-- A well-formed value that `omitempty` leaves out is the zero value of its type,
unless it is an empty slice that is not nil. -/
theorem empty_eq_zero (b : Bool) (t : GoType) (v : GoVal) (hw : wellFormed b t v = true)
    (he : isEmptyValue v = true) (hn : emptyNotNil v = false) : v = zero t := by
  cases v with
  | str x => cases t <;> simp_all [wellFormed, isEmptyValue, zero, zeroN]
  | int i => cases t <;> simp_all [wellFormed, isEmptyValue, zero, zeroN]
  | float q => cases t <;> simp_all [wellFormed, isEmptyValue, zero, zeroN]
  | bool x => cases t <;> simp_all [wellFormed, isEmptyValue, zero, zeroN]
  | nil => cases t <;> simp_all [wellFormed, zero, zeroN]
  | ptr v => simp [isEmptyValue] at he
  | slice xs => cases xs <;> simp_all [isEmptyValue, emptyNotNil]
  | struct fs => simp [isEmptyValue] at he
  | iface t2 v => simp [isEmptyValue] at he

/-- A well-formed value of a basic type or a struct is not encoded as `null`. -/
theorem encode_ne_null (b : Bool) (t : GoType) (v : GoVal) (ht : t.isValueType = true)
    (hw : wellFormed b t v = true) : encode t v ≠ .null := by
  cases v <;> cases t <;> simp_all [wellFormed, encode, GoType.isValueType]

theorem encodeFloat_decode (q : ℚ) :
    (match encodeFloat q with
      | .int i => (i : ℚ)
      | .frac r => r) = q := by
  unfold encodeFloat
  by_cases hq : q.den = 1 ∧ |q.num| < 10 ^ 21
  · simp only [hq, and_self, if_true]
    exact Rat.coe_int_num_of_den_eq_one hq.1
  · simp only [hq, if_false]

/-! ## Round trip: any type, given the hook on the nested widgets -/

theorem depthVals_cons_lt {v : GoVal} {vs : List GoVal} {k : Nat}
    (h : depthVals (v :: vs) < k) : v.depth < k ∧ depthVals vs < k := by
  simp only [depthVals] at h
  omega

mutual
/-- Decoding the encoding of a well-formed value into a zero value gives the value
back, when the hook does so for the widgets nested less than `k` deep. -/
theorem decodeValue_encode (h : Hook) (k : Nat)
    (hh : ∀ w, wellFormed true (.named .BoardWidget) w = true → w.depth < k →
      h (zero (.named .BoardWidget)) (encode (.named .BoardWidget) w) = (.nil, w)) :
    ∀ (v : GoVal) (t : GoType) (s : Option JsonError),
      wellFormed true t v = true → t.noIface = true → v.depth < k →
      decodeValue h t (zero t) (encode t v) s = .ok v s
  | .str x, t, s, hw, _, _ => by
    cases t <;> simp [wellFormed] at hw
    simp [encode, decodeValue, GoType.base, GoType.hasUnmarshaler, reref]
  | .int i, t, s, hw, _, _ => by
    cases t <;> simp [wellFormed] at hw
    simp [encode, decodeValue, GoType.base, GoType.hasUnmarshaler, reref, hw]
  | .float q, t, s, hw, _, _ => by
    cases t <;> simp [wellFormed] at hw
    have := encodeFloat_decode q
    simp only [encode, decodeValue, GoType.base, GoType.hasUnmarshaler, reref,
      Bool.false_eq_true, if_false]
    cases hq : encodeFloat q with
    | int i => rw [hq] at this; simp only at this ⊢; rw [this, if_pos hw]
    | frac r => rw [hq] at this; simp only at this ⊢; rw [this, if_pos hw]
  | .bool x, t, s, hw, _, _ => by
    cases t <;> simp [wellFormed] at hw
    simp [encode, decodeValue, GoType.base, GoType.hasUnmarshaler, reref]
  | .nil, t, s, hw, hn, _ => by
    cases t <;> simp [wellFormed] at hw <;> simp [GoType.noIface] at hn <;>
      simp [encode, decodeValue, storeNull]
  | .ptr v, t, s, hw, hn, hd => by
    cases t <;> simp [wellFormed] at hw
    rename_i t2
    have hd2 : v.depth < k := by simp only [GoVal.depth] at hd; omega
    have hn2 : t2.noIface = true := by simpa [GoType.noIface] using hn
    have ih := decodeValue_encode h k hh v t2 s hw.2 hn2 hd2
    have hne := encode_ne_null true t2 v hw.1 hw.2
    show decodeValue h (.ptr t2) .nil (encode t2 v) s = .ok (.ptr v) s
    rw [decodeValue_ptr h t2 hw.1 _ hne, ih]
  | .slice xs, t, s, hw, hn, hd => by
    cases t <;> simp [wellFormed] at hw
    rename_i e
    have hd2 : depthVals xs < k := by simp only [GoVal.depth] at hd; omega
    have hn2 : e.noIface = true := by simpa [GoType.noIface] using hn
    have ih := decodeElems_encode h k hh xs e s hw hn2 hd2
    show decodeValue h (.slice e) .nil (.arr (encodeElems e xs)) s = .ok (.slice xs) s
    simp only [decodeValue, GoType.base, GoType.hasUnmarshaler, indirect, GoVal.elems, reref,
      Bool.false_eq_true, if_false, ih]
  | .struct fs, t, s, hw, hn, hd => by
    cases t <;> simp [wellFormed] at hw
    rename_i n
    by_cases hbw : n = .BoardWidget
    · subst hbw
      have hwf : wellFormed true (.named .BoardWidget) (.struct fs) = true := by
        simpa [wellFormed] using hw
      rw [decodeValue_widget, hh _ hwf hd]
    · have hd2 : depthVals fs < k := by simp only [GoVal.depth] at hd; omega
      have hu : n.hasUnmarshaler = false := by
        cases n <;> first | rfl | exact absurd rfl hbw
      have ih := decodeFields_encode h k hh fs n.fields [] [] s hw.1
        (TypeName.fields_noIface n hbw) hd2 (by simpa using n.fields_nodup) rfl
      show decodeValue h (.named n) (zero (.named n)) (.obj (encodeFields n.fields fs)) s
        = .ok (.struct fs) s
      rw [decodeValue_struct h n hu, zero_fields]
      simp only [List.nil_append] at ih
      rw [ih]
  | .iface t2 v, t, s, hw, hn, _ => by
    cases t <;> simp [wellFormed] at hw
    simp [GoType.noIface] at hn
/-- The elements of a slice: as `decodeValue_encode`. -/
theorem decodeElems_encode (h : Hook) (k : Nat)
    (hh : ∀ w, wellFormed true (.named .BoardWidget) w = true → w.depth < k →
      h (zero (.named .BoardWidget)) (encode (.named .BoardWidget) w) = (.nil, w)) :
    ∀ (xs : List GoVal) (e : GoType) (s : Option JsonError),
      wellFormedElems true e xs = true → e.noIface = true → depthVals xs < k →
      decodeElems h e [] (encodeElems e xs) s = .ok xs s
  | [], e, s, _, _, _ => by simp [encodeElems, decodeElems]
  | x :: xs, e, s, hw, hn, hd => by
    simp only [wellFormedElems, Bool.and_eq_true] at hw
    obtain ⟨hd1, hd2⟩ := depthVals_cons_lt hd
    simp only [encodeElems, decodeElems, List.headD_nil, List.tail_nil]
    rw [decodeValue_encode h k hh x e s hw.1 hn hd1]
    simp only
    rw [decodeElems_encode h k hh xs e s hw.2 hn hd2]
/-- The fields of a struct, from the field after `done` on: as `decodeValue_encode`. -/
theorem decodeFields_encode (h : Hook) (k : Nat)
    (hh : ∀ w, wellFormed true (.named .BoardWidget) w = true → w.depth < k →
      h (zero (.named .BoardWidget)) (encode (.named .BoardWidget) w) = (.nil, w)) :
    ∀ (vs : List GoVal) (fields done : List Field) (doneVs : List GoVal)
      (s : Option JsonError),
      wellFormedFields true fields vs = true → (∀ f ∈ fields, f.type.noIface = true) →
      depthVals vs < k → ((done ++ fields).map Field.json).Nodup →
      done.length = doneVs.length →
      decodeFields h (done ++ fields) (doneVs ++ fields.map (fun f => zero f.type))
        (encodeFields fields vs) s = .ok (doneVs ++ vs) s
  | [], fields, done, doneVs, s, hw, _, _, _, _ => by
    cases fields with
    | nil => simp [encodeFields, decodeFields]
    | cons f fields => simp [wellFormedFields] at hw
  | v :: vs, fields, done, doneVs, s, hw, hn, hd, hnd, hl => by
    cases fields with
    | nil => simp [wellFormedFields] at hw
    | cons f fields =>
      simp only [wellFormedFields, Bool.and_eq_true, Bool.not_eq_true', Bool.and_eq_false_imp,
        Bool.true_and] at hw
      obtain ⟨⟨hwv, hemp⟩, hwvs⟩ := hw
      obtain ⟨hd1, hd2⟩ := depthVals_cons_lt hd
      have ih := decodeFields_encode h k hh vs fields (done ++ [f]) (doneVs ++ [v]) s hwvs
        (fun g hg => hn g (List.mem_cons_of_mem _ hg)) hd2 (by simpa using hnd)
        (by simp [hl])
      simp only [List.append_assoc, List.singleton_append] at ih
      simp only [encodeFields, List.map_cons]
      split
      · rename_i hom
        simp only [Bool.and_eq_true] at hom
        have hz : v = zero f.type := empty_eq_zero true f.type v hwv hom.2 (hemp hom.1)
        rw [← hz]
        exact ih
      · simp only [decodeFields, findField_exact done f fields hnd]
        rw [hl, getD_append_length]
        rw [decodeValue_encode h k hh v f.type s hwv (hn f (List.mem_cons_self _ _)) hd1]
        simp only
        rw [set_append_length]
        exact ih
end

/-! ## Round trip: the widget -/

/-- The shape of a well-formed widget. -/
theorem wellFormed_widget_inv (b : Bool) (w : GoVal)
    (hw : wellFormed b (.named .BoardWidget) w = true) :
    ∃ d dv id l t, w = .struct [.iface (.named d) dv, id, l] ∧ d.discriminator = some t ∧
      dv.get d "Type" = .ptr (.str t) ∧ wellFormed b (.named d) dv = true ∧
      wellFormedFields b [⟨"Id", "id", true, .ptr .int⟩,
        ⟨"Layout", "layout", true, .ptr (.named .WidgetLayout)⟩] [id, l] = true := by
  cases w <;> simp [wellFormed] at hw
  rename_i fs
  obtain ⟨hf, hdef⟩ := hw
  match fs, hf, hdef with
  | [x, id, l], hf, hdef =>
    simp only [TypeName.fields, wellFormedFields, Bool.and_eq_true] at hf
    unfold definitionOK at hdef
    split at hdef
    · rename_i d dv rest heq
      simp only [List.cons.injEq] at heq
      obtain ⟨rfl, _⟩ := heq
      split at hdef
      · rename_i t s hdisc hty
        simp only [decide_eq_true_eq] at hdef
        subst hdef
        refine ⟨d, dv, id, l, s, rfl, hdisc, hty, ?_, ?_⟩
        · simpa [wellFormed] using hf.1.1
        · simpa [wellFormedFields] using hf.2
      · simp at hdef
    · simp at hdef
  | [], hf, _ => simp [TypeName.fields, wellFormedFields] at hf
  | [_], hf, _ => simp [TypeName.fields, wellFormedFields] at hf
  | [_, _], hf, _ => simp [TypeName.fields, wellFormedFields] at hf
  | _ :: _ :: _ :: _ :: _, hf, _ => simp [TypeName.fields, wellFormedFields] at hf

theorem encode_widget (d : TypeName) (dv id l : GoVal) :
    encode (.named .BoardWidget) (.struct [.iface (.named d) dv, id, l]) =
      .obj (("definition", encode (.named d) dv) ::
        encodeFields [⟨"Id", "id", true, .ptr .int⟩,
          ⟨"Layout", "layout", true, .ptr (.named .WidgetLayout)⟩] [id, l]) := by
  simp [encode, GoType.fields, TypeName.fields, encodeFields]

/-- The fields of a definition struct: `Type` first, and no other key is decoded into
the field `Type` of the light struct of the first pass. -/
theorem definition_fields (d : TypeName) (t : String) (hd : d.discriminator = some t) :
    ∃ rest, d.fields = ⟨"Type", "type", false, .ptr .string⟩ :: rest ∧
      (∀ k ∈ rest.map Field.json, findField TypeName.widgetHandler_Definition.fields k = none) ∧
      d ≠ .BoardWidget ∧
      d.wrapper.fields = [⟨"Definition", "definition", false, .named d⟩] ∧
      d.wrapper.hasUnmarshaler = false := by
  cases d <;> first
    | (simp [TypeName.discriminator] at hd; done)
    | exact ⟨_, rfl, by decide, by decide, rfl, rfl⟩

theorem unmarshalSwitch_discriminator (h : Hook) (d : TypeName) (t : String)
    (hd : d.discriminator = some t) (widget : BoardWidget) (data : Json) :
    unmarshalSwitch h t widget data = unmarshalDefinition h d.wrapper d widget data := by
  cases d <;> simp [TypeName.discriminator] at hd <;> subst hd <;> rfl

/-- The first pass on the encoding of a definition struct finds its discriminator. -/
theorem peek_definition (h : Hook) (b : Bool) (d : TypeName) (t : String) (dv : GoVal)
    (hd : d.discriminator = some t) (hty : dv.get d "Type" = .ptr (.str t))
    (hw : wellFormed b (.named d) dv = true) (s : Option JsonError) :
    decodeValue h (.ptr (.named .widgetHandler_Definition)) .nil (encode (.named d) dv) s
      = .ok (.ptr (.struct [.ptr (.str t)])) s := by
  obtain ⟨rest, hfields, hskip, _, _, _⟩ := definition_fields d t hd
  cases dv <;> simp [wellFormed] at hw
  rename_i dfs
  obtain ⟨hwf, _⟩ := hw
  rw [hfields] at hwf
  match dfs, hwf, hty with
  | [], hwf, _ => simp [wellFormedFields] at hwf
  | tv :: restVs, hwf, hty =>
    have htv : tv = .ptr (.str t) := by
      simpa [GoVal.get, GoVal.structFields, hfields, fieldIndex] using hty
    subst htv
    have henc : encode (.named d) (.struct (.ptr (.str t) :: restVs)) =
        .obj (("type", .str t) :: encodeFields rest restVs) := by
      simp [encode, GoType.fields, hfields, encodeFields, GoType.elem]
    rw [henc, decodeValue_ptr h (.named .widgetHandler_Definition) rfl _ (by simp),
      decodeValue_struct h .widgetHandler_Definition rfl]
    have hff : findField TypeName.widgetHandler_Definition.fields "type"
        = some (0, ⟨"Type", "type", false, .ptr .string⟩) := rfl
    have hval : decodeValue h (.ptr .string) .nil (.str t) s = .ok (.ptr (.str t)) s := by
      simp [decodeValue, GoType.base, GoType.hasUnmarshaler, reref]
    have hskip2 := decodeFields_skip h TypeName.widgetHandler_Definition.fields
      [.ptr (.str t)] (encodeFields rest restVs) s
      (fun kv hkv => hskip kv.1 (encodeFields_mem_keys rest restVs kv hkv))
    simp only [decodeFields, hff]
    rw [show (zero (.named .widgetHandler_Definition)).structFields.getD 0 .nil = .nil from rfl,
      hval]
    simp only
    rw [show (zero (.named .widgetHandler_Definition)).structFields.set 0 (.ptr (.str t))
      = [.ptr (.str t)] from rfl, hskip2]

/-- With a bound above the depth of a well-formed widget, decoding its encoding gives
the widget back, whatever the receiver held. -/
theorem UnmarshalJSONFuel_encode : ∀ (m : Nat) (w : GoVal),
    wellFormed true (.named .BoardWidget) w = true → w.depth < m → ∀ (r : BoardWidget),
      UnmarshalJSONFuel m r (encode (.named .BoardWidget) w) = (.nil, BoardWidget.ofVal w)
  | 0, _, _, hd, _ => by omega
  | m + 1, w, hw, hd, r => by
    obtain ⟨d, dv, id, l, t, rfl, hdisc, hty, hwd, hwrest⟩ := wellFormed_widget_inv true w hw
    obtain ⟨rest, hfields, hskip, hne, hwrap, hwu⟩ := definition_fields d t hdisc
    have hh : ∀ w2, wellFormed true (.named .BoardWidget) w2 = true → w2.depth < m →
        fuelHook m (zero (.named .BoardWidget)) (encode (.named .BoardWidget) w2)
          = (.nil, w2) := by
      intro w2 hw2 hd2
      unfold fuelHook
      rw [UnmarshalJSONFuel_encode m w2 hw2 hd2 _]
      obtain ⟨_, _, _, _, _, rfl, _⟩ := wellFormed_widget_inv true w2 hw2
      rfl
    have hdv : dv.depth < m := by
      simp only [GoVal.depth, depthVals] at hd
      omega
    have hrest : depthVals [id, l] < m := by
      simp only [GoVal.depth, depthVals] at hd ⊢
      omega
    have hidl := decodeFields_encode (fuelHook m) m hh [id, l]
      [⟨"Id", "id", true, .ptr .int⟩, ⟨"Layout", "layout", true, .ptr (.named .WidgetLayout)⟩]
      [⟨"Definition", "definition", false, .ptr (.named .widgetHandler_Definition)⟩]
      [.ptr (.struct [.ptr (.str t)])] none hwrest (by decide) hrest (by decide) rfl
    have hfirst : jsonUnmarshal (fuelHook m) (.named .widgetHandler)
        (.obj (("definition", encode (.named d) dv) ::
          encodeFields [⟨"Id", "id", true, .ptr .int⟩,
            ⟨"Layout", "layout", true, .ptr (.named .WidgetLayout)⟩] [id, l]))
        = .ok (.struct [.ptr (.struct [.ptr (.str t)]), id, l]) := by
      unfold jsonUnmarshal
      rw [decodeValue_struct _ .widgetHandler rfl]
      have hff : findField TypeName.widgetHandler.fields "definition"
          = some (0, ⟨"Definition", "definition", false,
              .ptr (.named .widgetHandler_Definition)⟩) := rfl
      simp only [decodeFields, hff]
      rw [show (zero (.named .widgetHandler)).structFields.getD 0 .nil = .nil from rfl,
        peek_definition (fuelHook m) true d t dv hdisc hty hwd none]
      simp only
      have hidl2 : decodeFields (fuelHook m) TypeName.widgetHandler.fields
          ((zero (.named .widgetHandler)).structFields.set 0 (.ptr (.struct [.ptr (.str t)])))
          (encodeFields [⟨"Id", "id", true, .ptr .int⟩,
            ⟨"Layout", "layout", true, .ptr (.named .WidgetLayout)⟩] [id, l]) none
          = .ok [.ptr (.struct [.ptr (.str t)]), id, l] none := hidl
      rw [hidl2]
    have hsecond : jsonUnmarshal (fuelHook m) (.named d.wrapper)
        (.obj (("definition", encode (.named d) dv) ::
          encodeFields [⟨"Id", "id", true, .ptr .int⟩,
            ⟨"Layout", "layout", true, .ptr (.named .WidgetLayout)⟩] [id, l]))
        = .ok (.struct [dv]) := by
      unfold jsonUnmarshal
      rw [decodeValue_struct _ d.wrapper hwu, zero_fields, hwrap]
      have hff : findField [(⟨"Definition", "definition", false, .named d⟩ : Field)] "definition"
          = some (0, ⟨"Definition", "definition", false, .named d⟩) := rfl
      simp only [decodeFields, hff, List.map_cons, List.map_nil, List.getD_cons_zero]
      rw [decodeValue_encode (fuelHook m) m hh dv (.named d) none hwd rfl hdv]
      simp only [List.set_cons_zero]
      rw [decodeFields_skip]
      intro kv hkv
      have hk := encodeFields_mem_keys _ _ kv hkv
      simp only [List.map_cons, List.map_nil, List.mem_cons, List.mem_singleton,
        List.not_mem_nil, or_false] at hk
      rcases hk with hk | hk <;> rw [hk] <;> rfl
    rw [UnmarshalJSONFuel_succ, encode_widget]
    unfold unmarshalBody
    rw [hfirst]
    have hg1 : (GoVal.struct [.ptr (.struct [.ptr (.str t)]), id, l]).get .widgetHandler
        "Definition" = .ptr (.struct [.ptr (.str t)]) := rfl
    have hg2 : (GoVal.struct [.ptr (.str t)]).get .widgetHandler_Definition "Type"
        = .ptr (.str t) := rfl
    simp only [hg1, hg2]
    rw [unmarshalSwitch_discriminator _ d t hdisc]
    unfold unmarshalDefinition
    rw [hsecond]
    have hg3 : (GoVal.struct [dv]).get d.wrapper "Definition" = dv := by
      simp [GoVal.get, hwrap, fieldIndex, GoVal.structFields]
    simp only [hg3]
    rfl

/-- Decoding the encoding of a well-formed widget gives the widget back. -/
theorem UnmarshalJSON_encode (w : GoVal) (hw : wellFormed true (.named .BoardWidget) w = true)
    (r : BoardWidget) :
    r.UnmarshalJSON (encode (.named .BoardWidget) w) = (.nil, BoardWidget.ofVal w) := by
  rw [← UnmarshalJSONFuel_eq (max (encode (.named .BoardWidget) w).depth w.depth + 1) r _
    (by omega)]
  exact UnmarshalJSONFuel_encode _ w hw (by omega) r

/-- C1, as stated, fails: the check status widget whose `Tags` is the empty list (not
nil) is well-formed, its encoding has no key `tags`, and decoding the encoding succeeds
with `Tags` nil: the result differs from the widget. -/
theorem roundtrip_counterexample :
    wellFormed false (.named .BoardWidget)
      (⟨.iface (.named .CheckStatusDefinition)
        (.struct [.ptr (.str "check_status"), .ptr (.str "c"), .ptr (.str "g"), .nil, .nil,
          .slice [], .nil, .nil, .nil, .nil]),
        .nil, .nil⟩ : BoardWidget).toVal = true ∧
    zeroWidget.UnmarshalJSON
      (⟨.iface (.named .CheckStatusDefinition)
        (.struct [.ptr (.str "check_status"), .ptr (.str "c"), .ptr (.str "g"), .nil, .nil,
          .slice [], .nil, .nil, .nil, .nil]),
        .nil, .nil⟩ : BoardWidget).marshal
      = (.nil, ⟨.iface (.named .CheckStatusDefinition)
        (.struct [.ptr (.str "check_status"), .ptr (.str "c"), .ptr (.str "g"), .nil, .nil,
          .nil, .nil, .nil, .nil, .nil]),
        .nil, .nil⟩) ∧
    (⟨.iface (.named .CheckStatusDefinition)
        (.struct [.ptr (.str "check_status"), .ptr (.str "c"), .ptr (.str "g"), .nil, .nil,
          .nil, .nil, .nil, .nil, .nil]),
        .nil, .nil⟩ : BoardWidget)
      ≠ ⟨.iface (.named .CheckStatusDefinition)
        (.struct [.ptr (.str "check_status"), .ptr (.str "c"), .ptr (.str "g"), .nil, .nil,
          .slice [], .nil, .nil, .nil, .nil]),
        .nil, .nil⟩ :=
  ⟨rfl, rfl, by simp⟩

/-- C1, amended: for every well-formed widget `e` of any of the eight variants
(`Definition` holds the variant's struct by value, its `Type` points to the variant's
discriminator, every value has the shape of its type, every string is a sequence of
Unicode scalar values, every `int` and `float64` is a finite number in the range of
its type, and so recursively for the widgets nested in groups) in which no list field
tagged `omitempty` holds an empty list that is not nil, and whose encoding is nested
at most `maxNestingDepth` deep, the deepest document `json.Unmarshal` accepts,
`UnmarshalJSON` on the encoding of `e` succeeds and yields `e`, whatever the receiver
held. -/
theorem roundtrip (e r : BoardWidget)
    (hw : wellFormed true (.named .BoardWidget) e.toVal = true)
    (_hdepth : e.marshal.depth ≤ maxNestingDepth) :
    r.UnmarshalJSON e.marshal = (.nil, e) :=
  UnmarshalJSON_encode e.toVal hw r

set_option maxRecDepth 8192 in
/-- C1, amended, on a group nested three deep around a note, with an id and a
layout. -/
theorem roundtrip_witness :
    zeroWidget.UnmarshalJSON
      (⟨.iface (.named .GroupDefinition) (.struct [.ptr (.str "group"), .ptr (.str "ordered"),
        .slice [.struct [.iface (.named .GroupDefinition) (.struct [.ptr (.str "group"), .nil,
          .slice [.struct [.iface (.named .GroupDefinition) (.struct [.ptr (.str "group"), .nil,
            .slice [.struct [.iface (.named .NoteDefinition) (.struct [.ptr (.str "note"),
              .ptr (.str ""), .nil, .nil, .nil, .ptr (.bool false), .nil, .nil]),
              .ptr (.int 0), .nil]],
            .nil]), .nil, .nil]],
          .ptr (.str "t")]), .nil, .ptr (.struct [.ptr (.float 0), .nil, .nil, .nil])]],
        .nil]), .ptr (.int 7), .nil⟩ : BoardWidget).marshal
      = (.nil, ⟨.iface (.named .GroupDefinition) (.struct [.ptr (.str "group"),
        .ptr (.str "ordered"),
        .slice [.struct [.iface (.named .GroupDefinition) (.struct [.ptr (.str "group"), .nil,
          .slice [.struct [.iface (.named .GroupDefinition) (.struct [.ptr (.str "group"), .nil,
            .slice [.struct [.iface (.named .NoteDefinition) (.struct [.ptr (.str "note"),
              .ptr (.str ""), .nil, .nil, .nil, .ptr (.bool false), .nil, .nil]),
              .ptr (.int 0), .nil]],
            .nil]), .nil, .nil]],
          .ptr (.str "t")]), .nil, .ptr (.struct [.ptr (.float 0), .nil, .nil, .nil])]],
        .nil]), .ptr (.int 7), .nil⟩) :=
  roundtrip _ zeroWidget (by decide) (by decide)

/-! ## Decode then encode: following a path -/

theorem zero_ptr (t : GoType) : zero (.ptr t) = .nil := rfl

theorem indirect_zero : ∀ (t : GoType), indirect t (zero t) = zero t.base
  | .ptr t => by simp [indirect, zero_ptr, GoType.base]
  | .string => rfl
  | .int => rfl
  | .float64 => rfl
  | .bool => rfl
  | .iface => rfl
  | .slice _ => rfl
  | .named _ => rfl

theorem encode_reref : ∀ (t : GoType) (x : GoVal), encode t (reref t x) = encode t.base x
  | .ptr t, x => by
    simp only [reref, encode, GoType.elem, GoType.base]
    exact encode_reref t x
  | .string, _ => rfl
  | .int, _ => rfl
  | .float64, _ => rfl
  | .bool, _ => rfl
  | .iface, _ => rfl
  | .slice _, _ => rfl
  | .named _, _ => rfl

/-- Element `i` of a decoded slice is element `i` of the array, decoded on its own. -/
theorem decodeElems_get (h : Hook) (e : GoType) :
    ∀ (xs : List Json) (ys : List GoVal) (i : Nat) (x : Json),
      decodeElems h e [] xs none = .ok ys none → xs.get? i = some x →
      ∃ y, ys.get? i = some y ∧ decodeValue h e (zero e) x none = .ok y none
  | [], _, _, _, _, hx => by simp at hx
  | x0 :: xs, ys, i, x, hd, hx => by
    simp only [decodeElems, List.headD_nil, List.tail_nil] at hd
    cases hv : decodeValue h e (zero e) x0 none with
    | stop st => rw [hv] at hd; cases hd
    | ok y0 s1 =>
      rw [hv] at hd
      simp only at hd
      cases hr : decodeElems h e [] xs s1 with
      | stop st => rw [hr] at hd; cases hd
      | ok ys2 s2 =>
        rw [hr] at hd
        simp only [Res.ok.injEq] at hd
        obtain ⟨rfl, rfl⟩ := hd
        have hs1 : s1 = none := decodeElems_saved_none hr
        subst hs1
        cases i with
        | zero =>
          simp only [List.get?_cons_zero, Option.some.injEq] at hx
          subst hx
          exact ⟨y0, rfl, hv⟩
        | succ i =>
          simp only [List.get?_cons_succ] at hx
          obtain ⟨y, hy, hdy⟩ := decodeElems_get h e xs ys2 i x hr hx
          exact ⟨y, by simpa using hy, hdy⟩

theorem encodeElems_get (e : GoType) :
    ∀ (ys : List GoVal) (i : Nat) (y : GoVal), ys.get? i = some y →
      (encodeElems e ys).get? i = some (encode e y)
  | [], _, _, hy => by simp at hy
  | y0 :: ys, 0, y, hy => by
    simp only [List.get?_cons_zero, Option.some.injEq] at hy
    subst hy
    rfl
  | y0 :: ys, i + 1, y, hy => by
    simp only [List.get?_cons_succ] at hy
    simpa [encodeElems] using encodeElems_get e ys i y hy

/-- After an object was decoded into the zero value of a struct: a field with one
member holds that member decoded into a zero value, a field with no member is zero. -/
theorem field_single (h : Hook) (fields : List Field) (i : Nat) (f : Field)
    (hf : fields.get? i = some f) (kvs : List (String × Json)) (fs : List GoVal)
    (hd : decodeFields h fields (fields.map (fun f => zero f.type)) kvs none = .ok fs none) :
    (∀ v, membersOf fields i kvs = [v] →
        decodeValue h f.type (zero f.type) v none = .ok (fs.getD i .nil) none) ∧
      (membersOf fields i kvs = [] → fs.getD i .nil = zero f.type) := by
  have hi : i < (fields.map (fun f => zero f.type)).length := by
    rw [List.length_map]
    exact List.get?_eq_some.mp hf |>.1
  have hz : (fields.map (fun f => zero f.type)).getD i .nil = zero f.type := by
    rw [List.getD_eq_getElem?_getD, List.getElem?_map]
    rw [List.get?_eq_getElem?] at hf
    rw [hf]
    rfl
  obtain ⟨e, he, hnone⟩ := decodeFields_getD h fields i f hf kvs _ fs none none hi hd
  rw [hz, hnone rfl] at he
  constructor
  · intro v hm
    rw [hm] at he
    simp only [decodeSeq] at he
    cases hv : decodeValue h f.type (zero f.type) v none with
    | stop st => rw [hv] at he; cases he
    | ok x s1 =>
      rw [hv] at he
      simp only [Res.ok.injEq] at he
      rw [he.1, he.2]
  · intro hm
    rw [hm] at he
    simp only [decodeSeq, Res.ok.injEq] at he
    exact he.1.symm

/-- The encoding of an empty value leads to no object. -/
theorem follow_empty (t : GoType) (x : GoVal) (hx : isEmptyValue x = true) (p : List Step)
    (o : List (String × Json)) : (encode t x).follow p ≠ some (.obj o) := by
  cases x with
  | ptr v => simp [isEmptyValue] at hx
  | struct fs => simp [isEmptyValue] at hx
  | iface t2 v => simp [isEmptyValue] at hx
  | slice xs =>
    cases xs with
    | cons y ys => simp [isEmptyValue] at hx
    | nil => cases p with
      | nil => simp [encode, encodeElems, Json.follow]
      | cons st p => cases st <;> simp [encode, encodeElems, Json.follow]
  | nil => cases p <;> simp [encode, Json.follow]
  | str s => cases p <;> simp [encode, Json.follow]
  | int i => cases p <;> simp [encode, Json.follow]
  | float q => cases p <;> simp [encode, Json.follow]
  | bool b => cases p <;> simp [encode, Json.follow]

/-- An object decoded into a struct without `UnmarshalJSON` of its own, behind any
pointers: the fields were decoded from the zero values. -/
theorem inv_struct (h : Hook) (t : GoType) (n : TypeName) (hb : t.base = .named n)
    (hu : n.hasUnmarshaler = false) (kvs : List (String × Json)) (v : GoVal)
    (hinv : decodeValue h t (zero t) (.obj kvs) none = .ok v none) :
    ∃ fs, decodeFields h n.fields (n.fields.map (fun f => zero f.type)) kvs none = .ok fs none ∧
      v = reref t (.struct fs) := by
  simp only [decodeValue, hb, GoType.hasUnmarshaler, hu, Bool.false_eq_true, if_false,
    indirect_zero, zero_fields] at hinv
  cases hd : decodeFields h n.fields (n.fields.map (fun f => zero f.type)) kvs none with
  | stop st => rw [hd] at hinv; cases hinv
  | ok fs s =>
    rw [hd] at hinv
    simp only [Res.ok.injEq] at hinv
    obtain ⟨rfl, rfl⟩ := hinv
    exact ⟨fs, rfl, rfl⟩

theorem jsonUnmarshal_struct (h : Hook) (n : TypeName) (hu : n.hasUnmarshaler = false)
    (kvs : List (String × Json)) (v : GoVal)
    (hj : jsonUnmarshal h (.named n) (.obj kvs) = .ok v) :
    ∃ fs, decodeFields h n.fields (n.fields.map (fun f => zero f.type)) kvs none = .ok fs none ∧
      v = .struct fs := by
  unfold jsonUnmarshal at hj
  cases hd : decodeValue h (.named n) (zero (.named n)) (.obj kvs) none with
  | stop st => rw [hd] at hj; cases hj
  | ok v2 s =>
    rw [hd] at hj
    cases s with
    | some e => cases hj
    | none =>
      simp only [Except.ok.injEq] at hj
      subst hj
      obtain ⟨fs, hfs, hv⟩ := inv_struct h (.named n) n rfl hu kvs v2 hd
      exact ⟨fs, hfs, by simpa [reref] using hv⟩

theorem definitionOf_some {ty : String} {d : TypeName} (h : definitionOf ty = some d) :
    d.discriminator = some ty := by
  unfold definitionOf at h
  repeat' split at h
  all_goals first
    | (cases h; subst_vars; rfl)
    | cases h

/-- What the body of `UnmarshalJSON` did when it returns the nil error. -/
theorem unmarshalBody_nil (h : Hook) (r : BoardWidget) (data : Json) (w : BoardWidget)
    (hok : unmarshalBody h r data = (.nil, w)) :
    ∃ hd ty d vv, jsonUnmarshal h (.named .widgetHandler) data = .ok hd ∧
      discriminator data = some ty ∧ definitionOf ty = some d ∧
      jsonUnmarshal h (.named d.wrapper) data = .ok vv ∧
      w = ⟨.iface (.named d) (vv.get d.wrapper "Definition"),
        hd.get .widgetHandler "Id", hd.get .widgetHandler "Layout"⟩ := by
  unfold unmarshalBody at hok
  cases hp : jsonUnmarshal h (.named .widgetHandler) data with
  | error st =>
    rw [hp] at hok
    simp only [Prod.mk.injEq] at hok
    exact absurd hok.1 (jsonUnmarshal_error_ne_nil h _ data st hp)
  | ok hd =>
    rw [hp] at hok
    simp only at hok
    split at hok
    · rename_i d0 hdef
      split at hok
      · rename_i ty htype
        have hdisc : discriminator data = some ty := by
          unfold discriminator
          rw [← jsonUnmarshal_widgetHandler h, hp]
          simp only [hdef, htype]
        have key : ∀ (wr dn : TypeName) (w0 : BoardWidget),
            unmarshalDefinition h wr dn w0 data = (.nil, w) →
            ∃ vv, jsonUnmarshal h (.named wr) data = .ok vv ∧
              w = { w0 with Definition := .iface (.named dn) (vv.get wr "Definition") } := by
          intro wr dn w0 hu
          obtain ⟨vv, hvv, heq⟩ := unmarshalDefinition_nil h wr dn w0 data (by rw [hu])
          rw [hu] at heq
          simp only [Prod.mk.injEq, true_and] at heq
          exact ⟨vv, hvv, heq⟩
        unfold unmarshalSwitch at hok
        repeat' split at hok
        all_goals first
          | simp only [Prod.mk.injEq, reduceCtorEq, false_and] at hok
          | (obtain ⟨vv, hvv, heq⟩ := key _ _ _ hok
             subst_vars
             exact ⟨hd, _, _, vv, rfl, hdisc, rfl, hvv, rfl⟩)
      · simp at hok
    · simp at hok

/-- An object decoded into a `BoardWidget`, behind any pointers: the method ran with
a bound one less, and its two passes returned no error. -/
theorem inv_widget (m : Nat) (t : GoType) (hb : t.base = .named .BoardWidget)
    (kvs : List (String × Json)) (v : GoVal)
    (hinv : decodeValue (fuelHook m) t (zero t) (.obj kvs) none = .ok v none) :
    ∃ m2 hd ty d vv, m = m2 + 1 ∧
      jsonUnmarshal (fuelHook m2) (.named .widgetHandler) (.obj kvs) = .ok hd ∧
      discriminator (.obj kvs) = some ty ∧ definitionOf ty = some d ∧
      jsonUnmarshal (fuelHook m2) (.named d.wrapper) (.obj kvs) = .ok vv ∧
      v = reref t (.struct [.iface (.named d) (vv.get d.wrapper "Definition"),
        hd.get .widgetHandler "Id", hd.get .widgetHandler "Layout"]) := by
  simp only [decodeValue, hb, GoType.hasUnmarshaler, TypeName.hasUnmarshaler, if_true,
    callHook, indirect_zero] at hinv
  cases hh : fuelHook m (zero (.named .BoardWidget)) (.obj kvs) with
  | mk st v0 =>
    rw [hh] at hinv
    cases st <;>
      simp only [Res.ok.injEq, reduceCtorEq, saveError_eq, firstError_none, and_false] at hinv
    obtain ⟨rfl, _⟩ := hinv
    cases m with
    | zero =>
      unfold fuelHook at hh
      simp [UnmarshalJSONFuel] at hh
    | succ m2 =>
      unfold fuelHook at hh
      simp only [UnmarshalJSONFuel_succ, Prod.mk.injEq] at hh
      obtain ⟨h1, h2⟩ := hh
      obtain ⟨hd, ty, d, vv, hp, hdisc, hdef, hvv, hw⟩ := unmarshalBody_nil (fuelHook m2)
        (BoardWidget.ofVal (zero (.named .BoardWidget))) (.obj kvs)
        (unmarshalBody (fuelHook m2) (BoardWidget.ofVal (zero (.named .BoardWidget)))
          (.obj kvs)).2
        (by rw [← h1])
      refine ⟨m2, hd, ty, d, vv, rfl, hp, hdisc, hdef, hvv, ?_⟩
      rw [← h2, hw]
      rfl

/-- An object decoded into a struct, behind any pointers: the values of the fields it
was decoded into, and the members its encoding has for them. -/
theorem inv_object (m : Nat) (t : GoType) (n : TypeName) (hb : t.base = .named n)
    (kvs : List (String × Json)) (v : GoVal)
    (hinv : decodeValue (fuelHook m) t (zero t) (.obj kvs) none = .ok v none) :
    ∃ fs out, decodeFields (fuelHook m) n.decodedFields
        (n.decodedFields.map (fun f => zero f.type)) kvs none = .ok fs none ∧
      encode t v = .obj out ∧
      ∀ i f, n.decodedFields.get? i = some f → (n = .BoardWidget → i ≠ 0) →
        out.lookup f.json =
          if f.omitempty && isEmptyValue (fs.getD i .nil) then none
          else some (encode f.type (fs.getD i .nil)) := by
  by_cases hn : n = .BoardWidget
  · subst hn
    obtain ⟨m2, hd, ty, d, vv, _, hp, _, _, _, hv⟩ := inv_widget m t hb kvs v hinv
    obtain ⟨hfs, hdec, hhd⟩ := jsonUnmarshal_struct (fuelHook m2) .widgetHandler rfl kvs hd hp
    have hdec2 : decodeFields (fuelHook m) TypeName.widgetHandler.fields
        (TypeName.widgetHandler.fields.map (fun f => zero f.type)) kvs none = .ok hfs none := by
      rw [← hdec]
      exact (decodeFields_hookFree (fuelHook m) (fuelHook m2) _
        (TypeName.hookFree_fields .widgetHandler rfl) _ kvs none).2
    have hlen : hfs.length = 3 := by
      have := decodeFields_length _ _ kvs _ hfs none none hdec
      simpa [TypeName.fields] using this
    refine ⟨hfs, encodeFields TypeName.BoardWidget.fields
      [.iface (.named d) (vv.get d.wrapper "Definition"), hfs.getD 1 .nil, hfs.getD 2 .nil],
      hdec2, ?_, ?_⟩
    · rw [hv, encode_reref, hb, hhd]
      rfl
    · intro i f hf hi
      have hi0 := hi rfl
      simp only [TypeName.decodedFields, if_true] at hf
      match i, hf, hi0 with
      | 1, hf, _ =>
        simp only [TypeName.fields, List.get?_cons_succ, List.get?_cons_zero,
          Option.some.injEq] at hf
        subst hf
        exact encodeFields_lookup TypeName.BoardWidget.fields _ 1 _
          (TypeName.fields_nodup _) rfl rfl
      | 2, hf, _ =>
        simp only [TypeName.fields, List.get?_cons_succ, List.get?_cons_zero,
          Option.some.injEq] at hf
        subst hf
        exact encodeFields_lookup TypeName.BoardWidget.fields _ 2 _
          (TypeName.fields_nodup _) rfl rfl
      | i + 3, hf, _ => simp [TypeName.fields] at hf
  · have hu : n.hasUnmarshaler = false := by
      cases n <;> first | rfl | exact absurd rfl hn
    obtain ⟨fs, hdec, hv⟩ := inv_struct (fuelHook m) t n hb hu kvs v hinv
    have hdf : n.decodedFields = n.fields := by simp [TypeName.decodedFields, hn]
    have hlen : n.fields.length = fs.length := by
      have := decodeFields_length _ _ kvs _ fs none none hdec
      simpa using this.symm
    refine ⟨fs, encodeFields n.fields fs, by rw [hdf]; exact hdec, ?_, ?_⟩
    · rw [hv, encode_reref, hb]
      rfl
    · intro i f hf _
      rw [hdf] at hf
      exact encodeFields_lookup n.fields fs i f n.fields_nodup hlen hf

/-- Following a path in the input, along the types, and the same path in the encoding
of the decoded value: where the input path ends at an object decoded into a struct, the
output path ends at the encoding of the value decoded from that object. -/
theorem descend_follow : ∀ (p : List Step) (m : Nat) (t : GoType) (j : Json) (v : GoVal)
    (t2 : GoType) (kvs : List (String × Json)) (n2 : TypeName),
    decodeValue (fuelHook m) t (zero t) j none = .ok v none →
    descend t j p = some (t2, .obj kvs) → t2.base = .named n2 →
    ∃ m2 v2 out, decodeValue (fuelHook m2) t2 (zero t2) (.obj kvs) none = .ok v2 none ∧
      encode t2 v2 = .obj out ∧ (encode t v).follow p = some (.obj out)
  | [], m, t, j, v, t2, kvs, n2, hinv, hdesc, hb2 => by
    simp only [descend, Option.some.injEq, Prod.mk.injEq] at hdesc
    obtain ⟨rfl, rfl⟩ := hdesc
    obtain ⟨fs, out, _, henc, _⟩ := inv_object m t n2 hb2 kvs v hinv
    exact ⟨m, v, out, hinv, henc, by simp [Json.follow, henc]⟩
  | .key k :: p, m, t, j, v, t2, kvs, n2, hinv, hdesc, hb2 => by
    cases j with
    | obj kvs0 =>
      simp only [descend] at hdesc
      cases htb : t.base with
      | named n =>
        rw [htb] at hdesc
        simp only at hdesc
        by_cases hdefk : n = .BoardWidget ∧ k = "definition"
        · obtain ⟨rfl, rfl⟩ := hdefk
          simp only [and_self, if_true] at hdesc
          obtain ⟨m2, hd, ty, d, vv, _, _, hdisc, hdef, hvv, hv⟩ :=
            inv_widget m t htb kvs0 v hinv
          rw [hdisc] at hdesc
          simp only [Option.some_bind, hdef] at hdesc
          obtain ⟨_, _, _, _, hwrap, hwu⟩ := definition_fields d ty (definitionOf_some hdef)
          obtain ⟨wfs, hdec, hvvs⟩ := jsonUnmarshal_struct (fuelHook m2) d.wrapper hwu kvs0 vv hvv
          have hfield := (field_single (fuelHook m2) d.wrapper.fields 0
            ⟨"Definition", "definition", false, .named d⟩ (by rw [hwrap]; rfl) kvs0 wfs hdec).1
          split at hdesc
          · rename_i v1 hm
            have hinv1 := hfield v1 hm
            obtain ⟨m3, v3, out, h1, h2, h3⟩ :=
              descend_follow p m2 (.named d) v1 (wfs.getD 0 .nil) t2 kvs n2 hinv1 hdesc hb2
            refine ⟨m3, v3, out, h1, h2, ?_⟩
            have hget : vv.get d.wrapper "Definition" = wfs.getD 0 .nil := by
              rw [hvvs]
              simp [GoVal.get, hwrap, fieldIndex, GoVal.structFields]
            rw [hv, encode_reref, htb, encode_widget, hget]
            simpa [Json.follow] using h3
          · cases hdesc
        · simp only [hdefk, if_false] at hdesc
          cases hfi : findIdx (fun f => decide (f.json = k)) n.decodedFields with
          | none => rw [hfi] at hdesc; cases hdesc
          | some r =>
            obtain ⟨i, f⟩ := r
            rw [hfi] at hdesc
            simp only at hdesc
            obtain ⟨hf, hk⟩ := findIdx_mem _ _ i f hfi
            simp only [decide_eq_true_eq] at hk
            obtain ⟨fs, out0, hdec, henc, hlook⟩ := inv_object m t n htb kvs0 v hinv
            have hi0 : n = .BoardWidget → i ≠ 0 := by
              intro hn hi
              subst hn hi
              simp only [TypeName.decodedFields, if_true, TypeName.fields, List.get?_cons_zero,
                Option.some.injEq] at hf
              apply hdefk
              refine ⟨rfl, ?_⟩
              rw [← hk, ← hf]
            have hfield := (field_single (fuelHook m) n.decodedFields i f hf kvs0 fs hdec).1
            split at hdesc
            · rename_i v1 hm
              have hinv1 := hfield v1 hm
              obtain ⟨m3, v3, out, h1, h2, h3⟩ :=
                descend_follow p m f.type v1 (fs.getD i .nil) t2 kvs n2 hinv1 hdesc hb2
              refine ⟨m3, v3, out, h1, h2, ?_⟩
              have hne : isEmptyValue (fs.getD i .nil) = false := by
                cases he : isEmptyValue (fs.getD i .nil) with
                | false => rfl
                | true => exact absurd h3 (follow_empty f.type _ he p out)
              have hl := hlook i f hf hi0
              rw [hne, Bool.and_false] at hl
              simp only [Bool.false_eq_true, if_false] at hl
              rw [henc]
              simp only [Json.follow, ← hk, hl]
              exact h3
            · cases hdesc
      | _ => rw [htb] at hdesc; cases hdesc
    | _ => simp [descend] at hdesc
  | .index i :: p, m, t, j, v, t2, kvs, n2, hinv, hdesc, hb2 => by
    cases j with
    | arr xs =>
      simp only [descend] at hdesc
      cases htb : t.base with
      | slice e =>
        rw [htb] at hdesc
        simp only at hdesc
        cases hx : xs.get? i with
        | none => rw [hx] at hdesc; cases hdesc
        | some x =>
          rw [hx] at hdesc
          simp only at hdesc
          simp only [decodeValue, htb, GoType.hasUnmarshaler, Bool.false_eq_true, if_false,
            indirect_zero] at hinv
          cases hd : decodeElems (fuelHook m) e (zero (.slice e)).elems xs none with
          | stop st => rw [hd] at hinv; cases hinv
          | ok ys s =>
            rw [hd] at hinv
            simp only [Res.ok.injEq] at hinv
            obtain ⟨rfl, rfl⟩ := hinv
            obtain ⟨y, hy, hinv1⟩ := decodeElems_get (fuelHook m) e xs ys i x hd hx
            obtain ⟨m3, v3, out, h1, h2, h3⟩ :=
              descend_follow p m e x y t2 kvs n2 hinv1 hdesc hb2
            refine ⟨m3, v3, out, h1, h2, ?_⟩
            rw [encode_reref, htb]
            simp only [encode, GoType.elem, Json.follow, encodeElems_get e ys i y hy]
            exact h3
      | _ => rw [htb] at hdesc; cases hdesc
    | _ => simp [descend] at hdesc

/-! ## The receiver does not matter when the method succeeds -/

/-- When the body returns the nil error, it returns the same widget on any receiver. -/
theorem unmarshalBody_receiver (h : Hook) (r r2 : BoardWidget) (data : Json) (w : BoardWidget)
    (hok : unmarshalBody h r data = (.nil, w)) : unmarshalBody h r2 data = (.nil, w) := by
  obtain ⟨hd, ty, d, vv, hp, hdisc, hdef, hvv, hw⟩ := unmarshalBody_nil h r data w hok
  obtain ⟨hd2, d0, hp2, hdef2, htype2⟩ := discriminator_some hdisc
  rw [← jsonUnmarshal_widgetHandler h, hp] at hp2
  simp only [Except.ok.injEq] at hp2
  subst hp2
  rw [unmarshalBody_discriminator h r2 data ty hd d0
    (by rw [← jsonUnmarshal_widgetHandler h, hp]) hdef2 htype2,
    unmarshalSwitch_discriminator h d ty (definitionOf_some hdef)]
  unfold unmarshalDefinition
  rw [hvv, hw]

theorem UnmarshalJSON_receiver (r r2 : BoardWidget) (data : Json) (w : BoardWidget)
    (hok : r.UnmarshalJSON data = (.nil, w)) : r2.UnmarshalJSON data = (.nil, w) := by
  rw [UnmarshalJSON_eq] at hok ⊢
  exact unmarshalBody_receiver _ r r2 data w hok

/-! ## Zero stays present, absent stays absent -/

/-- C9: let `UnmarshalJSON` decode an envelope into `w`, and let a path lead, in the
input, to an object that is decoded into a struct (the envelope itself, its layout, its
definition, a request of the definition, a query of the request, the `compute` or a
`group_by` element of the query, ...).  Then the same path in the encoding of `w` leads
to an object, and for every field of that struct that is a pointer to a number and is
tagged `omitempty` (`id`, `x`, `y`, `width`, `height`, `precision`, `limit`,
`interval`): if the input object sets the field to `0`, the output object has the key
with value `0`, and if the input object has no member for the field, the output object
does not have the key. -/
theorem zero_present_omitted_absent (r w : BoardWidget) (data : Json)
    (hok : r.UnmarshalJSON data = (.nil, w))
    (p : List Step) (t : GoType) (n : TypeName) (kvs : List (String × Json))
    (i : Nat) (f : Field)
    (hp : descend (.named .BoardWidget) data p = some (t, .obj kvs))
    (ht : t.base = .named n)
    (hf : n.decodedFields.get? i = some f) (hopt : f.omitempty = true)
    (hnum : f.type = .ptr .int ∨ f.type = .ptr .float64) :
    ∃ out, w.marshal.follow p = some (.obj out) ∧
      (membersOf n.decodedFields i kvs = [.num (.int 0)] →
        out.lookup f.json = some (.num (.int 0))) ∧
      (membersOf n.decodedFields i kvs = [] → out.lookup f.json = none) := by
  have hz := UnmarshalJSON_receiver r zeroWidget data w hok
  have hinv : decodeValue (fuelHook (data.depth + 1)) (.named .BoardWidget)
      (zero (.named .BoardWidget)) data none = .ok w.toVal none := by
    rw [decodeValue_widget, fuelHook_eq _ _ data (Nat.lt_succ_self _)]
    have : BoardWidget.ofVal (zero (.named .BoardWidget)) = zeroWidget := rfl
    rw [this, hz]
  obtain ⟨m2, v2, out, h1, h2, h3⟩ :=
    descend_follow p _ (.named .BoardWidget) data w.toVal t kvs n hinv hp ht
  obtain ⟨fs, out2, hdec, henc, hlook⟩ := inv_object m2 t n ht kvs v2 h1
  rw [h2] at henc
  simp only [Json.obj.injEq] at henc
  subst henc
  have hi0 : n = .BoardWidget → i ≠ 0 := by
    intro hn hi
    subst hn hi
    simp only [TypeName.decodedFields, if_true, TypeName.fields, List.get?_cons_zero,
      Option.some.injEq] at hf
    rw [← hf] at hopt
    cases hopt
  have hl := hlook i f hf hi0
  obtain ⟨hone, hnone⟩ := field_single (fuelHook m2) n.decodedFields i f hf kvs fs hdec
  refine ⟨out, h3, ?_, ?_⟩
  · intro hm
    have hv := hone _ hm
    rcases hnum with hty | hty
    · rw [hty] at hv hl
      have : fs.getD i .nil = .ptr (.int 0) := by
        have hc : decodeValue (fuelHook m2) (.ptr .int) (zero (.ptr .int)) (.num (.int 0)) none
            = .ok (.ptr (.int 0)) none := rfl
        rw [hc] at hv
        simp only [Res.ok.injEq, and_true] at hv
        exact hv.symm
      rw [this] at hl
      simpa [isEmptyValue, encode, GoType.elem] using hl
    · rw [hty] at hv hl
      have : fs.getD i .nil = .ptr (.float 0) := by
        have hc : decodeValue (fuelHook m2) (.ptr .float64) (zero (.ptr .float64))
            (.num (.int 0)) none = .ok (.ptr (.float ((0 : Int) : ℚ))) none := rfl
        rw [hc] at hv
        simp only [Res.ok.injEq, and_true] at hv
        rw [← hv]
        simp
      rw [this] at hl
      simpa [isEmptyValue, encode, GoType.elem, encodeFloat] using hl
  · intro hm
    have hv := hnone hm
    have hzero : zero f.type = .nil := by
      rcases hnum with hty | hty <;> rw [hty] <;> rfl
    rw [hv, hzero, hopt] at hl
    simpa [isEmptyValue] using hl

/-- C9, on the example envelope: the `interval` that the input sets to `0` in
`definition.requests[0].log_query.compute` is in the output with value `0`, and the
`height` that the input leaves out of `layout` is not in the output. -/
theorem zero_present_omitted_absent_witness :
    (∃ out, (zeroWidget.UnmarshalJSON exampleTimeseries).2.marshal.follow
        [.key "definition", .key "requests", .index 0, .key "log_query", .key "compute"]
        = some (.obj out) ∧ out.lookup "interval" = some (.num (.int 0))) ∧
    (∃ out, (zeroWidget.UnmarshalJSON exampleTimeseries).2.marshal.follow [.key "layout"]
        = some (.obj out) ∧ out.lookup "height" = none) :=
  ⟨(zero_present_omitted_absent zeroWidget (zeroWidget.UnmarshalJSON exampleTimeseries).2
      exampleTimeseries (by with_unfolding_all rfl)
      [.key "definition", .key "requests", .index 0, .key "log_query", .key "compute"]
      (.ptr (.named .WidgetApmOrLogQuery_Compute)) .WidgetApmOrLogQuery_Compute
      [("aggregation", .str "count"), ("interval", .num (.int 0))] 2
      ⟨"Interval", "interval", true, .ptr .int⟩ (by with_unfolding_all rfl) rfl rfl rfl
      (Or.inl rfl)).imp
      (fun _ h => ⟨h.1, h.2.1 rfl⟩),
    (zero_present_omitted_absent zeroWidget (zeroWidget.UnmarshalJSON exampleTimeseries).2
      exampleTimeseries (by with_unfolding_all rfl) [.key "layout"]
      (.ptr (.named .WidgetLayout)) .WidgetLayout
      [("x", .num (.int 0)), ("y", .num (.frac (3 / 2)))] 2
      ⟨"Height", "height", true, .ptr .float64⟩ rfl rfl rfl rfl (Or.inr rfl)).imp
      (fun _ h => ⟨h.1, h.2.2 rfl⟩)⟩

/-! ## The nesting bound is never reached -/

theorem callHook_stop_from (h : Hook) (t : GoType) (cur : GoVal) (j : Json)
    (s : Option JsonError) (st : Status) (hs : callHook h t cur j s = .stop st) :
    ∃ c, (h c j).1 = st := by
  unfold callHook at hs
  cases hh : h (indirect t cur) j with
  | mk st2 v =>
    rw [hh] at hs
    cases st2 <;> simp at hs <;> exact ⟨indirect t cur, by rw [hh, ← hs]⟩

theorem storeNull_stop_from (h : Hook) (t : GoType) (cur : GoVal)
    (s : Option JsonError) (st : Status) (hs : storeNull h t cur s = .stop st) :
    ∃ c, (h c .null).1 = st := by
  unfold storeNull at hs
  split at hs <;> try cases hs
  split at hs
  · cases hh : h cur .null with
    | mk st2 v =>
      rw [hh] at hs
      cases st2 <;> simp at hs <;> exact ⟨cur, by rw [hh, ← hs]⟩
  · cases hs

mutual
/-- A decoding step stops only with the status of a call of the hook, on a part of the
document. -/
theorem decodeValue_stop_from (h : Hook) (t : GoType) (cur : GoVal) (st : Status) :
    ∀ (j : Json) (s : Option JsonError), decodeValue h t cur j s = .stop st →
      ∃ c j2, j2.depth ≤ j.depth ∧ (h c j2).1 = st
  | .null, s, hs => by
    simp only [decodeValue] at hs
    obtain ⟨c, hc⟩ := storeNull_stop_from h t cur s st hs
    exact ⟨c, .null, Nat.le_refl _, hc⟩
  | .bool b, s, hs => by
    simp only [decodeValue] at hs
    split at hs
    · obtain ⟨c, hc⟩ := callHook_stop_from h t cur _ s st hs
      exact ⟨c, _, Nat.le_refl _, hc⟩
    · split at hs <;> cases hs
  | .str x, s, hs => by
    simp only [decodeValue] at hs
    split at hs
    · obtain ⟨c, hc⟩ := callHook_stop_from h t cur _ s st hs
      exact ⟨c, _, Nat.le_refl _, hc⟩
    · split at hs <;> cases hs
  | .num n, s, hs => by
    simp only [decodeValue] at hs
    split at hs
    · obtain ⟨c, hc⟩ := callHook_stop_from h t cur _ s st hs
      exact ⟨c, _, Nat.le_refl _, hc⟩
    · split at hs
      · split at hs
        · split at hs <;> cases hs
        · simp [typeError] at hs
      · split at hs <;> split at hs <;> cases hs
      · cases hs
      · simp [typeError] at hs
  | .arr xs, s, hs => by
    simp only [decodeValue] at hs
    split at hs
    · obtain ⟨c, hc⟩ := callHook_stop_from h t cur _ s st hs
      exact ⟨c, _, Nat.le_refl _, hc⟩
    · split at hs
      · cases hd : decodeElems h _ (indirect t cur).elems xs s with
        | ok vs s2 => rw [hd] at hs; cases hs
        | stop st2 =>
          rw [hd] at hs
          simp only [Res.stop.injEq] at hs
          subst hs
          obtain ⟨c, j2, hj, hc⟩ := decodeElems_stop_from h _ st2 _ xs s hd
          exact ⟨c, j2, by simp only [Json.depth]; omega, hc⟩
      · cases hs
      · simp [typeError] at hs
  | .obj kvs, s, hs => by
    simp only [decodeValue] at hs
    split at hs
    · obtain ⟨c, hc⟩ := callHook_stop_from h t cur _ s st hs
      exact ⟨c, _, Nat.le_refl _, hc⟩
    · split at hs
      · cases hd : decodeFields h _ (indirect t cur).structFields kvs s with
        | ok vs s2 => rw [hd] at hs; cases hs
        | stop st2 =>
          rw [hd] at hs
          simp only [Res.stop.injEq] at hs
          subst hs
          obtain ⟨c, j2, hj, hc⟩ := decodeFields_stop_from h _ st2 _ kvs s hd
          exact ⟨c, j2, by simp only [Json.depth]; omega, hc⟩
      · cases hs
      · simp [typeError] at hs
/-- The elements of an array: as `decodeValue_stop_from`. -/
theorem decodeElems_stop_from (h : Hook) (e : GoType) (st : Status) :
    ∀ (cur : List GoVal) (xs : List Json) (s : Option JsonError),
      decodeElems h e cur xs s = .stop st →
      ∃ c j2, j2.depth ≤ depthElems xs ∧ (h c j2).1 = st
  | _, [], s, hs => by simp [decodeElems] at hs
  | cur, x :: xs, s, hs => by
    simp only [decodeElems] at hs
    cases hx : decodeValue h e (cur.headD (zero e)) x s with
    | stop st2 =>
      rw [hx] at hs
      simp only [Res.stop.injEq] at hs
      subst hs
      obtain ⟨c, j2, hj, hc⟩ := decodeValue_stop_from h e _ st2 x s hx
      exact ⟨c, j2, by simp only [depthElems]; omega, hc⟩
    | ok v s1 =>
      rw [hx] at hs
      simp only at hs
      cases hr : decodeElems h e cur.tail xs s1 with
      | ok vs s2 => rw [hr] at hs; cases hs
      | stop st2 =>
        rw [hr] at hs
        simp only [Res.stop.injEq] at hs
        subst hs
        obtain ⟨c, j2, hj, hc⟩ := decodeElems_stop_from h e st2 _ xs s1 hr
        exact ⟨c, j2, by simp only [depthElems]; omega, hc⟩
/-- The members of an object: as `decodeValue_stop_from`. -/
theorem decodeFields_stop_from (h : Hook) (fields : List Field) (st : Status) :
    ∀ (cur : List GoVal) (kvs : List (String × Json)) (s : Option JsonError),
      decodeFields h fields cur kvs s = .stop st →
      ∃ c j2, j2.depth ≤ depthMembers kvs ∧ (h c j2).1 = st
  | cur, [], s, hs => by simp [decodeFields] at hs
  | cur, (k, v) :: kvs, s, hs => by
    simp only [decodeFields] at hs
    split at hs
    · obtain ⟨c, j2, hj, hc⟩ := decodeFields_stop_from h fields st cur kvs s hs
      exact ⟨c, j2, by simp only [depthMembers]; omega, hc⟩
    · rename_i i f _
      cases hx : decodeValue h f.type (cur.getD i .nil) v s with
      | stop st2 =>
        rw [hx] at hs
        simp only [Res.stop.injEq] at hs
        subst hs
        obtain ⟨c, j2, hj, hc⟩ := decodeValue_stop_from h f.type _ st2 v s hx
        exact ⟨c, j2, by simp only [depthMembers]; omega, hc⟩
      | ok x s1 =>
        rw [hx] at hs
        obtain ⟨c, j2, hj, hc⟩ := decodeFields_stop_from h fields st _ kvs s1 hs
        exact ⟨c, j2, by simp only [depthMembers]; omega, hc⟩
end

/-- A call of `json.Unmarshal` into a struct without `UnmarshalJSON` of its own fails
with a returned error, or with the status of a call of the hook on a strictly less deep
part of the document. -/
theorem jsonUnmarshal_error_from (h : Hook) (n : TypeName) (hu : n.hasUnmarshaler = false)
    (data : Json) (st : Status) (hs : jsonUnmarshal h (.named n) data = .error st) :
    (∃ e, st = .error e) ∨ ∃ c j2, j2.depth < data.depth ∧ (h c j2).1 = st := by
  unfold jsonUnmarshal at hs
  cases hd : decodeValue h (.named n) (zero (.named n)) data none with
  | ok v s =>
    rw [hd] at hs
    cases s with
    | none => cases hs
    | some e =>
      simp only [Except.error.injEq] at hs
      exact Or.inl ⟨e, hs.symm⟩
  | stop st2 =>
    rw [hd] at hs
    simp only [Except.error.injEq] at hs
    subst hs
    right
    cases data with
    | null => simp [decodeValue, storeNull, hu] at hd
    | bool b => simp [decodeValue, GoType.base, GoType.hasUnmarshaler, hu, typeError] at hd
    | str x => simp [decodeValue, GoType.base, GoType.hasUnmarshaler, hu, typeError] at hd
    | num x => simp [decodeValue, GoType.base, GoType.hasUnmarshaler, hu, typeError] at hd
    | arr xs => simp [decodeValue, GoType.base, GoType.hasUnmarshaler, hu, typeError] at hd
    | obj kvs =>
      rw [decodeValue_struct h n hu] at hd
      cases hf : decodeFields h n.fields (zero (.named n)).structFields kvs none with
      | ok fs s => rw [hf] at hd; cases hd
      | stop st3 =>
        rw [hf] at hd
        simp only [Res.stop.injEq] at hd
        subst hd
        obtain ⟨c, j2, hj, hc⟩ := decodeFields_stop_from h n.fields st3 _ kvs none hf
        exact ⟨c, j2, by simp only [Json.depth]; omega, hc⟩

/-- With a bound above the depth of the document the bounded method does not give up:
`UnmarshalJSON` terminates with the nil error, an error or a fault. -/
theorem UnmarshalJSONFuel_ne_outOfFuel : ∀ (n : Nat) (widget : BoardWidget) (data : Json),
    data.depth < n → (UnmarshalJSONFuel n widget data).1 ≠ .outOfFuel
  | 0, _, _, hn => by omega
  | n + 1, widget, data, hn => by
    have key : ∀ (wr dn : TypeName) (w : BoardWidget), wr.hasUnmarshaler = false →
        (unmarshalDefinition (fuelHook n) wr dn w data).1 ≠ .outOfFuel := by
      intro wr dn w hu
      unfold unmarshalDefinition
      cases hj : jsonUnmarshal (fuelHook n) (.named wr) data with
      | ok v => simp
      | error st =>
        simp only
        rcases jsonUnmarshal_error_from (fuelHook n) wr hu data st hj with ⟨e, rfl⟩ | ⟨c, j2, hj2, hc⟩
        · simp
        · rw [← hc]
          exact UnmarshalJSONFuel_ne_outOfFuel n (BoardWidget.ofVal c) j2 (by omega)
    rw [UnmarshalJSONFuel_succ]
    unfold unmarshalBody
    cases hp : jsonUnmarshal (fuelHook n) (.named .widgetHandler) data with
    | error st =>
      simp only
      rcases jsonUnmarshal_error_from (fuelHook n) .widgetHandler rfl data st hp with
        ⟨e, rfl⟩ | ⟨c, j2, hj2, hc⟩
      · simp
      · rw [← hc]
        exact UnmarshalJSONFuel_ne_outOfFuel n (BoardWidget.ofVal c) j2 (by omega)
    | ok hd =>
      simp only
      split
      · split
        · unfold unmarshalSwitch
          repeat' split
          all_goals first
            | exact key _ _ _ rfl
            | simp
        · simp
      · simp

/-- The method `UnmarshalJSON` never ends with the status `outOfFuel`. -/
theorem status_ne_outOfFuel (widget : BoardWidget) (data : Json) :
    (widget.UnmarshalJSON data).1 ≠ .outOfFuel :=
  UnmarshalJSONFuel_ne_outOfFuel (data.depth + 1) widget data (Nat.lt_succ_self _)

/-! ## The note example -/

/-- C11: for every string `s` and every receiver, `UnmarshalJSON` on
`{"definition":{"type":"note","content":s}}` returns the nil error; afterwards `Id` and
`Layout` are nil and `Definition` holds a `NoteDefinition` whose `Type` points to
`"note"`, whose `Content` points to `s` and whose six other fields are nil, and
`GetWidgetType` gives `"note"`.  `json.Marshal` of that widget writes
`{"definition":{"type":"note","content":s}}`: the only key is `definition`, and under
it there are exactly the keys `type` and `content`. -/
theorem note_example (s : String) (r : BoardWidget) :
    r.UnmarshalJSON (.obj [("definition", .obj [("type", .str "note"), ("content", .str s)])])
      = (.nil, ⟨.iface (.named .NoteDefinition)
          (.struct [.ptr (.str "note"), .ptr (.str s), .nil, .nil, .nil, .nil, .nil, .nil]),
          .nil, .nil⟩) ∧
    BoardWidget.GetWidgetType ⟨.iface (.named .NoteDefinition)
        (.struct [.ptr (.str "note"), .ptr (.str s), .nil, .nil, .nil, .nil, .nil, .nil]),
        .nil, .nil⟩ = ("note", none) ∧
    BoardWidget.marshal ⟨.iface (.named .NoteDefinition)
        (.struct [.ptr (.str "note"), .ptr (.str s), .nil, .nil, .nil, .nil, .nil, .nil]),
        .nil, .nil⟩
      = .obj [("definition", .obj [("type", .str "note"), ("content", .str s)])] :=
  ⟨rfl, rfl, rfl⟩

/-! ## The type switch -/

/-- C15: `GetWidgetType` looks at the dynamic type of `Definition` only.  When
`Definition` holds, by value, one of the eight definition structs, the result is the
discriminator of that struct and the nil error, whatever the struct contains (its
`Type` field included).  For every other `Definition` the result is the empty string
and the error "Unsupported widget type": in particular for the nil interface and for a
pointer, also a pointer to a definition struct. -/
theorem getWidgetType_by_shape (w : BoardWidget) :
    w.GetWidgetType =
      (match w.Definition with
       | .iface (.named d) _ =>
         (match d.discriminator with
          | some t => (t, none)
          | none => ("", some (.Errorf "Unsupported widget type")))
       | _ => ("", some (.Errorf "Unsupported widget type"))) ∧
    ((w.GetWidgetType).2 = none ↔
      ∃ d dv t, w.Definition = .iface (.named d) dv ∧ d.discriminator = some t) ∧
    BoardWidget.GetWidgetType ⟨.nil, w.Id, w.Layout⟩
      = ("", some (.Errorf "Unsupported widget type")) ∧
    (∀ (t : GoType) (v : GoVal), BoardWidget.GetWidgetType ⟨.iface (.ptr t) v, w.Id, w.Layout⟩
      = ("", some (.Errorf "Unsupported widget type"))) := by
  refine ⟨?_, ?_, rfl, fun _ _ => rfl⟩
  · rcases w with ⟨d, i, l⟩
    cases d <;> try rfl
    rename_i t v
    cases t <;> try rfl
    rename_i n
    cases n <;> rfl
  · rcases w with ⟨d, i, l⟩
    constructor
    · intro h
      cases d <;> try (simp [BoardWidget.GetWidgetType] at h)
      rename_i t v
      cases t <;> try (simp [BoardWidget.GetWidgetType] at h)
      rename_i n
      cases n <;>
        first
        | exact ⟨_, _, _, rfl, rfl⟩
        | (simp [BoardWidget.GetWidgetType] at h)
    · rintro ⟨d2, dv, t, hd, ht⟩
      simp only at hd
      subst hd
      cases d2 <;> first | rfl | (simp [TypeName.discriminator] at ht)

/-! ## The result is a function of the document -/

theorem unmarshalDefinition_status (h : Hook) (wr dn : TypeName) (r r2 : BoardWidget)
    (data : Json) :
    (unmarshalDefinition h wr dn r data).1 = (unmarshalDefinition h wr dn r2 data).1 := by
  unfold unmarshalDefinition
  cases jsonUnmarshal h (.named wr) data <;> rfl

theorem unmarshalSwitch_status (h : Hook) (type : String) (r r2 : BoardWidget) (data : Json) :
    (unmarshalSwitch h type r data).1 = (unmarshalSwitch h type r2 data).1 := by
  unfold unmarshalSwitch
  repeat' split
  all_goals first | rfl | exact unmarshalDefinition_status ..

theorem unmarshalBody_status (h : Hook) (r r2 : BoardWidget) (data : Json) :
    (unmarshalBody h r data).1 = (unmarshalBody h r2 data).1 := by
  unfold unmarshalBody
  cases jsonUnmarshal h (.named .widgetHandler) data with
  | error st => rfl
  | ok hd =>
    simp only
    split
    · split
      · exact unmarshalSwitch_status ..
      · rfl
    · rfl

/-- C16: the outcome of `UnmarshalJSON` is a function of the document.  For any two
receivers the call ends with the same status, and when it returns the nil error on one
receiver it returns the nil error on the other and leaves both receivers equal: nothing
of what a receiver held before (`Id`, `Layout`, `Definition`) is left in the result. -/
theorem decode_receiver_independent (r r2 : BoardWidget) (data : Json) (w : BoardWidget)
    (hok : r.UnmarshalJSON data = (.nil, w)) :
    r2.UnmarshalJSON data = (.nil, w) ∧
      ∀ r3 r4 : BoardWidget, (r3.UnmarshalJSON data).1 = (r4.UnmarshalJSON data).1 :=
  ⟨UnmarshalJSON_receiver r r2 data w hok, fun r3 r4 => by
    rw [UnmarshalJSON_eq, UnmarshalJSON_eq]
    exact unmarshalBody_status _ r3 r4 data⟩

theorem decode_receiver_independent_witness :
    zeroWidget.UnmarshalJSON
        (.obj [("definition", .obj [("type", .str "note"), ("content", .str "hi")])])
      = (.nil, ⟨.iface (.named .NoteDefinition)
          (.struct [.ptr (.str "note"), .ptr (.str "hi"), .nil, .nil, .nil, .nil, .nil, .nil]),
          .nil, .nil⟩) ∧
    BoardWidget.UnmarshalJSON
        ⟨.iface (.named .GroupDefinition) (.struct [.ptr (.str "group"), .nil, .nil, .nil]),
          .ptr (.int 7), .ptr (.struct [.ptr (.float 1), .nil, .nil, .nil])⟩
        (.obj [("definition", .obj [("type", .str "note"), ("content", .str "hi")])])
      = (.nil, ⟨.iface (.named .NoteDefinition)
          (.struct [.ptr (.str "note"), .ptr (.str "hi"), .nil, .nil, .nil, .nil, .nil, .nil]),
          .nil, .nil⟩) :=
  ⟨rfl, (decode_receiver_independent zeroWidget
    ⟨.iface (.named .GroupDefinition) (.struct [.ptr (.str "group"), .nil, .nil, .nil]),
      .ptr (.int 7), .ptr (.struct [.ptr (.float 1), .nil, .nil, .nil])⟩
    (.obj [("definition", .obj [("type", .str "note"), ("content", .str "hi")])])
    ⟨.iface (.named .NoteDefinition)
      (.struct [.ptr (.str "note"), .ptr (.str "hi"), .nil, .nil, .nil, .nil, .nil, .nil]),
      .nil, .nil⟩ rfl).1⟩

/-! ## Requests with several queries, or none -/

/-- C19: `UnmarshalJSON` does not check that a request has exactly one query.  A change,
a distribution and a timeseries envelope whose request gives both `q` and `log_query`
are decoded with the nil error and both `MetricQuery` and `LogQuery` set; the same
envelopes with the empty request `{}` are decoded with the nil error and none of the four
query fields set. -/
theorem query_kinds_not_checked :
    ((zeroWidget.UnmarshalJSON (requestEnvelope CHANGE_WIDGET bothQueries)).1 = .nil ∧
      requestQueries (zeroWidget.UnmarshalJSON (requestEnvelope CHANGE_WIDGET bothQueries)).2
        = [[.ptr (.str "avg:system.load.1"), .nil,
            .ptr (.struct [.ptr (.str "main"), .nil, .nil, .nil]), .nil]]) ∧
    ((zeroWidget.UnmarshalJSON (requestEnvelope DISTRIBUTION_WIDGET bothQueries)).1 = .nil ∧
      requestQueries
          (zeroWidget.UnmarshalJSON (requestEnvelope DISTRIBUTION_WIDGET bothQueries)).2
        = [[.ptr (.str "avg:system.load.1"), .nil,
            .ptr (.struct [.ptr (.str "main"), .nil, .nil, .nil]), .nil]]) ∧
    ((zeroWidget.UnmarshalJSON (requestEnvelope TIMESERIES_WIDGET bothQueries)).1 = .nil ∧
      requestQueries
          (zeroWidget.UnmarshalJSON (requestEnvelope TIMESERIES_WIDGET bothQueries)).2
        = [[.ptr (.str "avg:system.load.1"), .nil,
            .ptr (.struct [.ptr (.str "main"), .nil, .nil, .nil]), .nil]]) ∧
    ((zeroWidget.UnmarshalJSON (requestEnvelope CHANGE_WIDGET (.obj []))).1 = .nil ∧
      requestQueries (zeroWidget.UnmarshalJSON (requestEnvelope CHANGE_WIDGET (.obj []))).2
        = [[.nil, .nil, .nil, .nil]]) ∧
    ((zeroWidget.UnmarshalJSON (requestEnvelope DISTRIBUTION_WIDGET (.obj []))).1 = .nil ∧
      requestQueries
          (zeroWidget.UnmarshalJSON (requestEnvelope DISTRIBUTION_WIDGET (.obj []))).2
        = [[.nil, .nil, .nil, .nil]]) ∧
    ((zeroWidget.UnmarshalJSON (requestEnvelope TIMESERIES_WIDGET (.obj []))).1 = .nil ∧
      requestQueries (zeroWidget.UnmarshalJSON (requestEnvelope TIMESERIES_WIDGET (.obj []))).2
        = [[.nil, .nil, .nil, .nil]]) :=
  ⟨⟨rfl, rfl⟩, ⟨rfl, rfl⟩, ⟨rfl, rfl⟩, ⟨rfl, rfl⟩, ⟨rfl, rfl⟩, ⟨rfl, rfl⟩⟩

/-! ## `Id` and `Layout` come from the envelope -/

/-- Only an object is decoded with the nil error. -/
theorem unmarshalBody_object (h : Hook) (r : BoardWidget) (data : Json) (w : BoardWidget)
    (hok : unmarshalBody h r data = (.nil, w)) : ∃ kvs, data = .obj kvs := by
  obtain ⟨hd, ty, d, vv, _, hdisc, _, _, _⟩ := unmarshalBody_nil h r data w hok
  cases data with
  | obj kvs => exact ⟨kvs, rfl⟩
  | null => exact absurd (show discriminator .null = none from rfl) (by rw [hdisc]; simp)
  | bool b => exact absurd (show discriminator (.bool b) = none from rfl) (by rw [hdisc]; simp)
  | num n => exact absurd (show discriminator (.num n) = none from rfl) (by rw [hdisc]; simp)
  | str s => exact absurd (show discriminator (.str s) = none from rfl) (by rw [hdisc]; simp)
  | arr xs => exact absurd (show discriminator (.arr xs) = none from rfl) (by rw [hdisc]; simp)

/-- After a call that returned the nil error, `Id` and `Layout` are what the members of
the envelope decoded into `id` and `layout` give, decoded one after the other from
nil. -/
theorem unmarshalBody_id_layout (h : Hook) (r : BoardWidget) (kvs : List (String × Json))
    (w : BoardWidget) (hok : unmarshalBody h r (.obj kvs) = (.nil, w)) :
    decodeSeq noHook (.ptr .int) .nil (membersOf TypeName.widgetHandler.fields 1 kvs) none
        = .ok w.Id none ∧
      decodeSeq noHook (.ptr (.named .WidgetLayout)) .nil
          (membersOf TypeName.widgetHandler.fields 2 kvs) none
        = .ok w.Layout none := by
  obtain ⟨hd, ty, d, vv, hp, _, _, _, hw⟩ := unmarshalBody_nil h r _ w hok
  rw [jsonUnmarshal_widgetHandler h] at hp
  obtain ⟨fs, hdec, hfs⟩ := jsonUnmarshal_struct noHook .widgetHandler rfl kvs hd hp
  subst hfs hw
  obtain ⟨e1, h1, he1⟩ := decodeFields_getD noHook TypeName.widgetHandler.fields 1
    ⟨"Id", "id", true, .ptr .int⟩ rfl kvs _ fs none none (by decide) hdec
  obtain ⟨e2, h2, he2⟩ := decodeFields_getD noHook TypeName.widgetHandler.fields 2
    ⟨"Layout", "layout", true, .ptr (.named .WidgetLayout)⟩ rfl kvs _ fs none none
    (by decide) hdec
  rw [he1 rfl] at h1
  rw [he2 rfl] at h2
  exact ⟨h1, h2⟩

/-- C12: let `UnmarshalJSON` return the nil error.  Then the document is an object, and
`Id` and `Layout` of the receiver are exactly what the members `id` and `layout` of
that object give: the value of decoding into a nil `*int`, one after the other, the
members decoded into `id`, and likewise into a nil `*WidgetLayout` the members decoded
into `layout`.  With no such member the field is nil.  Nothing else of the document
enters: whenever another document, with any discriminator and any definition, has the
same `id` members (the same `layout` members) and is decoded with the nil error, it
gives the same `Id` (the same `Layout`). -/
theorem id_layout_from_envelope (r w : BoardWidget) (data : Json)
    (hok : r.UnmarshalJSON data = (.nil, w)) :
    ∃ kvs, data = .obj kvs ∧
      decodeSeq noHook (.ptr .int) .nil (membersOf TypeName.widgetHandler.fields 1 kvs) none
        = .ok w.Id none ∧
      decodeSeq noHook (.ptr (.named .WidgetLayout)) .nil
          (membersOf TypeName.widgetHandler.fields 2 kvs) none
        = .ok w.Layout none ∧
      (membersOf TypeName.widgetHandler.fields 1 kvs = [] → w.Id = .nil) ∧
      (membersOf TypeName.widgetHandler.fields 2 kvs = [] → w.Layout = .nil) ∧
      ∀ (r2 w2 : BoardWidget) (kvs2 : List (String × Json)),
        r2.UnmarshalJSON (.obj kvs2) = (.nil, w2) →
        (membersOf TypeName.widgetHandler.fields 1 kvs2
            = membersOf TypeName.widgetHandler.fields 1 kvs → w2.Id = w.Id) ∧
        (membersOf TypeName.widgetHandler.fields 2 kvs2
            = membersOf TypeName.widgetHandler.fields 2 kvs → w2.Layout = w.Layout) := by
  rw [UnmarshalJSON_eq] at hok
  obtain ⟨kvs, rfl⟩ := unmarshalBody_object _ r data w hok
  obtain ⟨h1, h2⟩ := unmarshalBody_id_layout _ r kvs w hok
  refine ⟨kvs, rfl, h1, h2, ?_, ?_, ?_⟩
  · intro hm
    rw [hm] at h1
    simp only [decodeSeq, Res.ok.injEq, and_true] at h1
    exact h1.symm
  · intro hm
    rw [hm] at h2
    simp only [decodeSeq, Res.ok.injEq, and_true] at h2
    exact h2.symm
  · intro r2 w2 kvs2 hok2
    rw [UnmarshalJSON_eq] at hok2
    obtain ⟨g1, g2⟩ := unmarshalBody_id_layout _ r2 kvs2 w2 hok2
    constructor
    · intro hm
      rw [hm, h1] at g1
      simp only [Res.ok.injEq, and_true] at g1
      exact g1.symm
    · intro hm
      rw [hm, h2] at g2
      simp only [Res.ok.injEq, and_true] at g2
      exact g2.symm

theorem id_layout_from_envelope_witness :
    (∃ kvs, exampleTimeseries = .obj kvs ∧
      decodeSeq noHook (.ptr .int) .nil (membersOf TypeName.widgetHandler.fields 1 kvs) none
        = .ok (.ptr (.int 0)) none) ∧
    (zeroWidget.UnmarshalJSON exampleTimeseries).2.Id = .ptr (.int 0) := by
  obtain ⟨kvs, hk, h1, _⟩ := id_layout_from_envelope zeroWidget
    (zeroWidget.UnmarshalJSON exampleTimeseries).2 exampleTimeseries (by with_unfolding_all rfl)
  exact ⟨⟨kvs, hk, by with_unfolding_all exact h1⟩, by with_unfolding_all rfl⟩

/-! ## The two passes read the same discriminator -/

/-- A key is decoded into the first field of a struct exactly when it matches the key
of that field case-insensitively, provided no other field has a key matching it. -/
theorem findField_head (f : Field) (rest : List Field) (k : String)
    (hrest : ∀ g ∈ rest, foldName g.json ≠ foldName f.json) :
    (findField (f :: rest) k).map Prod.fst = some 0 ↔ foldName f.json = foldName k := by
  unfold findField
  simp only [findIdx]
  by_cases he : f.json = k
  · simp [he]
  · simp only [he, decide_False, Bool.false_eq_true, if_false]
    cases hx : findIdx (fun f => decide (f.json = k)) rest with
    | some r =>
      obtain ⟨hget, hp⟩ := findIdx_mem _ rest r.1 r.2 hx
      have hmem : r.2 ∈ rest := List.get?_mem hget
      simp only [decide_eq_true_eq] at hp
      have hne := hrest r.2 hmem
      rw [hp] at hne
      simp only [Option.map_some', Option.some.injEq]
      constructor
      · intro h0
        omega
      · intro hf
        exact absurd hf.symm hne
    | none =>
      simp only [Option.map_none']
      by_cases hf : foldName f.json = foldName k
      · simp [hf]
      · simp only [hf, decide_False, Bool.false_eq_true, if_false, iff_false]
        cases findIdx (fun f => decide (foldName f.json = foldName k)) rest <;> simp

/-- Two structs whose first fields have the same key, matched by no other field,
receive the same members in their first field. -/
theorem membersOf_head (f g : Field) (rest rest2 : List Field) (hfg : f.json = g.json)
    (hrest : ∀ x ∈ rest, foldName x.json ≠ foldName f.json)
    (hrest2 : ∀ x ∈ rest2, foldName x.json ≠ foldName g.json) :
    ∀ kvs : List (String × Json),
      membersOf (f :: rest) 0 kvs = membersOf (g :: rest2) 0 kvs
  | [] => rfl
  | (k, v) :: kvs => by
    rw [membersOf_cons, membersOf_cons, membersOf_head f g rest rest2 hfg hrest hrest2 kvs]
    have h1 := findField_head f rest k hrest
    have h2 := findField_head g rest2 k hrest2
    rw [hfg] at h1
    by_cases hk : foldName g.json = foldName k
    · rw [if_pos (h1.2 hk), if_pos (h2.2 hk)]
    · rw [if_neg (fun h => hk (h1.1 h)), if_neg (fun h => hk (h2.1 h))]

theorem decodeSeq_saved_none {hook : Hook} {t : GoType} {cur v : GoVal} {vs : List Json}
    {s : Option JsonError} (h : decodeSeq hook t cur vs s = .ok v none) : s = none := by
  rw [decodeSeq_saved] at h
  cases hd : decodeSeq hook t cur vs none with
  | stop st => simp [hd] at h
  | ok o e =>
    simp only [hd, Res.addSaved_ok, Res.ok.injEq] at h
    exact (firstError_eq_none h.2).1

/-- What a `*string` field holds after a member was decoded into it without an error
does not depend on what it held before. -/
theorem decodeValue_ptr_string (h h2 : Hook) (c c2 x : GoVal) (j : Json)
    (hx : decodeValue h (.ptr .string) c j none = .ok x none) :
    decodeValue h2 (.ptr .string) c2 j none = .ok x none := by
  cases j <;>
    simp_all [decodeValue, storeNull, typeError, GoType.base, GoType.hasUnmarshaler, reref,
      firstError]

theorem decodeSeq_ptr_string (h h2 : Hook) :
    ∀ (ts : List Json) (c c2 v v2 : GoVal),
      decodeSeq h (.ptr .string) c ts none = .ok v none →
      decodeSeq h2 (.ptr .string) c2 ts none = .ok v2 none →
      (ts = [] ∧ v = c ∧ v2 = c2) ∨ v = v2
  | [], c, c2, v, v2, h1, h2 => by
    simp only [decodeSeq, Res.ok.injEq, and_true] at h1 h2
    exact .inl ⟨rfl, h1.symm, h2.symm⟩
  | t :: ts, c, c2, v, v2, h1, h2 => by
    simp only [decodeSeq] at h1 h2
    cases hx : decodeValue h (.ptr .string) c t none with
    | stop st => rw [hx] at h1; cases h1
    | ok x s1 =>
      rw [hx] at h1
      simp only at h1
      have hs1 := decodeSeq_saved_none h1
      subst hs1
      rw [decodeValue_ptr_string h _ c c2 x t hx] at h2
      simp only at h2
      rcases decodeSeq_ptr_string h _ ts x x v v2 h1 h2 with ⟨_, hv, hv2⟩ | hv
      · exact .inr (hv.trans hv2.symm)
      · exact .inr hv

theorem TypeName.hasUnmarshaler_of_ne (n : TypeName) (hn : n ≠ .BoardWidget) :
    n.hasUnmarshaler = false := by
  cases n <;> first | rfl | exact absurd rfl hn

/-- The fields of a definition struct other than `Type` have keys that do not match
`type`. -/
theorem definition_fields_fold (d : TypeName) (t : String) (hd : d.discriminator = some t) :
    ∃ rest, d.fields = ⟨"Type", "type", false, .ptr .string⟩ :: rest ∧
      ∀ g ∈ rest, foldName g.json ≠ foldName "type" := by
  cases d <;> first
    | (simp [TypeName.discriminator] at hd; done)
    | exact ⟨_, rfl, by decide⟩

/-- The struct the first pass decodes a member `definition` into. -/
theorem indirect_peeked (sh : GoVal)
    (hsh : sh = .nil ∨ ∃ fs, sh = .ptr (.struct fs) ∧ 0 < fs.length) :
    0 < (indirect (.ptr (.named .widgetHandler_Definition)) sh).structFields.length ∧
      (indirect (.ptr (.named .widgetHandler_Definition)) sh).structFields.getD 0 .nil
        = peekedType sh := by
  rcases hsh with rfl | ⟨fs, rfl, hfs⟩
  · exact ⟨by decide, rfl⟩
  · exact ⟨hfs, rfl⟩

/-- One member `definition`, decoded by the first pass into the pointer `sh` and by the
second pass into the definition struct `sw`: where the first pass has a `Type`, the
second pass has the same. -/
theorem type_step (h k : Hook) (d : TypeName) (t : String) (hd : d.discriminator = some t)
    (m : Json) (sh sw sh2 sw2 : GoVal)
    (hsh : sh = .nil ∨ ∃ fs, sh = .ptr (.struct fs) ∧ 0 < fs.length)
    (hsw : 0 < sw.structFields.length)
    (hag : peekedType sh = .nil ∨ peekedType sh = sw.structFields.getD 0 .nil)
    (h1 : decodeValue h (.ptr (.named .widgetHandler_Definition)) sh m none = .ok sh2 none)
    (h2 : decodeValue k (.named d) sw m none = .ok sw2 none) :
    (sh2 = .nil ∨ ∃ fs, sh2 = .ptr (.struct fs) ∧ 0 < fs.length) ∧
      0 < sw2.structFields.length ∧
      (peekedType sh2 = .nil ∨ peekedType sh2 = sw2.structFields.getD 0 .nil) := by
  obtain ⟨rest, hfields, hfold⟩ := definition_fields_fold d t hd
  obtain ⟨_, _, _, hne, _, _⟩ := definition_fields d t hd
  have hu := TypeName.hasUnmarshaler_of_ne d hne
  cases m with
  | null =>
    simp only [decodeValue, storeNull, hu, Bool.false_eq_true, if_false, Res.ok.injEq,
      and_true] at h1 h2
    subst h1 h2
    exact ⟨.inl rfl, hsw, .inl rfl⟩
  | bool b =>
    simp [decodeValue, typeError, GoType.base, GoType.hasUnmarshaler,
      TypeName.hasUnmarshaler, firstError] at h1
  | num n =>
    simp [decodeValue, typeError, GoType.base, GoType.hasUnmarshaler,
      TypeName.hasUnmarshaler, firstError] at h1
  | str s =>
    simp [decodeValue, typeError, GoType.base, GoType.hasUnmarshaler,
      TypeName.hasUnmarshaler, firstError] at h1
  | arr xs =>
    simp [decodeValue, typeError, GoType.base, GoType.hasUnmarshaler,
      TypeName.hasUnmarshaler, firstError] at h1
  | obj dkvs =>
    obtain ⟨hlen, hget⟩ := indirect_peeked sh hsh
    rw [decodeValue_struct k d hu] at h2
    simp only [decodeValue, GoType.base, GoType.hasUnmarshaler, TypeName.hasUnmarshaler,
      Bool.false_eq_true, if_false] at h1
    cases hd1 : decodeFields h TypeName.widgetHandler_Definition.fields
        (indirect (.ptr (.named .widgetHandler_Definition)) sh).structFields dkvs none with
    | stop st => rw [hd1] at h1; cases h1
    | ok fs s1 =>
      rw [hd1] at h1
      simp only [reref, Res.ok.injEq] at h1
      obtain ⟨hsh2, hs1⟩ := h1
      subst hsh2 hs1
      cases hd2 : decodeFields k d.fields sw.structFields dkvs none with
      | stop st => rw [hd2] at h2; cases h2
      | ok fs2 s2 =>
        rw [hd2] at h2
        simp only [Res.ok.injEq] at h2
        obtain ⟨hsw2, hs2⟩ := h2
        subst hsw2 hs2
        have hl1 := decodeFields_length _ _ _ _ _ _ _ hd1
        have hl2 := decodeFields_length _ _ _ _ _ _ _ hd2
        obtain ⟨e1, hq1, he1⟩ := decodeFields_getD h TypeName.widgetHandler_Definition.fields 0
          ⟨"Type", "type", false, .ptr .string⟩ rfl dkvs _ fs none none hlen hd1
        obtain ⟨e2, hq2, he2⟩ := decodeFields_getD k d.fields 0
          ⟨"Type", "type", false, .ptr .string⟩ (by rw [hfields]; rfl) dkvs _ fs2 none none
          hsw hd2
        rw [he1 rfl] at hq1
        rw [he2 rfl] at hq2
        have hmem : membersOf d.fields 0 dkvs
            = membersOf TypeName.widgetHandler_Definition.fields 0 dkvs := by
          rw [hfields]
          exact membersOf_head ⟨"Type", "type", false, .ptr .string⟩
            ⟨"Type", "type", false, .ptr .string⟩ rest [] rfl hfold
            (by simp) dkvs
        rw [hmem] at hq2
        simp only at hq1 hq2
        refine ⟨.inr ⟨fs, rfl, by omega⟩, by simp only [GoVal.structFields]; omega, ?_⟩
        simp only [peekedType, GoVal.structFields]
        rcases decodeSeq_ptr_string h k _ _ _ _ _ hq1 hq2 with ⟨_, hv, hv2⟩ | hv
        · rw [hv, hv2, hget]
          exact hag
        · exact .inr hv

/-- The members `definition` of an envelope, decoded one after the other by the two
passes. -/
theorem type_seq (h k : Hook) (d : TypeName) (t : String) (hd : d.discriminator = some t) :
    ∀ (ms : List Json) (sh sw sh2 sw2 : GoVal),
      (sh = .nil ∨ ∃ fs, sh = .ptr (.struct fs) ∧ 0 < fs.length) →
      0 < sw.structFields.length →
      (peekedType sh = .nil ∨ peekedType sh = sw.structFields.getD 0 .nil) →
      decodeSeq h (.ptr (.named .widgetHandler_Definition)) sh ms none = .ok sh2 none →
      decodeSeq k (.named d) sw ms none = .ok sw2 none →
      peekedType sh2 = .nil ∨ peekedType sh2 = sw2.structFields.getD 0 .nil
  | [], sh, sw, sh2, sw2, _, _, hag, h1, h2 => by
    simp only [decodeSeq, Res.ok.injEq, and_true] at h1 h2
    subst h1 h2
    exact hag
  | m :: ms, sh, sw, sh2, sw2, hsh, hsw, hag, h1, h2 => by
    simp only [decodeSeq] at h1 h2
    cases hx : decodeValue h (.ptr (.named .widgetHandler_Definition)) sh m none with
    | stop st => rw [hx] at h1; cases h1
    | ok x s1 =>
      rw [hx] at h1
      simp only at h1
      have hs1 := decodeSeq_saved_none h1
      subst hs1
      cases hy : decodeValue k (.named d) sw m none with
      | stop st => rw [hy] at h2; cases h2
      | ok y s2 =>
        rw [hy] at h2
        simp only at h2
        have hs2 := decodeSeq_saved_none h2
        subst hs2
        obtain ⟨a, b, c⟩ := type_step h k d t hd m sh sw x y hsh hsw hag hx hy
        exact type_seq h k d t hd ms x y sh2 sw2 a b c h1 h2

/-- The field `Type` of the definition struct the second pass decodes holds the
discriminator the first pass found. -/
theorem type_field (h k : Hook) (d : TypeName) (t : String) (hd : d.discriminator = some t)
    (kvs : List (String × Json)) (hv vv d0 : GoVal) (ty : String)
    (hp : jsonUnmarshal h (.named .widgetHandler) (.obj kvs) = .ok hv)
    (hw : jsonUnmarshal k (.named d.wrapper) (.obj kvs) = .ok vv)
    (hdef : hv.get .widgetHandler "Definition" = .ptr d0)
    (htype : d0.get .widgetHandler_Definition "Type" = .ptr (.str ty)) :
    (vv.get d.wrapper "Definition").get d "Type" = .ptr (.str ty) := by
  obtain ⟨rest, hfields, hfold⟩ := definition_fields_fold d t hd
  obtain ⟨_, _, _, hne, hwf, hwu⟩ := definition_fields d t hd
  obtain ⟨hfs, hdec1, rfl⟩ := jsonUnmarshal_struct h .widgetHandler rfl kvs hv hp
  obtain ⟨wfs, hdec2, rfl⟩ := jsonUnmarshal_struct k d.wrapper hwu kvs vv hw
  obtain ⟨e1, hq1, he1⟩ := decodeFields_getD h TypeName.widgetHandler.fields 0
    ⟨"Definition", "definition", false, .ptr (.named .widgetHandler_Definition)⟩ rfl kvs _ hfs
    none none (by decide) hdec1
  obtain ⟨e2, hq2, he2⟩ := decodeFields_getD k d.wrapper.fields 0
    ⟨"Definition", "definition", false, .named d⟩ (by rw [hwf]; rfl) kvs _ wfs
    none none (by rw [hwf]; simp) hdec2
  rw [he1 rfl] at hq1
  rw [he2 rfl] at hq2
  have hmem : membersOf d.wrapper.fields 0 kvs = membersOf TypeName.widgetHandler.fields 0 kvs := by
    rw [hwf]
    exact membersOf_head ⟨"Definition", "definition", false, .named d⟩
      ⟨"Definition", "definition", false, .ptr (.named .widgetHandler_Definition)⟩ []
      [⟨"Id", "id", true, .ptr .int⟩, ⟨"Layout", "layout", true, .ptr (.named .WidgetLayout)⟩]
      rfl (by simp) (by decide) kvs
  rw [hmem] at hq2
  have hz : (List.map (fun f => zero f.type) d.wrapper.fields).getD 0 .nil = zero (.named d) := by
    rw [hwf]; rfl
  rw [hz] at hq2
  have hzl : 0 < (zero (.named d)).structFields.length := by
    rw [zero_fields, hfields]; simp
  have key := type_seq h k d t hd _ _ _ _ _ (.inl rfl) hzl (.inl rfl) hq1 hq2
  have hpk : peekedType (hfs.getD 0 .nil) = .ptr (.str ty) := by
    have hdef2 : hfs.getD 0 .nil = .ptr d0 := hdef
    rw [hdef2]
    exact htype
  rw [hpk] at key
  rcases key with hk | hk
  · cases hk
  · have hg : (GoVal.struct wfs).get d.wrapper "Definition" = wfs.getD 0 .nil := by
      unfold GoVal.get
      rw [hwf]; rfl
    rw [hg]
    unfold GoVal.get
    rw [hfields]
    exact hk.symm

/-! ## Decoding yields values of the type -/

theorem TypeName.fields_regular (n : TypeName) (hn : n ≠ .BoardWidget) :
    ∀ f ∈ n.fields, f.type.regular = true := by
  cases n <;> first | exact absurd rfl hn | decide

theorem GoType.isValueType_base (t : GoType) (ht : t.isValueType = true) : t.base = t := by
  cases t <;> first | rfl | simp [GoType.isValueType] at ht

theorem GoType.isValueType_regular (t : GoType) (ht : t.isValueType = true) :
    t.regular = true := by
  cases t <;> first | rfl | simp [GoType.isValueType] at ht

theorem GoType.hasUnmarshaler_eq (t : GoType) (ht : t.hasUnmarshaler = true) :
    t = .named .BoardWidget := by
  cases t with
  | named n => cases n <;> first | rfl | simp [GoType.hasUnmarshaler, TypeName.hasUnmarshaler] at ht
  | _ => simp [GoType.hasUnmarshaler] at ht

theorem reref_of_isValueType (t : GoType) (ht : t.isValueType = true) (v : GoVal) :
    reref t v = v := by
  cases t <;> first | rfl | simp [GoType.isValueType] at ht

theorem indirect_of_isValueType (t : GoType) (ht : t.isValueType = true) (v : GoVal) :
    indirect t v = v := by
  cases t <;> first | rfl | simp [GoType.isValueType] at ht

/-- The zero value of a type is a value of the type. -/
theorem zero_wf (t : GoType) (ht : t.regular = true) (hn : t ≠ .named .BoardWidget) :
    wellFormed false t (zero t) = true := by
  cases t with
  | iface => simp [GoType.regular] at ht
  | named n => cases n <;> first | exact absurd rfl hn | decide
  | _ => rfl

theorem wf_reref (t : GoType) (ht : t.regular = true) (v : GoVal)
    (hv : wellFormed false t.base v = true) : wellFormed false t (reref t v) = true := by
  cases t with
  | ptr t2 =>
    simp only [GoType.regular] at ht
    simp only [GoType.base, GoType.isValueType_base t2 ht] at hv
    simp only [reref, reref_of_isValueType t2 ht, wellFormed, ht, hv, Bool.and_self]
  | _ => exact hv

theorem wf_indirect (t : GoType) (ht : t.regular = true)
    (hu : t.base.hasUnmarshaler = false) (cur : GoVal)
    (hc : wellFormed false t cur = true) : wellFormed false t.base (indirect t cur) = true := by
  cases t with
  | ptr t2 =>
    simp only [GoType.regular] at ht
    simp only [GoType.base, GoType.isValueType_base t2 ht] at hu ⊢
    have hne : t2 ≠ .named .BoardWidget := by
      intro h
      subst h
      simp [GoType.hasUnmarshaler, TypeName.hasUnmarshaler] at hu
    cases cur with
    | ptr v =>
      simp only [wellFormed, Bool.and_eq_true] at hc
      simp only [indirect, indirect_of_isValueType t2 ht]
      exact hc.2
    | nil =>
      simp only [indirect, GoType.isValueType_base t2 ht]
      exact zero_wf t2 (GoType.isValueType_regular t2 ht) hne
    | _ => simp [wellFormed] at hc
  | iface => simp [GoType.regular] at ht
  | _ => exact hc

theorem wellFormedFields_getD (b : Bool) :
    ∀ (fields : List Field) (vs : List GoVal) (i : Nat) (f : Field),
      wellFormedFields b fields vs = true → fields.get? i = some f →
      wellFormed b f.type (vs.getD i .nil) = true
  | [], _, _, _, _, hf => by simp at hf
  | g :: fields, [], _, _, hw, _ => by simp [wellFormedFields] at hw
  | g :: fields, v :: vs, 0, f, hw, hf => by
    simp only [List.get?_cons_zero, Option.some.injEq] at hf
    subst hf
    simp only [wellFormedFields, Bool.and_eq_true] at hw
    exact hw.1.1
  | g :: fields, v :: vs, i + 1, f, hw, hf => by
    simp only [wellFormedFields, Bool.and_eq_true] at hw
    exact wellFormedFields_getD b fields vs i f hw.2 hf

theorem wellFormedFields_set :
    ∀ (fields : List Field) (vs : List GoVal) (i : Nat) (f : Field) (x : GoVal),
      wellFormedFields false fields vs = true → fields.get? i = some f →
      wellFormed false f.type x = true → wellFormedFields false fields (vs.set i x) = true
  | [], _, _, _, _, _, hf, _ => by simp at hf
  | g :: fields, [], _, _, _, hw, _, _ => by simp [wellFormedFields] at hw
  | g :: fields, v :: vs, 0, f, x, hw, hf, hx => by
    simp only [List.get?_cons_zero, Option.some.injEq] at hf
    subst hf
    simp only [wellFormedFields, Bool.and_eq_true] at hw
    simp [wellFormedFields, hx, hw.2]
  | g :: fields, v :: vs, i + 1, f, x, hw, hf, hx => by
    simp only [wellFormedFields, Bool.and_eq_true] at hw
    simp only [List.set_cons_succ, wellFormedFields, Bool.and_eq_true]
    exact ⟨hw.1, wellFormedFields_set fields vs i f x hw.2 hf hx⟩

theorem wf_named_inv (b : Bool) (n : TypeName) (x : GoVal)
    (hx : wellFormed b (.named n) x = true) :
    ∃ fs, x = .struct fs ∧ wellFormedFields b n.fields fs = true := by
  cases x with
  | struct fs =>
    simp only [wellFormed, Bool.and_eq_true] at hx
    exact ⟨fs, rfl, hx.1⟩
  | _ => simp [wellFormed] at hx

theorem wf_slice_elems (b : Bool) (e : GoType) (x : GoVal)
    (hx : wellFormed b (.slice e) x = true) : wellFormedElems b e x.elems = true := by
  cases x with
  | slice xs => simpa [wellFormed, GoVal.elems] using hx
  | nil => simp [GoVal.elems, wellFormedElems]
  | _ => simp [wellFormed] at hx

theorem regular_base_slice (t e : GoType) (ht : t.regular = true) (hb : t.base = .slice e) :
    t = .slice e ∧ e.isValueType = true := by
  cases t with
  | ptr t2 =>
    simp only [GoType.regular] at ht
    simp only [GoType.base, GoType.isValueType_base t2 ht] at hb
    subst hb
    simp [GoType.isValueType] at ht
  | slice e2 =>
    simp only [GoType.base, GoType.slice.injEq] at hb
    subst hb
    exact ⟨rfl, ht⟩
  | _ => simp [GoType.base] at hb

theorem regular_base_ne_iface (t : GoType) (ht : t.regular = true) : t.base ≠ .iface := by
  cases t with
  | ptr t2 =>
    simp only [GoType.regular] at ht
    simp only [GoType.base, GoType.isValueType_base t2 ht]
    intro h
    subst h
    simp [GoType.isValueType] at ht
  | iface => simp [GoType.regular] at ht
  | _ => simp [GoType.base]

theorem callHook_ok (h : Hook) (t : GoType) (cur : GoVal) (j : Json)
    (s : Option JsonError) (v : GoVal) (hc : callHook h t cur j s = .ok v none) :
    ∃ v0, h (indirect t cur) j = (.nil, v0) ∧ v = reref t v0 := by
  unfold callHook at hc
  cases hh : h (indirect t cur) j with
  | mk st v0 =>
    rw [hh] at hc
    cases st with
    | nil =>
      simp only [Res.ok.injEq] at hc
      exact ⟨v0, rfl, hc.1.symm⟩
    | error e =>
      simp only [saveError_eq, Res.ok.injEq] at hc
      exact absurd (firstError_eq_none hc.2).2 (by simp)
    | panic => simp at hc
    | outOfFuel => simp at hc

theorem typeError_ne_none (t : GoType) (cur : GoVal) (value : String)
    (s : Option JsonError) (v : GoVal) : typeError t cur value s ≠ .ok v none := by
  intro hd
  simp only [typeError, saveError_eq, Res.ok.injEq] at hd
  exact absurd (firstError_eq_none hd.2).2 (by simp)

theorem storeNull_wf (h : Hook)
    (hh : ∀ c j v, h c j = (.nil, v) → wellFormed false (.named .BoardWidget) v = true)
    (t : GoType) (ht : t.regular = true) (cur : GoVal) (s : Option JsonError) (v : GoVal)
    (hc : t.base.hasUnmarshaler = true ∨ wellFormed false t cur = true)
    (hd : storeNull h t cur s = .ok v none) : wellFormed false t v = true := by
  cases t with
  | iface => simp [GoType.regular] at ht
  | ptr t2 =>
    simp only [storeNull, Res.ok.injEq] at hd
    rw [← hd.1]; rfl
  | slice t2 =>
    simp only [storeNull, Res.ok.injEq] at hd
    rw [← hd.1]; rfl
  | named n =>
    simp only [storeNull] at hd
    split at hd
    · rename_i hu
      have hn := GoType.hasUnmarshaler_eq (.named n) hu
      rw [hn]
      cases hx : h cur .null with
      | mk st v0 =>
        rw [hx] at hd
        cases st with
        | nil =>
          simp only [Res.ok.injEq] at hd
          rw [← hd.1]
          exact hh _ _ _ hx
        | error e =>
          simp only [saveError_eq, Res.ok.injEq] at hd
          exact absurd (firstError_eq_none hd.2).2 (by simp)
        | panic => simp at hd
        | outOfFuel => simp at hd
    · rename_i hu
      simp only [Res.ok.injEq] at hd
      rw [← hd.1]
      rcases hc with hc | hc
      · exact absurd hc hu
      · exact hc
  | string =>
    simp only [storeNull, Res.ok.injEq] at hd
    rw [← hd.1]
    rcases hc with hc | hc
    · simp [GoType.base, GoType.hasUnmarshaler] at hc
    · exact hc
  | int =>
    simp only [storeNull, Res.ok.injEq] at hd
    rw [← hd.1]
    rcases hc with hc | hc
    · simp [GoType.base, GoType.hasUnmarshaler] at hc
    · exact hc
  | float64 =>
    simp only [storeNull, Res.ok.injEq] at hd
    rw [← hd.1]
    rcases hc with hc | hc
    · simp [GoType.base, GoType.hasUnmarshaler] at hc
    · exact hc
  | bool =>
    simp only [storeNull, Res.ok.injEq] at hd
    rw [← hd.1]
    rcases hc with hc | hc
    · simp [GoType.base, GoType.hasUnmarshaler] at hc
    · exact hc

theorem callHook_wf (h : Hook)
    (hh : ∀ c j v, h c j = (.nil, v) → wellFormed false (.named .BoardWidget) v = true)
    (t : GoType) (ht : t.regular = true) (cur : GoVal) (j : Json) (s : Option JsonError)
    (v : GoVal) (hu : t.base.hasUnmarshaler = true)
    (hd : callHook h t cur j s = .ok v none) : wellFormed false t v = true := by
  obtain ⟨v0, hv0, rfl⟩ := callHook_ok h t cur j s v hd
  apply wf_reref t ht
  rw [GoType.hasUnmarshaler_eq _ hu]
  exact hh _ _ _ hv0

mutual
/-- What a decoding step that meets no error leaves in a destination of type `t` is a
value of type `t`, in which every `BoardWidget` satisfies `definitionOK`, provided the
destination held such a value before and the hook returns such widgets. -/
theorem decodeValue_wf (h : Hook)
    (hh : ∀ c j v, h c j = (.nil, v) → wellFormed false (.named .BoardWidget) v = true)
    (t : GoType) (ht : t.regular = true) (cur : GoVal) :
    ∀ (j : Json) (s : Option JsonError) (v : GoVal),
      (t.base.hasUnmarshaler = true ∨ wellFormed false t cur = true) →
      decodeValue h t cur j s = .ok v none → wellFormed false t v = true
  | .null, s, v, hc, hd => by
    simp only [decodeValue] at hd
    exact storeNull_wf h hh t ht cur s v hc hd
  | .bool b, s, v, hc, hd => by
    simp only [decodeValue] at hd
    split at hd
    · rename_i hu
      exact callHook_wf h hh t ht cur _ s v hu hd
    · rename_i hu
      split at hd
      · rename_i hb
        simp only [Res.ok.injEq] at hd
        rw [← hd.1]
        exact wf_reref t ht _ (by rw [hb]; rfl)
      · rename_i hb
        exact absurd hb (regular_base_ne_iface t ht)
      · exact absurd hd (typeError_ne_none _ _ _ _ _)
  | .str x, s, v, hc, hd => by
    simp only [decodeValue] at hd
    split at hd
    · rename_i hu
      exact callHook_wf h hh t ht cur _ s v hu hd
    · rename_i hu
      split at hd
      · rename_i hb
        simp only [Res.ok.injEq] at hd
        rw [← hd.1]
        exact wf_reref t ht _ (by rw [hb]; rfl)
      · rename_i hb
        exact absurd hb (regular_base_ne_iface t ht)
      · exact absurd hd (typeError_ne_none _ _ _ _ _)
  | .num n, s, v, hc, hd => by
    simp only [decodeValue] at hd
    split at hd
    · rename_i hu
      exact callHook_wf h hh t ht cur _ s v hu hd
    · rename_i hu
      split at hd
      · rename_i hb
        split at hd
        · split at hd
          · rename_i hr
            simp only [Res.ok.injEq] at hd
            rw [← hd.1]
            exact wf_reref t ht _ (by rw [hb]; simpa [wellFormed] using hr)
          · exact absurd hd (typeError_ne_none _ _ _ _ _)
        · exact absurd hd (typeError_ne_none _ _ _ _ _)
      · rename_i hb
        split at hd
        · split at hd
          · rename_i hr
            simp only [Res.ok.injEq] at hd
            rw [← hd.1]
            exact wf_reref t ht _ (by rw [hb]; simpa [wellFormed] using hr)
          · exact absurd hd (typeError_ne_none _ _ _ _ _)
        · split at hd
          · rename_i hr
            simp only [Res.ok.injEq] at hd
            rw [← hd.1]
            exact wf_reref t ht _ (by rw [hb]; simpa [wellFormed] using hr)
          · exact absurd hd (typeError_ne_none _ _ _ _ _)
      · rename_i hb
        exact absurd hb (regular_base_ne_iface t ht)
      · exact absurd hd (typeError_ne_none _ _ _ _ _)
  | .arr xs, s, v, hc, hd => by
    simp only [decodeValue] at hd
    split at hd
    · rename_i hu
      exact callHook_wf h hh t ht cur _ s v hu hd
    · rename_i hu
      split at hd
      · rename_i e hb
        obtain ⟨rfl, he⟩ := regular_base_slice t e ht hb
        have hcur : wellFormed false (.slice e) cur = true := by
          rcases hc with hc | hc
          · exact absurd hc hu
          · exact hc
        cases hx : decodeElems h e (indirect (.slice e) cur).elems xs s with
        | stop st => rw [hx] at hd; cases hd
        | ok vs s1 =>
          rw [hx] at hd
          simp only [reref, Res.ok.injEq] at hd
          obtain ⟨hv, hs1⟩ := hd
          subst hs1
          rw [← hv]
          simp only [wellFormed]
          exact decodeElems_wf h hh e he xs _ s vs
            (.inr (wf_slice_elems false e _ hcur)) hx
      · rename_i hb
        exact absurd hb (regular_base_ne_iface t ht)
      · exact absurd hd (typeError_ne_none _ _ _ _ _)
  | .obj kvs, s, v, hc, hd => by
    simp only [decodeValue] at hd
    split at hd
    · rename_i hu
      exact callHook_wf h hh t ht cur _ s v hu hd
    · rename_i hu
      split at hd
      · rename_i n hb
        have hn : n ≠ .BoardWidget := by
          intro hn
          subst hn
          rw [hb] at hu
          exact hu rfl
        have hcur : wellFormed false t cur = true := by
          rcases hc with hc | hc
          · exact absurd hc hu
          · exact hc
        have hi := wf_indirect t ht (by simpa using hu) cur hcur
        rw [hb] at hi
        obtain ⟨cfs, hcfs, hwf⟩ := wf_named_inv false n _ hi
        cases hx : decodeFields h n.fields (indirect t cur).structFields kvs s with
        | stop st => rw [hx] at hd; cases hd
        | ok fs s1 =>
          rw [hx] at hd
          simp only [Res.ok.injEq] at hd
          obtain ⟨hv, hs1⟩ := hd
          subst hs1
          rw [← hv]
          apply wf_reref t ht
          rw [hb]
          rw [hcfs] at hx
          have hfs := decodeFields_wf h hh n.fields (TypeName.fields_regular n hn) kvs cfs s
            fs hwf hx
          simp [wellFormed, hfs, hn]
      · rename_i hb
        exact absurd hb (regular_base_ne_iface t ht)
      · exact absurd hd (typeError_ne_none _ _ _ _ _)
/-- The elements of an array: as `decodeValue_wf`. -/
theorem decodeElems_wf (h : Hook)
    (hh : ∀ c j v, h c j = (.nil, v) → wellFormed false (.named .BoardWidget) v = true)
    (e : GoType) (he : e.isValueType = true) :
    ∀ (xs : List Json) (cur : List GoVal) (s : Option JsonError) (vs : List GoVal),
      (e.hasUnmarshaler = true ∨ wellFormedElems false e cur = true) →
      decodeElems h e cur xs s = .ok vs none → wellFormedElems false e vs = true
  | [], cur, s, vs, _, hd => by
    simp only [decodeElems, Res.ok.injEq] at hd
    rw [← hd.1]; rfl
  | x :: xs, cur, s, vs, hc, hd => by
    simp only [decodeElems] at hd
    cases hx : decodeValue h e (cur.headD (zero e)) x s with
    | stop st => rw [hx] at hd; cases hd
    | ok v s1 =>
      rw [hx] at hd
      simp only at hd
      cases hr : decodeElems h e cur.tail xs s1 with
      | stop st => rw [hr] at hd; cases hd
      | ok vs2 s3 =>
        rw [hr] at hd
        simp only [Res.ok.injEq] at hd
        obtain ⟨hv, hs3⟩ := hd
        subst hs3
        have hs1 : s1 = none := decodeElems_saved_none hr
        subst hs1
        rw [← hv]
        have hhead : e.base.hasUnmarshaler = true ∨
            wellFormed false e (cur.headD (zero e)) = true := by
          rw [GoType.isValueType_base e he]
          rcases hc with hc | hc
          · exact .inl hc
          · by_cases hu : e.hasUnmarshaler = true
            · exact .inl hu
            · right
              cases cur with
              | nil =>
                simp only [List.headD_nil]
                refine zero_wf e (GoType.isValueType_regular e he) ?_
                intro hn
                subst hn
                exact hu rfl
              | cons c cs =>
                simp only [wellFormedElems, Bool.and_eq_true] at hc
                exact hc.1
        have htail : e.hasUnmarshaler = true ∨ wellFormedElems false e cur.tail = true := by
          rcases hc with hc | hc
          · exact .inl hc
          · right
            cases cur with
            | nil => rfl
            | cons c cs =>
              simp only [wellFormedElems, Bool.and_eq_true] at hc
              exact hc.2
        have h1 := decodeValue_wf h hh e (GoType.isValueType_regular e he) _ x s v hhead hx
        have h2 := decodeElems_wf h hh e he xs cur.tail none vs2 htail hr
        simp [wellFormedElems, h1, h2]
/-- The members of an object: as `decodeValue_wf`. -/
theorem decodeFields_wf (h : Hook)
    (hh : ∀ c j v, h c j = (.nil, v) → wellFormed false (.named .BoardWidget) v = true)
    (fields : List Field) (hf : ∀ f ∈ fields, f.type.regular = true) :
    ∀ (kvs : List (String × Json)) (cur : List GoVal) (s : Option JsonError)
      (out : List GoVal),
      wellFormedFields false fields cur = true →
      decodeFields h fields cur kvs s = .ok out none → wellFormedFields false fields out = true
  | [], cur, s, out, hc, hd => by
    simp only [decodeFields, Res.ok.injEq] at hd
    rw [← hd.1]
    exact hc
  | (k, v) :: kvs, cur, s, out, hc, hd => by
    simp only [decodeFields] at hd
    split at hd
    · exact decodeFields_wf h hh fields hf kvs cur s out hc hd
    · rename_i i f hk
      have hget := findField_get fields k i f hk
      have hmem := findField_mem fields k i f hk
      cases hx : decodeValue h f.type (cur.getD i .nil) v s with
      | stop st => rw [hx] at hd; cases hd
      | ok x s1 =>
        rw [hx] at hd
        simp only at hd
        have hs1 : s1 = none := decodeFields_saved_none hd
        subst hs1
        have h1 := decodeValue_wf h hh f.type (hf f hmem) _ v s x
          (.inr (wellFormedFields_getD false fields cur i f hc hget)) hx
        exact decodeFields_wf h hh fields hf kvs _ none out
          (wellFormedFields_set fields cur i f x hc hget h1) hd
end

theorem jsonUnmarshal_ok (h : Hook) (t : GoType) (data : Json) (v : GoVal)
    (hj : jsonUnmarshal h t data = .ok v) :
    decodeValue h t (zero t) data none = .ok v none := by
  unfold jsonUnmarshal at hj
  cases hd : decodeValue h t (zero t) data none with
  | stop st => rw [hd] at hj; cases hj
  | ok v2 s =>
    rw [hd] at hj
    cases s with
    | some e => cases hj
    | none =>
      simp only [Except.ok.injEq] at hj
      rw [hj]

/-- A struct without `UnmarshalJSON` of its own, decoded by `json.Unmarshal`, is a value
of its type. -/
theorem jsonUnmarshal_wf (h : Hook)
    (hh : ∀ c j v, h c j = (.nil, v) → wellFormed false (.named .BoardWidget) v = true)
    (n : TypeName) (hn : n ≠ .BoardWidget) (data : Json) (v : GoVal)
    (hj : jsonUnmarshal h (.named n) data = .ok v) :
    ∃ fs, v = .struct fs ∧ wellFormedFields false n.fields fs = true :=
  wf_named_inv false n v
    (decodeValue_wf h hh (.named n) rfl _ data none v
      (.inr (zero_wf (.named n) rfl (by simpa using hn))) (jsonUnmarshal_ok h _ data v hj))

/-- The widget the body of `UnmarshalJSON` leaves when it returns the nil error holds
one of the eight definition structs, whose `Type` is its discriminator, and so does
every widget inside, provided the hook returns such widgets. -/
theorem unmarshalBody_wf (h : Hook)
    (hh : ∀ c j v, h c j = (.nil, v) → wellFormed false (.named .BoardWidget) v = true)
    (r w : BoardWidget) (data : Json) (hok : unmarshalBody h r data = (.nil, w)) :
    wellFormed false (.named .BoardWidget) w.toVal = true := by
  obtain ⟨kvs, rfl⟩ := unmarshalBody_object h r data w hok
  obtain ⟨hd, ty, d, vv, hp, hdisc, hdef, hvv, hw⟩ := unmarshalBody_nil h r _ w hok
  obtain ⟨hd2, d0, hp2, hdef2, htype2⟩ := discriminator_some hdisc
  rw [← jsonUnmarshal_widgetHandler h, hp] at hp2
  simp only [Except.ok.injEq] at hp2
  subst hp2
  have hdd := definitionOf_some hdef
  have hty := type_field h h d ty hdd kvs hd vv d0 ty hp hvv hdef2 htype2
  obtain ⟨_, _, _, hne, hwf, hwu⟩ := definition_fields d ty hdd
  have hwne : d.wrapper ≠ .BoardWidget := by
    intro hc
    rw [hc] at hwu
    cases hwu
  obtain ⟨hfs, rfl, hhf⟩ := jsonUnmarshal_wf h hh .widgetHandler (by decide) _ hd hp
  obtain ⟨wfs, rfl, hwfs⟩ := jsonUnmarshal_wf h hh d.wrapper hwne _ vv hvv
  have h1 := wellFormedFields_getD false _ hfs 1 ⟨"Id", "id", true, .ptr .int⟩ hhf rfl
  have h2 := wellFormedFields_getD false _ hfs 2
    ⟨"Layout", "layout", true, .ptr (.named .WidgetLayout)⟩ hhf rfl
  have h0 := wellFormedFields_getD false _ wfs 0 ⟨"Definition", "definition", false, .named d⟩
    hwfs (by rw [hwf]; rfl)
  have hg : (GoVal.struct wfs).get d.wrapper "Definition" = wfs.getD 0 .nil := by
    unfold GoVal.get
    rw [hwf]; rfl
  rw [hg] at hty
  subst hw
  have hi : (GoVal.struct hfs).get .widgetHandler "Id" = hfs.getD 1 .nil := rfl
  have hl : (GoVal.struct hfs).get .widgetHandler "Layout" = hfs.getD 2 .nil := rfl
  rw [hg, hi, hl]
  simp only at h0 h1 h2
  generalize wfs.getD 0 .nil = dv at hty h0 ⊢
  generalize hfs.getD 1 .nil = id at h1 ⊢
  generalize hfs.getD 2 .nil = l at h2 ⊢
  simp [BoardWidget.toVal, wellFormed, wellFormedFields, TypeName.fields, definitionOK, hdd, hty,
    h0, h1, h2]

theorem UnmarshalJSONFuel_wf : ∀ (n : Nat) (r w : BoardWidget) (data : Json),
    UnmarshalJSONFuel n r data = (.nil, w) →
      wellFormed false (.named .BoardWidget) w.toVal = true
  | 0, r, w, data, hok => by simp [UnmarshalJSONFuel] at hok
  | n + 1, r, w, data, hok => by
    rw [UnmarshalJSONFuel_succ] at hok
    refine unmarshalBody_wf (fuelHook n) ?_ r w data hok
    intro c j v hc
    unfold fuelHook at hc
    simp only [Prod.mk.injEq] at hc
    rw [← hc.2]
    exact UnmarshalJSONFuel_wf n (BoardWidget.ofVal c) _ j (Prod.ext hc.1 rfl)

/-- A decoded widget holds one of the eight definition structs, whose `Type` is its
discriminator, and so does every widget inside. -/
theorem UnmarshalJSON_wf (r w : BoardWidget) (data : Json)
    (hok : r.UnmarshalJSON data = (.nil, w)) :
    wellFormed false (.named .BoardWidget) w.toVal = true :=
  UnmarshalJSONFuel_wf _ r w data hok

/-! ## `GetWidgetType` on a definition struct -/

theorem getWidgetType_discriminator (d : TypeName) (t : String) (dv id l : GoVal)
    (h : d.discriminator = some t) :
    BoardWidget.GetWidgetType ⟨.iface (.named d) dv, id, l⟩ = (t, none) := by
  cases d <;> simp [TypeName.discriminator] at h <;> subst h <;> rfl

/-! ## Decoding again what was decoded and encoded -/

mutual
/-- A value of a type in which no optional list is empty without being nil is
well-formed in the strict sense. -/
theorem wf_strict : ∀ (v : GoVal) (t : GoType), wellFormed false t v = true →
    noEmptyOptional t v = true → wellFormed true t v = true
  | .str _, t, hw, _ => by cases t <;> simp_all [wellFormed]
  | .int _, t, hw, _ => by cases t <;> simp_all [wellFormed]
  | .float _, t, hw, _ => by cases t <;> simp_all [wellFormed]
  | .bool _, t, hw, _ => by cases t <;> simp_all [wellFormed]
  | .nil, t, hw, _ => by cases t <;> simp_all [wellFormed]
  | .ptr v, t, hw, hn => by
    cases t with
    | ptr t2 =>
      simp only [wellFormed, Bool.and_eq_true] at hw ⊢
      simp only [noEmptyOptional, GoType.elem] at hn
      exact ⟨hw.1, wf_strict v t2 hw.2 hn⟩
    | _ => simp [wellFormed] at hw
  | .slice xs, t, hw, hn => by
    cases t with
    | slice e =>
      simp only [wellFormed] at hw ⊢
      simp only [noEmptyOptional, GoType.elem] at hn
      exact wf_strict_elems xs e hw hn
    | _ => simp [wellFormed] at hw
  | .struct fs, t, hw, hn => by
    cases t with
    | named n =>
      simp only [wellFormed, Bool.and_eq_true] at hw ⊢
      simp only [noEmptyOptional, GoType.fields] at hn
      exact ⟨wf_strict_fields fs n.fields hw.1 hn, hw.2⟩
    | _ => simp [wellFormed] at hw
  | .iface t2 v, t, hw, hn => by
    cases t with
    | iface =>
      simp only [wellFormed] at hw ⊢
      simp only [noEmptyOptional] at hn
      exact wf_strict v t2 hw hn
    | _ => simp [wellFormed] at hw
/-- The elements of a slice: as `wf_strict`. -/
theorem wf_strict_elems : ∀ (vs : List GoVal) (e : GoType),
    wellFormedElems false e vs = true → noEmptyOptionalElems e vs = true →
    wellFormedElems true e vs = true
  | [], _, _, _ => rfl
  | v :: vs, e, hw, hn => by
    simp only [wellFormedElems, Bool.and_eq_true] at hw ⊢
    simp only [noEmptyOptionalElems, Bool.and_eq_true] at hn
    exact ⟨wf_strict v e hw.1 hn.1, wf_strict_elems vs e hw.2 hn.2⟩
/-- The fields of a struct: as `wf_strict`. -/
theorem wf_strict_fields : ∀ (vs : List GoVal) (fields : List Field),
    wellFormedFields false fields vs = true → noEmptyOptionalFields fields vs = true →
    wellFormedFields true fields vs = true
  | [], fields, hw, _ => by cases fields <;> simp_all [wellFormedFields]
  | v :: vs, [], hw, _ => by simp [wellFormedFields] at hw
  | v :: vs, f :: fields, hw, hn => by
    simp only [wellFormedFields, Bool.and_eq_true] at hw ⊢
    simp only [noEmptyOptionalFields, Bool.and_eq_true] at hn
    refine ⟨⟨wf_strict v f.type hw.1.1 hn.1.2, ?_⟩, wf_strict_fields vs fields hw.2 hn.2⟩
    simpa using hn.1.1
end

/-- C17 as stated fails: `UnmarshalJSON` decodes the check status envelope that gives
`tags` as the empty array `[]` into a widget `w` whose `Tags` is the empty slice;
`json.Marshal` of `w` leaves out the key `tags`, which is tagged `omitempty`, and
decoding that document gives a widget whose `Tags` is nil, which is not `w`. -/
theorem redecode_counterexample :
    zeroWidget.UnmarshalJSON exampleEmptyTags
      = (.nil, ⟨.iface (.named .CheckStatusDefinition)
          (.struct [.ptr (.str "check_status"), .ptr (.str "c"), .ptr (.str "g"), .nil, .nil,
            .slice [], .nil, .nil, .nil, .nil]), .nil, .nil⟩) ∧
    (zeroWidget.UnmarshalJSON exampleEmptyTags).2.marshal
      = .obj [("definition", .obj [("type", .str "check_status"), ("check", .str "c"),
          ("grouping", .str "g")])] ∧
    zeroWidget.UnmarshalJSON (zeroWidget.UnmarshalJSON exampleEmptyTags).2.marshal
      = (.nil, ⟨.iface (.named .CheckStatusDefinition)
          (.struct [.ptr (.str "check_status"), .ptr (.str "c"), .ptr (.str "g"), .nil, .nil,
            .nil, .nil, .nil, .nil, .nil]), .nil, .nil⟩) ∧
    (⟨.iface (.named .CheckStatusDefinition)
        (.struct [.ptr (.str "check_status"), .ptr (.str "c"), .ptr (.str "g"), .nil, .nil,
          .nil, .nil, .nil, .nil, .nil]), .nil, .nil⟩ : BoardWidget)
      ≠ ⟨.iface (.named .CheckStatusDefinition)
        (.struct [.ptr (.str "check_status"), .ptr (.str "c"), .ptr (.str "g"), .nil, .nil,
          .slice [], .nil, .nil, .nil, .nil]), .nil, .nil⟩ :=
  ⟨rfl, rfl, rfl, by simp⟩

/-- C17, amended: let `UnmarshalJSON` decode a document into `w` with the nil error, and
let no list field tagged `omitempty` in `w` (at any depth, the widgets nested in groups
included) hold an empty list that is not nil.  Then `UnmarshalJSON` on `json.Marshal` of
`w` returns the nil error and yields `w`, whatever the receiver held.  A required list
given as `null` is no obstacle: it is decoded to nil, encoded as `null` and decoded to
nil again. -/
theorem redecode_stable (r r2 w : BoardWidget) (data : Json)
    (hok : r.UnmarshalJSON data = (.nil, w))
    (hne : noEmptyOptional (.named .BoardWidget) w.toVal = true) :
    r2.UnmarshalJSON w.marshal = (.nil, w) :=
  UnmarshalJSON_encode w.toVal (wf_strict _ _ (UnmarshalJSON_wf r w data hok) hne) r2

set_option maxRecDepth 8192 in
/-- C17, amended, on a group that holds a timeseries whose `requests` is `null`, a
check status with one tag, and a group whose `widgets` is `null`. -/
theorem redecode_stable_witness :
    zeroWidget.UnmarshalJSON exampleNullRequests
        = (.nil, (zeroWidget.UnmarshalJSON exampleNullRequests).2) ∧
    noEmptyOptional (.named .BoardWidget) (zeroWidget.UnmarshalJSON exampleNullRequests).2.toVal
        = true ∧
    (zeroWidget.UnmarshalJSON exampleNullRequests).2.marshal
        = .obj [("definition", .obj [("type", .str "group"), ("layout_type", .null),
            ("widgets", .arr [
              .obj [("definition", .obj [("type", .str "timeseries"), ("requests", .null)])],
              .obj [("definition", .obj [("type", .str "check_status"), ("check", .null),
                ("grouping", .null), ("tags", .arr [.str "env:prod"])])],
              .obj [("definition", .obj [("type", .str "group"), ("layout_type", .null),
                ("widgets", .null)])]])])] ∧
    zeroWidget.UnmarshalJSON (zeroWidget.UnmarshalJSON exampleNullRequests).2.marshal
        = (.nil, (zeroWidget.UnmarshalJSON exampleNullRequests).2) :=
  ⟨rfl, by decide, rfl, redecode_stable zeroWidget zeroWidget
    (zeroWidget.UnmarshalJSON exampleNullRequests).2 exampleNullRequests rfl (by decide)⟩

/-! ## A field of the wrong JSON type -/

theorem decodeElems_some (h : Hook) (e : GoType) (cur : List GoVal) (xs : List Json)
    (e0 : JsonError) :
    (∃ vs, decodeElems h e cur xs (some e0) = .ok vs (some e0)) ∨
      ∃ st, decodeElems h e cur xs (some e0) = .stop st := by
  rw [decodeElems_saved]
  cases decodeElems h e cur xs none with
  | ok v e => exact .inl ⟨v, rfl⟩
  | stop st => exact .inr ⟨st, rfl⟩

theorem decodeFields_some (h : Hook) (fields : List Field) (cur : List GoVal)
    (kvs : List (String × Json)) (e0 : JsonError) :
    (∃ vs, decodeFields h fields cur kvs (some e0) = .ok vs (some e0)) ∨
      ∃ st, decodeFields h fields cur kvs (some e0) = .stop st := by
  rw [decodeFields_saved]
  cases decodeFields h fields cur kvs none with
  | ok v e => exact .inl ⟨v, rfl⟩
  | stop st => exact .inr ⟨st, rfl⟩

theorem typeError_saved_some (t : GoType) (cur : GoVal) (value : String)
    (s : Option JsonError) : ∃ v e, typeError t cur value s = .ok v (some e) := by
  cases s <;> simp [typeError, firstError]

mutual
/-- A value of the wrong JSON type, anywhere `json.Unmarshal` reaches: the decoding goes
on with an error saved, or it is stopped by an `UnmarshalJSON` method. -/
theorem decodeValue_typeError (h : Hook) :
    ∀ (j : Json) (t : GoType) (cur : GoVal) (s : Option JsonError),
      typeErrorIn t j = true →
      (∃ v e, decodeValue h t cur j s = .ok v (some e)) ∨
        ∃ st, decodeValue h t cur j s = .stop st
  | .null, t, cur, s, ht => by simp [typeErrorIn, wrongKind] at ht
  | .bool b, t, cur, s, ht => by
    simp only [typeErrorIn, Bool.and_eq_true, Bool.not_eq_true'] at ht
    obtain ⟨hu, hk⟩ := ht
    simp only [decodeValue, hu, Bool.false_eq_true, if_false]
    obtain ⟨v, e, hte⟩ := typeError_saved_some t cur "bool" s
    cases hb : t.base <;> rw [hb] at hk <;> simp [wrongKind] at hk <;> exact .inl ⟨v, e, hte⟩
  | .str x, t, cur, s, ht => by
    simp only [typeErrorIn, Bool.and_eq_true, Bool.not_eq_true'] at ht
    obtain ⟨hu, hk⟩ := ht
    simp only [decodeValue, hu, Bool.false_eq_true, if_false]
    obtain ⟨v, e, hte⟩ := typeError_saved_some t cur "string" s
    cases hb : t.base <;> rw [hb] at hk <;> simp [wrongKind] at hk <;> exact .inl ⟨v, e, hte⟩
  | .num n, t, cur, s, ht => by
    simp only [typeErrorIn, Bool.and_eq_true, Bool.not_eq_true'] at ht
    obtain ⟨hu, hk⟩ := ht
    simp only [decodeValue, hu, Bool.false_eq_true, if_false]
    obtain ⟨v, e, hte⟩ := typeError_saved_some t cur "number" s
    cases hb : t.base <;> rw [hb] at hk <;> cases n <;> simp [wrongKind] at hk <;>
      first
      | exact .inl ⟨v, e, hte⟩
      | (simp only [hk, if_false]; exact .inl ⟨v, e, hte⟩)
  | .arr xs, t, cur, s, ht => by
    simp only [typeErrorIn, Bool.and_eq_true, Bool.not_eq_true'] at ht
    obtain ⟨hu, hk⟩ := ht
    simp only [decodeValue, hu, Bool.false_eq_true, if_false]
    obtain ⟨v, e, hte⟩ := typeError_saved_some t cur "array" s
    cases hb : t.base with
    | slice e2 =>
      rw [hb] at hk
      simp only at hk ⊢
      rcases decodeElems_typeError h xs e2 (indirect t cur).elems s hk with
        ⟨vs, e1, hd⟩ | ⟨st, hd⟩
      · rw [hd]; exact .inl ⟨_, e1, rfl⟩
      · rw [hd]; exact .inr ⟨st, rfl⟩
    | iface => rw [hb] at hk; simp at hk
    | _ => exact .inl ⟨v, e, hte⟩
  | .obj kvs, t, cur, s, ht => by
    simp only [typeErrorIn, Bool.and_eq_true, Bool.not_eq_true'] at ht
    obtain ⟨hu, hk⟩ := ht
    simp only [decodeValue, hu, Bool.false_eq_true, if_false]
    obtain ⟨v, e, hte⟩ := typeError_saved_some t cur "object" s
    cases hb : t.base with
    | named n =>
      rw [hb] at hk
      simp only at hk ⊢
      rcases decodeFields_typeError h kvs n.fields (indirect t cur).structFields s hk with
        ⟨vs, e1, hd⟩ | ⟨st, hd⟩
      · rw [hd]; exact .inl ⟨_, e1, rfl⟩
      · rw [hd]; exact .inr ⟨st, rfl⟩
    | iface => rw [hb] at hk; simp at hk
    | _ => exact .inl ⟨v, e, hte⟩
/-- The elements of an array: as `decodeValue_typeError`. -/
theorem decodeElems_typeError (h : Hook) :
    ∀ (xs : List Json) (e : GoType) (cur : List GoVal) (s : Option JsonError),
      typeErrorInElems e xs = true →
      (∃ vs e1, decodeElems h e cur xs s = .ok vs (some e1)) ∨
        ∃ st, decodeElems h e cur xs s = .stop st
  | [], e, cur, s, ht => by simp [typeErrorInElems] at ht
  | x :: xs, e, cur, s, ht => by
    simp only [typeErrorInElems, Bool.or_eq_true] at ht
    simp only [decodeElems]
    rcases ht with ht | ht
    · rcases decodeValue_typeError h x e (cur.headD (zero e)) s ht with ⟨v, e1, hd⟩ | ⟨st, hd⟩
      · rw [hd]
        simp only
        rcases decodeElems_some h e cur.tail xs e1 with ⟨vs, hr⟩ | ⟨st, hr⟩
        · rw [hr]; exact .inl ⟨_, e1, rfl⟩
        · rw [hr]; exact .inr ⟨st, rfl⟩
      · rw [hd]; exact .inr ⟨st, rfl⟩
    · cases hd : decodeValue h e (cur.headD (zero e)) x s with
      | stop st => exact .inr ⟨st, rfl⟩
      | ok v s1 =>
        simp only
        rcases decodeElems_typeError h xs e cur.tail s1 ht with ⟨vs, e1, hr⟩ | ⟨st, hr⟩
        · rw [hr]; exact .inl ⟨_, e1, rfl⟩
        · rw [hr]; exact .inr ⟨st, rfl⟩
/-- The members of an object: as `decodeValue_typeError`. -/
theorem decodeFields_typeError (h : Hook) :
    ∀ (kvs : List (String × Json)) (fields : List Field) (cur : List GoVal)
      (s : Option JsonError),
      typeErrorInMembers fields kvs = true →
      (∃ vs e1, decodeFields h fields cur kvs s = .ok vs (some e1)) ∨
        ∃ st, decodeFields h fields cur kvs s = .stop st
  | [], fields, cur, s, ht => by simp [typeErrorInMembers] at ht
  | (k, v) :: kvs, fields, cur, s, ht => by
    simp only [typeErrorInMembers, Bool.or_eq_true] at ht
    simp only [decodeFields]
    cases hk : findField fields k with
    | none =>
      simp only [hk, Bool.false_eq_true, false_or] at ht ⊢
      exact decodeFields_typeError h kvs fields cur s ht
    | some r =>
      obtain ⟨i, f⟩ := r
      simp only [hk] at ht ⊢
      rcases ht with ht | ht
      · rcases decodeValue_typeError h v f.type (cur.getD i .nil) s ht with
          ⟨x, e1, hd⟩ | ⟨st, hd⟩
        · rw [hd]
          simp only
          rcases decodeFields_some h fields (cur.set i x) kvs e1 with ⟨vs, hr⟩ | ⟨st, hr⟩
          · rw [hr]; exact .inl ⟨_, e1, rfl⟩
          · rw [hr]; exact .inr ⟨st, rfl⟩
        · rw [hd]; exact .inr ⟨st, rfl⟩
      · cases hd : decodeValue h f.type (cur.getD i .nil) v s with
        | stop st => exact .inr ⟨st, rfl⟩
        | ok x s1 =>
          simp only
          exact decodeFields_typeError h kvs fields _ s1 ht
end

theorem jsonUnmarshal_typeError (h : Hook) (t : GoType) (data : Json)
    (hbad : typeErrorIn t data = true) : ∃ st, jsonUnmarshal h t data = .error st := by
  unfold jsonUnmarshal
  rcases decodeValue_typeError h data t (zero t) none hbad with ⟨v, e, hd⟩ | ⟨st, hd⟩
  · rw [hd]; exact ⟨_, rfl⟩
  · rw [hd]; exact ⟨_, rfl⟩

/-- An envelope with one of the eight discriminators in which some value has a JSON
type its field cannot hold is not decoded: `UnmarshalJSON` does not return the nil
error and leaves `Definition` as it was.  It returns an error, unless the envelope is
a group and `UnmarshalJSON` ends otherwise on one of its nested widgets, a strictly
less deep document, in which case the group ends the same way; for the seven other
discriminators it always returns an error. -/
theorem wrong_type_not_stored (r : BoardWidget) (data : Json) (ty : String) (d : TypeName)
    (hdisc : discriminator data = some ty) (hdef : definitionOf ty = some d)
    (hbad : typeErrorIn (.named d.wrapper) data = true) :
    (r.UnmarshalJSON data).1 ≠ .nil ∧ (r.UnmarshalJSON data).2.Definition = r.Definition ∧
    ((∃ e, (r.UnmarshalJSON data).1 = .error e) ∨
      ∃ c j, j.depth < data.depth ∧
        (BoardWidget.UnmarshalJSON c j).1 = (r.UnmarshalJSON data).1) ∧
    (d.wrapper.hookFree = true → ∃ e, (r.UnmarshalJSON data).1 = .error e) := by
  obtain ⟨hd, d0, hp, hdf, hty⟩ := discriminator_some hdisc
  have hdd := definitionOf_some hdef
  obtain ⟨_, _, _, _, _, hwu⟩ := definition_fields d ty hdd
  obtain ⟨st, hj⟩ := jsonUnmarshal_typeError (fuelHook data.depth) (.named d.wrapper) data hbad
  have hres : r.UnmarshalJSON data =
      (st, { r with Id := hd.get .widgetHandler "Id", Layout := hd.get .widgetHandler "Layout" }) := by
    rw [UnmarshalJSON_eq, unmarshalBody_discriminator _ r data ty hd d0 hp hdf hty,
      unmarshalSwitch_discriminator _ d ty hdd]
    unfold unmarshalDefinition
    rw [hj]
  rw [hres]
  refine ⟨jsonUnmarshal_error_ne_nil _ _ _ _ hj, rfl, ?_, ?_⟩
  · rcases jsonUnmarshal_error_from _ d.wrapper hwu data st hj with he | ⟨c, j2, hlt, hc⟩
    · exact .inl he
    · right
      refine ⟨BoardWidget.ofVal c, j2, hlt, ?_⟩
      rw [fuelHook_eq _ c j2 hlt] at hc
      exact hc
  · intro hfree
    obtain ⟨⟨v, s2, hv⟩, _⟩ := decodeValue_hookFree (fuelHook data.depth) noHook
      (.named d.wrapper) hfree (zero _) data none
    unfold jsonUnmarshal at hj
    rw [hv] at hj
    cases s2 with
    | none => cases hj
    | some e =>
      simp only [Except.error.injEq] at hj
      exact ⟨e, hj.symm⟩

theorem wrong_type_not_stored_example :
    (zeroWidget.UnmarshalJSON exampleWrongTitle).1 ≠ .nil ∧
      (zeroWidget.UnmarshalJSON exampleWrongTitle).2.Definition = .nil :=
  ⟨(wrong_type_not_stored zeroWidget exampleWrongTitle GROUP_WIDGET .GroupDefinition
      rfl rfl rfl).1,
   (wrong_type_not_stored zeroWidget exampleWrongTitle GROUP_WIDGET .GroupDefinition
      rfl rfl rfl).2.1⟩

/-- C14 fails on a group: the envelope
`{"definition":{"type":"group","title":5,"widgets":[{}]}}` has the supported
discriminator `group` and gives the field `title`, a `*string`, as a number, yet
`UnmarshalJSON` does not return an error: the nested widget `{}` has no `definition`,
and the call on it dereferences the nil pointer `widgetHandler.Definition`, so the whole
call ends with that fault, also when `widgets` comes before `title`.  The same group
without nested widgets and the two examples of the claim do return the type error and
store nothing: a number for the `content` of a note, a string for the `precision` of an
alert value. -/
theorem wrong_type_fault :
    discriminator exampleWrongTitle = some GROUP_WIDGET ∧
    typeErrorIn (.named .groupWidget) exampleWrongTitle = true ∧
    zeroWidget.UnmarshalJSON exampleWrongTitle = (.panic, zeroWidget) ∧
    zeroWidget.UnmarshalJSON
        (.obj [("definition", .obj [("type", .str "group"), ("widgets", .arr [.obj []]),
          ("title", .num (.int 5))])])
      = (.panic, zeroWidget) ∧
    zeroWidget.UnmarshalJSON (.obj []) = (.panic, zeroWidget) ∧
    zeroWidget.UnmarshalJSON
        (.obj [("definition", .obj [("type", .str "group"), ("title", .num (.int 5))])])
      = (.error (.UnmarshalTypeError "number" .string), zeroWidget) ∧
    zeroWidget.UnmarshalJSON
        (.obj [("definition", .obj [("type", .str "note"), ("content", .num (.int 5))])])
      = (.error (.UnmarshalTypeError "number" .string), zeroWidget) ∧
    zeroWidget.UnmarshalJSON
        (.obj [("definition", .obj [("type", .str "alert_value"), ("precision", .str "2")])])
      = (.error (.UnmarshalTypeError "string" .int), zeroWidget) :=
  ⟨rfl, rfl, rfl, rfl, rfl, rfl, rfl, rfl⟩

/-! ## Where the decoder calls itself -/

mutual
/-- Two hooks that agree on the documents handed to the hook decode alike. -/
theorem decodeValue_congr_docs (h h2 : Hook) :
    ∀ (j : Json) (t : GoType) (cur : GoVal) (s : Option JsonError),
      (∀ c, ∀ j2 ∈ hookDocs t j, h c j2 = h2 c j2) →
      decodeValue h t cur j s = decodeValue h2 t cur j s
  | .null, t, cur, s, hh => by
    simp only [decodeValue]
    unfold storeNull
    cases t <;> try rfl
    rename_i n
    by_cases hu : n.hasUnmarshaler = true
    · simp only [hu, if_true]
      rw [hh cur .null (by simp [hookDocs, GoType.hasUnmarshaler, hu])]
    · simp only [hu, Bool.false_eq_true, if_false]
  | .bool b, t, cur, s, hh => by
    simp only [decodeValue]
    by_cases hu : t.base.hasUnmarshaler = true
    · simp only [hu, if_true]
      exact callHook_congr h h2 t cur _ s (fun c => hh c _ (by simp [hookDocs, hu]))
    · simp only [hu, Bool.false_eq_true, if_false]
  | .str x, t, cur, s, hh => by
    simp only [decodeValue]
    by_cases hu : t.base.hasUnmarshaler = true
    · simp only [hu, if_true]
      exact callHook_congr h h2 t cur _ s (fun c => hh c _ (by simp [hookDocs, hu]))
    · simp only [hu, Bool.false_eq_true, if_false]
  | .num n, t, cur, s, hh => by
    simp only [decodeValue]
    by_cases hu : t.base.hasUnmarshaler = true
    · simp only [hu, if_true]
      exact callHook_congr h h2 t cur _ s (fun c => hh c _ (by simp [hookDocs, hu]))
    · simp only [hu, Bool.false_eq_true, if_false]
  | .arr xs, t, cur, s, hh => by
    simp only [decodeValue]
    by_cases hu : t.base.hasUnmarshaler = true
    · simp only [hu, if_true]
      exact callHook_congr h h2 t cur _ s (fun c => hh c _ (by simp [hookDocs, hu]))
    · simp only [hu, Bool.false_eq_true, if_false]
      cases hb : t.base with
      | slice e =>
        simp only
        rw [hb] at hu
        rw [decodeElems_congr_docs h h2 xs e _ s
          (fun c j2 hj => hh c j2 (by
            simp only [hookDocs, hb, hu, Bool.false_eq_true, if_false]; exact hj))]
      | _ => rfl
  | .obj kvs, t, cur, s, hh => by
    simp only [decodeValue]
    by_cases hu : t.base.hasUnmarshaler = true
    · simp only [hu, if_true]
      exact callHook_congr h h2 t cur _ s (fun c => hh c _ (by simp [hookDocs, hu]))
    · simp only [hu, Bool.false_eq_true, if_false]
      cases hb : t.base with
      | named n =>
        simp only
        rw [hb] at hu
        rw [decodeFields_congr_docs h h2 kvs n.fields _ s
          (fun c j2 hj => hh c j2 (by
            simp only [hookDocs, hb, hu, Bool.false_eq_true, if_false]; exact hj))]
      | _ => rfl
/-- The elements of an array: as `decodeValue_congr_docs`. -/
theorem decodeElems_congr_docs (h h2 : Hook) :
    ∀ (xs : List Json) (e : GoType) (cur : List GoVal) (s : Option JsonError),
      (∀ c, ∀ j2 ∈ hookDocsElems e xs, h c j2 = h2 c j2) →
      decodeElems h e cur xs s = decodeElems h2 e cur xs s
  | [], _, _, s, _ => by simp [decodeElems]
  | x :: xs, e, cur, s, hh => by
    simp only [decodeElems]
    rw [decodeValue_congr_docs h h2 x e _ s
      (fun c j2 hj => hh c j2 (by simp only [hookDocsElems, List.mem_append]; exact .inl hj))]
    cases decodeValue h2 e (cur.headD (zero e)) x s with
    | stop st => rfl
    | ok v s1 =>
      simp only
      rw [decodeElems_congr_docs h h2 xs e cur.tail s1
        (fun c j2 hj => hh c j2 (by simp only [hookDocsElems, List.mem_append]; exact .inr hj))]
/-- The members of an object: as `decodeValue_congr_docs`. -/
theorem decodeFields_congr_docs (h h2 : Hook) :
    ∀ (kvs : List (String × Json)) (fields : List Field) (cur : List GoVal)
      (s : Option JsonError),
      (∀ c, ∀ j2 ∈ hookDocsMembers fields kvs, h c j2 = h2 c j2) →
      decodeFields h fields cur kvs s = decodeFields h2 fields cur kvs s
  | [], _, cur, s, _ => by simp [decodeFields]
  | (k, v) :: kvs, fields, cur, s, hh => by
    simp only [decodeFields]
    have hrest := fun (c : List GoVal) (s1 : Option JsonError) =>
      decodeFields_congr_docs h h2 kvs fields c s1
        (fun c j2 hj => hh c j2 (by simp only [hookDocsMembers, List.mem_append]; exact .inr hj))
    cases hk : findField fields k with
    | none => exact hrest _ _
    | some r =>
      obtain ⟨i, f⟩ := r
      simp only
      rw [decodeValue_congr_docs h h2 v f.type _ s
        (fun c j2 hj => hh c j2 (by
          simp only [hookDocsMembers, hk, List.mem_append]; exact .inl hj))]
      cases decodeValue h2 f.type (cur.getD i .nil) v s with
      | stop st => rfl
      | ok x s1 => exact hrest _ _
end

theorem hookDocsMembers_mem (fields : List Field) (j : Json) :
    ∀ kvs : List (String × Json), j ∈ hookDocsMembers fields kvs →
      ∃ i f v, fields.get? i = some f ∧ v ∈ membersOf fields i kvs ∧ j ∈ hookDocs f.type v
  | [], hj => by simp [hookDocsMembers] at hj
  | (k, v) :: kvs, hj => by
    simp only [hookDocsMembers, List.mem_append] at hj
    rcases hj with hj | hj
    · cases hk : findField fields k with
      | none => simp [hk] at hj
      | some r =>
        obtain ⟨i, f⟩ := r
        simp only [hk] at hj
        refine ⟨i, f, v, findField_get fields k i f hk, ?_, hj⟩
        rw [membersOf_cons]
        simp [hk]
    · obtain ⟨i, f, v2, hf, hm, hd⟩ := hookDocsMembers_mem fields j kvs hj
      refine ⟨i, f, v2, hf, ?_, hd⟩
      rw [membersOf_cons]
      split
      · exact List.mem_cons_of_mem _ hm
      · exact hm

theorem hookDocsElems_mem (e : GoType) (j : Json) :
    ∀ xs : List Json, j ∈ hookDocsElems e xs → ∃ x ∈ xs, j ∈ hookDocs e x
  | [], hj => by simp [hookDocsElems] at hj
  | x :: xs, hj => by
    simp only [hookDocsElems, List.mem_append] at hj
    rcases hj with hj | hj
    · exact ⟨x, List.mem_cons_self _ _, hj⟩
    · obtain ⟨y, hy, hd⟩ := hookDocsElems_mem e j xs hj
      exact ⟨y, List.mem_cons_of_mem _ hy, hd⟩

theorem hookDocs_widget (x j : Json) (hj : j ∈ hookDocs (.named .BoardWidget) x) : j = x := by
  cases x <;>
    simpa [hookDocs, GoType.base, GoType.hasUnmarshaler, TypeName.hasUnmarshaler] using hj

theorem hookDocs_ptr_string (v : Json) : hookDocs (.ptr .string) v = [] := by
  cases v <;> simp [hookDocs, GoType.base, GoType.hasUnmarshaler]

/-- While `json.Unmarshal` decodes an envelope into the local struct of the group case,
it calls `UnmarshalJSON` on nested envelopes only. -/
theorem hookDocs_group (data j : Json) (hj : j ∈ hookDocs (.named .groupWidget) data) :
    j ∈ nestedEnvelopes data := by
  cases data with
  | obj kvs =>
    simp only [hookDocs, GoType.base, GoType.hasUnmarshaler, TypeName.hasUnmarshaler,
      Bool.false_eq_true, if_false] at hj
    obtain ⟨i, f, m, hf, hm, hd⟩ := hookDocsMembers_mem _ j kvs hj
    rcases i with _ | i
    · simp only [TypeName.fields, List.get?_cons_zero, Option.some.injEq] at hf
      subst hf
      cases m with
      | obj dkvs =>
        simp only [hookDocs, GoType.base, GoType.hasUnmarshaler, TypeName.hasUnmarshaler,
          Bool.false_eq_true, if_false] at hd
        obtain ⟨i2, f2, a, hf2, hm2, hd2⟩ := hookDocsMembers_mem _ j dkvs hd
        rcases i2 with _ | _ | _ | _ | i2 <;>
          simp only [TypeName.fields, List.get?_cons_zero, List.get?_cons_succ,
            Option.some.injEq, List.get?_nil, reduceCtorEq] at hf2
        · subst hf2; simp [hookDocs_ptr_string] at hd2
        · subst hf2; simp [hookDocs_ptr_string] at hd2
        · subst hf2
          cases a with
          | arr ws =>
            simp only [hookDocs, GoType.base, GoType.hasUnmarshaler, Bool.false_eq_true,
              if_false] at hd2
            obtain ⟨x, hx, hjx⟩ := hookDocsElems_mem _ j ws hd2
            have := hookDocs_widget x j hjx
            subst this
            simp only [nestedEnvelopes, List.mem_flatMap]
            exact ⟨.obj dkvs, hm, by
              simp only [List.mem_flatMap]
              exact ⟨.arr ws, hm2, hx⟩⟩
          | _ => simp [hookDocs, GoType.base, GoType.hasUnmarshaler] at hd2
        · subst hf2; simp [hookDocs_ptr_string] at hd2
      | _ => simp [hookDocs, GoType.base, GoType.hasUnmarshaler, TypeName.hasUnmarshaler] at hd
    · simp [TypeName.fields] at hf
  | _ => simp [hookDocs, GoType.base, GoType.hasUnmarshaler, TypeName.hasUnmarshaler] at hj

/-- A nested envelope is strictly less deep than the envelope. -/
theorem nestedEnvelopes_depth (data j : Json) (hj : j ∈ nestedEnvelopes data) :
    j.depth < data.depth := by
  cases data with
  | obj kvs =>
    simp only [nestedEnvelopes, List.mem_flatMap] at hj
    obtain ⟨m, hm, hj⟩ := hj
    cases m with
    | obj dkvs =>
      simp only [List.mem_flatMap] at hj
      obtain ⟨a, ha, hj⟩ := hj
      cases a with
      | arr ws =>
        simp only at hj
        have h1 := depth_le_depthElems hj
        have h2 := depth_le_depthMembers _ 2 ha
        have h3 := depth_le_depthMembers _ 0 hm
        simp only [Json.depth] at h2 h3 ⊢
        omega
      | _ => simp at hj
    | _ => simp at hj
  | _ => simp [nestedEnvelopes] at hj

theorem unmarshalDefinition_congr_free (h h2 : Hook) (wr dn : TypeName)
    (hf : (GoType.named wr).hookFree = true) (widget : BoardWidget) (data : Json) :
    unmarshalDefinition h wr dn widget data = unmarshalDefinition h2 wr dn widget data := by
  unfold unmarshalDefinition jsonUnmarshal
  rw [(decodeValue_hookFree h h2 (.named wr) hf _ data none).2]

theorem unmarshalDefinition_congr_docs (h h2 : Hook) (wr dn : TypeName)
    (widget : BoardWidget) (data : Json)
    (hh : ∀ c, ∀ j ∈ hookDocs (.named wr) data, h c j = h2 c j) :
    unmarshalDefinition h wr dn widget data = unmarshalDefinition h2 wr dn widget data := by
  unfold unmarshalDefinition jsonUnmarshal
  rw [decodeValue_congr_docs h h2 data (.named wr) _ none hh]

/-- The body of `UnmarshalJSON` consults the hook on the nested envelopes only: two
hooks that agree on them give the same outcome. -/
theorem unmarshalBody_congr_nested (h h2 : Hook) (widget : BoardWidget) (data : Json)
    (hh : ∀ c, ∀ j ∈ nestedEnvelopes data, h c j = h2 c j) :
    unmarshalBody h widget data = unmarshalBody h2 widget data := by
  have hg : ∀ c, ∀ j ∈ hookDocs (.named .groupWidget) data, h c j = h2 c j :=
    fun c j hj => hh c j (hookDocs_group data j hj)
  unfold unmarshalBody
  rw [jsonUnmarshal_widgetHandler h, jsonUnmarshal_widgetHandler h2]
  cases peek data with
  | error st => rfl
  | ok hd =>
    simp only
    split
    · split
      · unfold unmarshalSwitch
        repeat' split
        all_goals first
          | rfl
          | exact unmarshalDefinition_congr_free h h2 _ _ (by rfl) _ _
          | exact unmarshalDefinition_congr_docs h h2 _ _ _ _ hg
      · rfl
    · rfl

/-! ## Termination -/

/-- C18: `UnmarshalJSON` ends on every document.  The model bounds the nesting of
groups by the depth of the document; the bound is never reached (no call ends with
`outOfFuel`), and every larger bound gives the same outcome, so the outcome is that of
the method without a bound, for groups nested to any depth: `UnmarshalJSON` is its body
with `UnmarshalJSON` itself standing for the calls on nested widgets.  The recursion is
well founded: the body consults the method itself only on the nested envelopes of the
document, the elements of the `widgets` arrays of its `definition` (two stand-ins for
the method that agree on them give the same outcome), and each nested envelope is
strictly less deep than the document. -/
theorem decode_terminates (widget : BoardWidget) (data : Json) :
    (widget.UnmarshalJSON data).1 ≠ .outOfFuel ∧
    (∀ n, data.depth < n → UnmarshalJSONFuel n widget data = widget.UnmarshalJSON data) ∧
    widget.UnmarshalJSON data =
      unmarshalBody (fun c j => (((BoardWidget.ofVal c).UnmarshalJSON j).1,
        ((BoardWidget.ofVal c).UnmarshalJSON j).2.toVal)) widget data ∧
    (∀ h h2 : Hook, (∀ c, ∀ j ∈ nestedEnvelopes data, h c j = h2 c j) →
      unmarshalBody h widget data = unmarshalBody h2 widget data) ∧
    (∀ j ∈ nestedEnvelopes data, j.depth < data.depth) :=
  ⟨status_ne_outOfFuel widget data,
   fun n hn => UnmarshalJSONFuel_eq n widget data hn,
   by
    rw [UnmarshalJSON_eq]
    exact unmarshalBody_congr _ _ widget data (fun c j hj => fuelHook_eq _ c j hj),
   fun h h2 hh => unmarshalBody_congr_nested h h2 widget data hh,
   fun j hj => nestedEnvelopes_depth data j hj⟩

/-- C18 on the example group: its nested envelopes are the note and the inner group,
and a bound of 100 gives the outcome of `UnmarshalJSON`. -/
theorem decode_terminates_witness :
    nestedEnvelopes exampleGroup =
      [.obj [("definition", .obj [("type", .str "note"), ("content", .str "hi")])],
       .obj [("id", .num (.int 3)),
        ("definition", .obj [("type", .str "group"), ("layout_type", .str "ordered"),
          ("widgets", .arr [
            .obj [("definition", .obj [("type", .str "alert_value"),
              ("alert_id", .str "17")])]])])]] ∧
    (zeroWidget.UnmarshalJSON exampleGroup).1 ≠ .outOfFuel ∧
    UnmarshalJSONFuel 100 zeroWidget exampleGroup = zeroWidget.UnmarshalJSON exampleGroup ∧
    (∀ j ∈ nestedEnvelopes exampleGroup, j.depth < exampleGroup.depth) :=
  ⟨rfl, (decode_terminates zeroWidget exampleGroup).1,
   (decode_terminates zeroWidget exampleGroup).2.1 100 (by decide),
   (decode_terminates zeroWidget exampleGroup).2.2.2.2⟩

/-! ## The discriminator and the definition agree, at every level -/

theorem decodeSeq_inv (h : Hook) (t : GoType) (P : GoVal → Prop) :
    ∀ (ms : List Json),
      (∀ m ∈ ms, ∀ (cur : GoVal) (s : Option JsonError) (v : GoVal),
        P cur → decodeValue h t cur m s = .ok v none → P v) →
      ∀ (cur : GoVal) (s : Option JsonError) (v : GoVal),
        P cur → decodeSeq h t cur ms s = .ok v none → P v
  | [], _, cur, s, v, hc, hd => by
    simp only [decodeSeq, Res.ok.injEq] at hd
    rw [← hd.1]
    exact hc
  | m :: ms, step, cur, s, v, hc, hd => by
    simp only [decodeSeq] at hd
    cases hx : decodeValue h t cur m s with
    | stop st => rw [hx] at hd; cases hd
    | ok x s1 =>
      rw [hx] at hd
      simp only at hd
      have hs1 : s1 = none := decodeSeq_saved_none hd
      subst hs1
      exact decodeSeq_inv h t P ms (fun m2 hm2 => step m2 (List.mem_cons_of_mem _ hm2)) x none v
        (step m (List.mem_cons_self _ _) cur s x hc hx) hd

/-- Every element of a slice of widgets decoded without error is what the hook
returned, with the nil error, on an element of the array. -/
theorem decodeElems_widgets_from (h : Hook) :
    ∀ (ws : List Json) (cur : List GoVal) (s : Option JsonError) (out : List GoVal),
      decodeElems h (.named .BoardWidget) cur ws s = .ok out none →
      ∀ x ∈ out, ∃ c, ∃ y ∈ ws, h c y = (.nil, x)
  | [], cur, s, out, hd, x, hx => by
    simp only [decodeElems, Res.ok.injEq] at hd
    rw [← hd.1] at hx
    cases hx
  | y :: ws, cur, s, out, hd, x, hx => by
    simp only [decodeElems] at hd
    rw [decodeValue_widget] at hd
    cases hh : h (cur.headD (zero (.named .BoardWidget))) y with
    | mk st v =>
      rw [hh] at hd
      cases st with
      | nil =>
        simp only at hd
        cases hr : decodeElems h (.named .BoardWidget) cur.tail ws s with
        | stop st2 => rw [hr] at hd; cases hd
        | ok vs s3 =>
          rw [hr] at hd
          simp only [Res.ok.injEq] at hd
          obtain ⟨hv, hs3⟩ := hd
          subst hs3
          rw [← hv] at hx
          rcases List.mem_cons.mp hx with rfl | hx
          · exact ⟨_, y, List.mem_cons_self _ _, hh⟩
          · obtain ⟨c, z, hz, hc⟩ := decodeElems_widgets_from h ws _ s vs hr x hx
            exact ⟨c, z, List.mem_cons_of_mem _ hz, hc⟩
      | error e =>
        simp only at hd
        cases hr : decodeElems h (.named .BoardWidget) cur.tail ws (firstError s (some e)) with
        | stop st2 => rw [hr] at hd; cases hd
        | ok vs s3 =>
          rw [hr] at hd
          simp only [Res.ok.injEq] at hd
          obtain ⟨_, hs3⟩ := hd
          subst hs3
          exact absurd (firstError_eq_none (decodeElems_saved_none hr)).2 (by simp)
      | panic => cases hd
      | outOfFuel => cases hd

/-- One member decoded into the field `Widgets`. -/
theorem widgets_step (h : Hook) (Q : GoVal → Prop) (a : Json)
    (hq : ∀ ws, a = .arr ws → ∀ x c, ∀ y ∈ ws, h c y = (.nil, x) → Q x)
    (sv : GoVal) (s : Option JsonError) (sv2 : GoVal)
    (hd : decodeValue h (.slice (.named .BoardWidget)) sv a s = .ok sv2 none) :
    ∀ x ∈ sv2.elems, Q x := by
  cases a with
  | null =>
    simp only [decodeValue, storeNull, Res.ok.injEq] at hd
    rw [← hd.1]
    intro x hx
    cases hx
  | arr ws =>
    simp only [decodeValue, GoType.base, GoType.hasUnmarshaler, Bool.false_eq_true, if_false,
      indirect, reref] at hd
    cases hr : decodeElems h (.named .BoardWidget) sv.elems ws s with
    | stop st => rw [hr] at hd; cases hd
    | ok vs s3 =>
      rw [hr] at hd
      simp only [Res.ok.injEq] at hd
      obtain ⟨hv, hs3⟩ := hd
      subst hs3
      rw [← hv]
      intro x hx
      obtain ⟨c, y, hy, hc⟩ := decodeElems_widgets_from h ws _ s vs hr x hx
      exact hq ws rfl x c y hy hc
  | bool b =>
    simp only [decodeValue, GoType.base, GoType.hasUnmarshaler, Bool.false_eq_true,
      if_false] at hd
    exact absurd hd (typeError_ne_none _ _ _ _ _)
  | num n =>
    simp only [decodeValue, GoType.base, GoType.hasUnmarshaler, Bool.false_eq_true,
      if_false] at hd
    exact absurd hd (typeError_ne_none _ _ _ _ _)
  | str x =>
    simp only [decodeValue, GoType.base, GoType.hasUnmarshaler, Bool.false_eq_true,
      if_false] at hd
    exact absurd hd (typeError_ne_none _ _ _ _ _)
  | obj kvs =>
    simp only [decodeValue, GoType.base, GoType.hasUnmarshaler, Bool.false_eq_true,
      if_false] at hd
    exact absurd hd (typeError_ne_none _ _ _ _ _)

/-- One member decoded into a `GroupDefinition`. -/
theorem group_definition_step (h : Hook) (Q : GoVal → Prop) (m : Json)
    (hq : ∀ dkvs, m = .obj dkvs → ∀ ws, .arr ws ∈ membersOf TypeName.GroupDefinition.fields 2 dkvs →
      ∀ x c, ∀ y ∈ ws, h c y = (.nil, x) → Q x)
    (g : GoVal) (s : Option JsonError) (g2 : GoVal)
    (hg : 2 < g.structFields.length ∧ ∀ x ∈ (g.structFields.getD 2 .nil).elems, Q x)
    (hd : decodeValue h (.named .GroupDefinition) g m s = .ok g2 none) :
    2 < g2.structFields.length ∧ ∀ x ∈ (g2.structFields.getD 2 .nil).elems, Q x := by
  cases m with
  | null =>
    simp only [decodeValue, storeNull, TypeName.hasUnmarshaler, Bool.false_eq_true, if_false,
      Res.ok.injEq] at hd
    rw [← hd.1]
    exact hg
  | obj dkvs =>
    rw [decodeValue_struct h .GroupDefinition rfl] at hd
    cases hr : decodeFields h TypeName.GroupDefinition.fields g.structFields dkvs s with
    | stop st => rw [hr] at hd; cases hd
    | ok fs s3 =>
      rw [hr] at hd
      simp only [Res.ok.injEq] at hd
      obtain ⟨hv, hs3⟩ := hd
      subst hs3
      rw [← hv]
      have hl := decodeFields_length _ _ _ _ _ _ _ hr
      obtain ⟨e, hq2, he⟩ := decodeFields_getD h TypeName.GroupDefinition.fields 2
        ⟨"Widgets", "widgets", false, .slice (.named .BoardWidget)⟩ rfl dkvs _ fs s none hg.1 hr
      rw [he rfl] at hq2
      refine ⟨by simp only [GoVal.structFields]; omega, ?_⟩
      simp only [GoVal.structFields]
      refine decodeSeq_inv h _ (fun sv => ∀ x ∈ sv.elems, Q x) _ ?_ _ none _ hg.2 hq2
      intro a ha cur s4 v hcur hdv
      exact widgets_step h Q a
        (fun ws haw x c y hy hc => hq dkvs rfl ws (by rw [← haw]; exact ha) x c y hy hc)
        cur s4 v hdv
  | bool b =>
    simp only [decodeValue, GoType.base, GoType.hasUnmarshaler, TypeName.hasUnmarshaler,
      Bool.false_eq_true, if_false] at hd
    exact absurd hd (typeError_ne_none _ _ _ _ _)
  | num n =>
    simp only [decodeValue, GoType.base, GoType.hasUnmarshaler, TypeName.hasUnmarshaler,
      Bool.false_eq_true, if_false] at hd
    exact absurd hd (typeError_ne_none _ _ _ _ _)
  | str x =>
    simp only [decodeValue, GoType.base, GoType.hasUnmarshaler, TypeName.hasUnmarshaler,
      Bool.false_eq_true, if_false] at hd
    exact absurd hd (typeError_ne_none _ _ _ _ _)
  | arr xs =>
    simp only [decodeValue, GoType.base, GoType.hasUnmarshaler, TypeName.hasUnmarshaler,
      Bool.false_eq_true, if_false] at hd
    exact absurd hd (typeError_ne_none _ _ _ _ _)

/-- The widgets of a decoded group definition are what the hook returned, with the nil
error, on nested envelopes. -/
theorem jsonUnmarshal_group_from (h : Hook) (kvs : List (String × Json)) (vv : GoVal)
    (hok : jsonUnmarshal h (.named .groupWidget) (.obj kvs) = .ok vv) :
    ∀ x ∈ ((vv.get .groupWidget "Definition").get .GroupDefinition "Widgets").elems,
      ∃ c, ∃ y ∈ nestedEnvelopes (.obj kvs), h c y = (.nil, x) := by
  obtain ⟨wfs, hdec, rfl⟩ := jsonUnmarshal_struct h .groupWidget rfl kvs vv hok
  obtain ⟨e, hq, he⟩ := decodeFields_getD h TypeName.groupWidget.fields 0
    ⟨"Definition", "definition", false, .named .GroupDefinition⟩ rfl kvs _ wfs none none
    (by decide) hdec
  rw [he rfl] at hq
  have key := decodeSeq_inv h (.named .GroupDefinition)
    (fun g => 2 < g.structFields.length ∧ ∀ x ∈ (g.structFields.getD 2 .nil).elems,
      ∃ c, ∃ y ∈ nestedEnvelopes (.obj kvs), h c y = (.nil, x))
    (membersOf TypeName.groupWidget.fields 0 kvs)
    (fun m hm cur s v hcur hdv =>
      group_definition_step h _ m
        (fun dkvs hmd ws hws x c y hy hc => ⟨c, y, by
          simp only [nestedEnvelopes, List.mem_flatMap]
          exact ⟨.obj dkvs, by rw [← hmd]; exact hm, by
            simp only [List.mem_flatMap]
            exact ⟨.arr ws, hws, hy⟩⟩, hc⟩)
        cur s v hcur hdv)
    _ none _ ⟨by decide, by intro x hx; cases hx⟩ hq
  exact key.2

/-- The widgets of a decoded group are decoded nested envelopes. -/
theorem UnmarshalJSON_children (r w : BoardWidget) (data : Json)
    (hok : r.UnmarshalJSON data = (.nil, w)) (gv : GoVal)
    (hdef : w.Definition = .iface (.named .GroupDefinition) gv) :
    ∀ x ∈ (gv.get .GroupDefinition "Widgets").elems,
      ∃ c, ∃ y ∈ nestedEnvelopes data,
        BoardWidget.UnmarshalJSON c y = (.nil, BoardWidget.ofVal x) ∧
          x = (BoardWidget.ofVal x).toVal := by
  rw [UnmarshalJSON_eq] at hok
  obtain ⟨kvs, rfl⟩ := unmarshalBody_object _ r data w hok
  obtain ⟨hd, ty, d, vv, _, _, _, hvv, hw⟩ := unmarshalBody_nil _ r _ w hok
  subst hw
  simp only [GoVal.iface.injEq, GoType.named.injEq] at hdef
  obtain ⟨hd1, hd2⟩ := hdef
  subst hd1 hd2
  intro x hx
  obtain ⟨c, y, hy, hc⟩ := jsonUnmarshal_group_from _ kvs vv hvv x hx
  rw [fuelHook_eq _ c y (nestedEnvelopes_depth _ y hy)] at hc
  simp only [Prod.mk.injEq] at hc
  refine ⟨BoardWidget.ofVal c, y, hy, ?_, ?_⟩
  · rw [← hc.2]
    exact Prod.ext hc.1 rfl
  · rw [← hc.2]
    rfl

theorem nestedWidgetsList_mem (x : GoVal) :
    ∀ ws : List GoVal, x ∈ nestedWidgetsList ws → ∃ y ∈ ws, x = y ∨ x ∈ nestedWidgets y
  | [], hx => by simp [nestedWidgetsList] at hx
  | w :: ws, hx => by
    simp only [nestedWidgetsList, List.mem_cons, List.mem_append] at hx
    rcases hx with rfl | hx | hx
    · exact ⟨x, List.mem_cons_self _ _, .inl rfl⟩
    · exact ⟨w, List.mem_cons_self _ _, .inr hx⟩
    · obtain ⟨y, hy, h⟩ := nestedWidgetsList_mem x ws hx
      exact ⟨y, List.mem_cons_of_mem _ hy, h⟩

theorem nestedWidgets_children (v x : GoVal) (hx : x ∈ nestedWidgets v) :
    ∃ gv rest, v = .struct (.iface (.named .GroupDefinition) gv :: rest) ∧
      ∃ y ∈ (gv.get .GroupDefinition "Widgets").elems, x = y ∨ x ∈ nestedWidgets y := by
  unfold nestedWidgets at hx
  split at hx
  · rename_i a b ws c rest
    exact ⟨_, rest, rfl, nestedWidgetsList_mem x ws hx⟩
  · simp at hx

/-- Every widget nested in a decoded widget, at any depth, is what `UnmarshalJSON`
leaves, with the nil error, on a document strictly less deep than the one decoded. -/
theorem nestedWidgets_from : ∀ (n : Nat) (data : Json), data.depth ≤ n →
    ∀ (r w : BoardWidget), r.UnmarshalJSON data = (.nil, w) →
    ∀ x ∈ nestedWidgets w.toVal, ∃ c j, j.depth < data.depth ∧
      BoardWidget.UnmarshalJSON c j = (.nil, BoardWidget.ofVal x)
  | 0, data, hn, r, w, hok, x, hx => by
    obtain ⟨gv, rest, hv, y, hy, _⟩ := nestedWidgets_children _ x hx
    simp only [BoardWidget.toVal, GoVal.struct.injEq, List.cons.injEq] at hv
    obtain ⟨c, j, hj, _, _⟩ := UnmarshalJSON_children r w data hok gv hv.1 y hy
    have := nestedEnvelopes_depth data j hj
    omega
  | n + 1, data, hn, r, w, hok, x, hx => by
    obtain ⟨gv, rest, hv, y, hy, hxy⟩ := nestedWidgets_children _ x hx
    simp only [BoardWidget.toVal, GoVal.struct.injEq, List.cons.injEq] at hv
    obtain ⟨c, j, hj, hcj, hyv⟩ := UnmarshalJSON_children r w data hok gv hv.1 y hy
    have hlt := nestedEnvelopes_depth data j hj
    rcases hxy with rfl | hxy
    · exact ⟨c, j, hlt, hcj⟩
    · rw [hyv] at hxy
      obtain ⟨c2, j2, hlt2, hc2⟩ :=
        nestedWidgets_from n j (by omega) c (BoardWidget.ofVal y) hcj x hxy
      exact ⟨c2, j2, by omega, hc2⟩

/-- A decoded widget holds the definition struct the switch selects for the
discriminator the first pass found, with that discriminator in its field `Type`. -/
theorem UnmarshalJSON_consistent (r w : BoardWidget) (data : Json)
    (hok : r.UnmarshalJSON data = (.nil, w)) :
    ∃ ty d dv, discriminator data = some ty ∧ definitionOf ty = some d ∧
      w.Definition = .iface (.named d) dv ∧ dv.get d "Type" = .ptr (.str ty) ∧
      w.GetWidgetType = (ty, none) := by
  have hwf := UnmarshalJSON_wf r w data hok
  rw [UnmarshalJSON_eq] at hok
  obtain ⟨hd, ty, d, vv, _, hdisc, hdef, _, hw⟩ := unmarshalBody_nil _ r data w hok
  obtain ⟨d2, dv, id, l, t, heq, hdd, hty, _, _⟩ := wellFormed_widget_inv false _ hwf
  subst hw
  simp only [BoardWidget.toVal, GoVal.struct.injEq, List.cons.injEq, GoVal.iface.injEq,
    GoType.named.injEq, and_true] at heq
  obtain ⟨⟨hd1, hd2⟩, hid, hl⟩ := heq
  subst hd1
  have ht : t = ty := by
    have := definitionOf_some hdef
    rw [hdd] at this
    exact Option.some.inj this
  subst ht
  refine ⟨t, d, _, hdisc, hdef, rfl, ?_, getWidgetType_discriminator d t _ _ _ hdd⟩
  rw [hd2]
  exact hty

/-- C13: let `UnmarshalJSON` return the nil error on a document whose first pass finds
the discriminator `ty`.  Then `Definition` holds, by value, the definition struct the
switch selects for `ty`, its field `Type` points to `ty`, and `GetWidgetType` returns
`ty` and the nil error.  The same holds of every widget nested in the result, at any
depth (the widgets of a group, the widgets of a group among them, ...): it is what
`UnmarshalJSON` leaves, with the nil error, on a document strictly less deep, it holds
the definition struct selected for the discriminator the first pass finds in that
document, its field `Type` points to that discriminator, and `GetWidgetType` returns it
with the nil error. -/
theorem discriminator_consistent (r w : BoardWidget) (data : Json)
    (hok : r.UnmarshalJSON data = (.nil, w)) :
    (∃ ty d dv, discriminator data = some ty ∧ definitionOf ty = some d ∧
      w.Definition = .iface (.named d) dv ∧ dv.get d "Type" = .ptr (.str ty) ∧
      w.GetWidgetType = (ty, none)) ∧
    ∀ x ∈ nestedWidgets w.toVal, ∃ c j ty d dv, j.depth < data.depth ∧
      BoardWidget.UnmarshalJSON c j = (.nil, BoardWidget.ofVal x) ∧
      discriminator j = some ty ∧ definitionOf ty = some d ∧
      (BoardWidget.ofVal x).Definition = .iface (.named d) dv ∧
      dv.get d "Type" = .ptr (.str ty) ∧ (BoardWidget.ofVal x).GetWidgetType = (ty, none) := by
  refine ⟨UnmarshalJSON_consistent r w data hok, ?_⟩
  intro x hx
  obtain ⟨c, j, hlt, hcj⟩ := nestedWidgets_from data.depth data (Nat.le_refl _) r w hok x hx
  obtain ⟨ty, d, dv, h1, h2, h3, h4, h5⟩ := UnmarshalJSON_consistent c _ j hcj
  exact ⟨c, j, ty, d, dv, hlt, hcj, h1, h2, h3, h4, h5⟩

/-- C13 on the example group: the group itself, and the note, the inner group and the
alert value nested in it. -/
theorem discriminator_consistent_witness :
    zeroWidget.UnmarshalJSON exampleGroup
        = (.nil, (zeroWidget.UnmarshalJSON exampleGroup).2) ∧
    (nestedWidgets (zeroWidget.UnmarshalJSON exampleGroup).2.toVal).map
        (fun x => (BoardWidget.ofVal x).GetWidgetType)
      = [("note", none), ("group", none), ("alert_value", none)] ∧
    ((∃ ty d dv, discriminator exampleGroup = some ty ∧ definitionOf ty = some d ∧
      (zeroWidget.UnmarshalJSON exampleGroup).2.Definition = .iface (.named d) dv ∧
      dv.get d "Type" = .ptr (.str ty) ∧
      (zeroWidget.UnmarshalJSON exampleGroup).2.GetWidgetType = (ty, none)) ∧
    ∀ x ∈ nestedWidgets (zeroWidget.UnmarshalJSON exampleGroup).2.toVal,
      ∃ c j ty d dv, j.depth < exampleGroup.depth ∧
        BoardWidget.UnmarshalJSON c j = (.nil, BoardWidget.ofVal x) ∧
        discriminator j = some ty ∧ definitionOf ty = some d ∧
        (BoardWidget.ofVal x).Definition = .iface (.named d) dv ∧
        dv.get d "Type" = .ptr (.str ty) ∧
        (BoardWidget.ofVal x).GetWidgetType = (ty, none)) :=
  ⟨rfl, rfl, discriminator_consistent zeroWidget (zeroWidget.UnmarshalJSON exampleGroup).2
    exampleGroup rfl⟩

/-! ## Decoding that saves no error -/

theorem storeNull_quiet (h : Hook) (t : GoType) (ht : t.hookFree = true) (cur : GoVal)
    (s : Option JsonError) : ∃ v, storeNull h t cur s = .ok v s := by
  have hu := GoType.hookFree_hasUnmarshaler t ht
  cases t <;> simp_all [storeNull, GoType.hasUnmarshaler]

mutual
/-- A document without a value of the wrong kind, decoded into a type without
`BoardWidget`: the decoding saves no error. -/
theorem decodeValue_quiet (h : Hook) :
    ∀ (j : Json) (t : GoType) (cur : GoVal) (s : Option JsonError),
      t.hookFree = true → typeErrorIn t j = false → ∃ v, decodeValue h t cur j s = .ok v s
  | .null, t, cur, s, hf, _ => by
    simp only [decodeValue]
    exact storeNull_quiet h t hf cur s
  | .bool b, t, cur, s, hf, ht => by
    have hu := GoType.hookFree_hasUnmarshaler _ (GoType.hookFree_base t hf)
    simp only [typeErrorIn, hu, Bool.not_false, Bool.true_and] at ht
    simp only [decodeValue, hu, Bool.false_eq_true, if_false]
    cases hb : t.base <;> rw [hb] at ht <;> simp [wrongKind] at ht <;> exact ⟨_, rfl⟩
  | .str x, t, cur, s, hf, ht => by
    have hu := GoType.hookFree_hasUnmarshaler _ (GoType.hookFree_base t hf)
    simp only [typeErrorIn, hu, Bool.not_false, Bool.true_and] at ht
    simp only [decodeValue, hu, Bool.false_eq_true, if_false]
    cases hb : t.base <;> rw [hb] at ht <;> simp [wrongKind] at ht <;> exact ⟨_, rfl⟩
  | .num n, t, cur, s, hf, ht => by
    have hu := GoType.hookFree_hasUnmarshaler _ (GoType.hookFree_base t hf)
    simp only [typeErrorIn, hu, Bool.not_false, Bool.true_and] at ht
    simp only [decodeValue, hu, Bool.false_eq_true, if_false]
    cases hb : t.base <;> rw [hb] at ht <;> cases n <;> simp [wrongKind] at ht <;>
      first
      | exact ⟨_, rfl⟩
      | (simp only [if_pos ht]; exact ⟨_, rfl⟩)
  | .arr xs, t, cur, s, hf, ht => by
    have hbf := GoType.hookFree_base t hf
    have hu := GoType.hookFree_hasUnmarshaler _ hbf
    simp only [typeErrorIn, hu, Bool.not_false, Bool.true_and] at ht
    simp only [decodeValue, hu, Bool.false_eq_true, if_false]
    cases hb : t.base with
    | slice e2 =>
      rw [hb] at ht
      have he : e2.hookFree = true := by simpa [hb, GoType.hookFree] using hbf
      simp only at ht ⊢
      obtain ⟨vs, hd⟩ := decodeElems_quiet h xs e2 (indirect t cur).elems s he ht
      rw [hd]
      exact ⟨_, rfl⟩
    | iface => exact ⟨_, rfl⟩
    | _ => rw [hb] at ht; simp at ht
  | .obj kvs, t, cur, s, hf, ht => by
    have hbf := GoType.hookFree_base t hf
    have hu := GoType.hookFree_hasUnmarshaler _ hbf
    simp only [typeErrorIn, hu, Bool.not_false, Bool.true_and] at ht
    simp only [decodeValue, hu, Bool.false_eq_true, if_false]
    cases hb : t.base with
    | named n =>
      rw [hb] at ht
      have hn : n.hookFree = true := by simpa [hb, GoType.hookFree] using hbf
      simp only at ht ⊢
      obtain ⟨vs, hd⟩ := decodeFields_quiet h kvs n.fields (indirect t cur).structFields s
        (fun i f hget _ => TypeName.hookFree_fields n hn f (List.get?_mem hget)) ht
      rw [hd]
      exact ⟨_, rfl⟩
    | iface => exact ⟨_, rfl⟩
    | _ => rw [hb] at ht; simp at ht
/-- The elements of an array: as `decodeValue_quiet`. -/
theorem decodeElems_quiet (h : Hook) :
    ∀ (xs : List Json) (e : GoType) (cur : List GoVal) (s : Option JsonError),
      e.hookFree = true → typeErrorInElems e xs = false →
      ∃ vs, decodeElems h e cur xs s = .ok vs s
  | [], e, cur, s, _, _ => ⟨[], by simp [decodeElems]⟩
  | x :: xs, e, cur, s, he, ht => by
    simp only [typeErrorInElems, Bool.or_eq_false_iff] at ht
    simp only [decodeElems]
    obtain ⟨v, hd⟩ := decodeValue_quiet h x e (cur.headD (zero e)) s he ht.1
    obtain ⟨vs, hr⟩ := decodeElems_quiet h xs e cur.tail s he ht.2
    rw [hd]
    simp only
    rw [hr]
    exact ⟨_, rfl⟩
/-- The members of an object, when the fields the members are decoded into are without
`BoardWidget`: as `decodeValue_quiet`. -/
theorem decodeFields_quiet (h : Hook) :
    ∀ (kvs : List (String × Json)) (fields : List Field) (cur : List GoVal)
      (s : Option JsonError),
      (∀ i f, fields.get? i = some f → (∃ kv ∈ kvs, findField fields kv.1 = some (i, f)) →
        f.type.hookFree = true) →
      typeErrorInMembers fields kvs = false →
      ∃ out, decodeFields h fields cur kvs s = .ok out s
  | [], fields, cur, s, _, _ => ⟨cur, by simp [decodeFields]⟩
  | (k, v) :: kvs, fields, cur, s, hfree, ht => by
    simp only [typeErrorInMembers, Bool.or_eq_false_iff] at ht
    simp only [decodeFields]
    have hfree2 : ∀ i f, fields.get? i = some f →
        (∃ kv ∈ kvs, findField fields kv.1 = some (i, f)) → f.type.hookFree = true :=
      fun i f hget ⟨kv, hkv, hfind⟩ => hfree i f hget ⟨kv, List.mem_cons_of_mem _ hkv, hfind⟩
    cases hk : findField fields k with
    | none => exact decodeFields_quiet h kvs fields cur s hfree2 ht.2
    | some r =>
      obtain ⟨i, f⟩ := r
      simp only [hk] at ht ⊢
      have hft := hfree i f (findField_get fields k i f hk) ⟨(k, v), List.mem_cons_self _ _, hk⟩
      obtain ⟨x, hd⟩ := decodeValue_quiet h v f.type (cur.getD i .nil) s hft ht.1
      rw [hd]
      simp only
      exact decodeFields_quiet h kvs fields (cur.set i x) s hfree2 ht.2
end

/-! ## The first error of a group -/

theorem membersBefore_nil (fields : List Field) (i : Nat) : membersBefore fields i [] = [] := rfl

theorem membersBefore_cons (fields : List Field) (i : Nat) (k : String) (v : Json)
    (kvs : List (String × Json)) :
    membersBefore fields i ((k, v) :: kvs) =
      if (findField fields k).map Prod.fst = some i then []
      else (k, v) :: membersBefore fields i kvs := by
  unfold membersBefore
  by_cases h : (findField fields k).map Prod.fst = some i <;> simp [List.takeWhile_cons, h]

/-- Members none of which is decoded into field `i`, every other field being without
`BoardWidget`: their decoding goes to its end and leaves field `i` as it was. -/
theorem decodeFields_others (hook : Hook) (fields : List Field) (i : Nat)
    (hfree : ∀ i2 f2, fields.get? i2 = some f2 → i2 ≠ i → f2.type.hookFree = true) :
    ∀ (kvs : List (String × Json)) (cur : List GoVal) (s : Option JsonError),
      membersOf fields i kvs = [] →
      ∃ out s2, decodeFields hook fields cur kvs s = .ok out s2
  | [], cur, s, _ => ⟨cur, s, by simp [decodeFields]⟩
  | (k, v0) :: kvs, cur, s, hm => by
    rw [membersOf_cons] at hm
    simp only [decodeFields]
    cases hk : findField fields k with
    | none =>
      simp only [hk, Option.map_none', reduceCtorEq, if_false] at hm
      exact decodeFields_others hook fields i hfree kvs cur s hm
    | some r =>
      obtain ⟨i2, f2⟩ := r
      simp only
      by_cases hii : i2 = i
      · subst hii
        simp [hk] at hm
      · have hne : ¬ (some i2 = some i) := by simpa using hii
        simp only [hk, Option.map_some', hne, if_false] at hm
        have hfr := hfree i2 f2 (findField_get fields k i2 f2 hk) hii
        obtain ⟨⟨x, s1, hok⟩, _⟩ :=
          decodeValue_hookFree hook hook f2.type hfr (cur.getD i2 .nil) v0 s
        rw [hok]
        simp only
        exact decodeFields_others hook fields i hfree kvs _ s1 hm

/-- One member `v` is decoded into field `i`, with the error `e` saved; every other
field is without `BoardWidget`, and no member before `v` holds a value of the wrong
kind: the decoding of the object goes to its end and `e` is the saved error. -/
theorem decodeFields_error (hook : Hook) (fields : List Field) (i : Nat) (f : Field)
    (hf : fields.get? i = some f)
    (hfree : ∀ i2 f2, fields.get? i2 = some f2 → i2 ≠ i → f2.type.hookFree = true)
    (v : Json) (e : JsonError) :
    ∀ (kvs : List (String × Json)) (cur : List GoVal),
      i < cur.length → membersOf fields i kvs = [v] →
      typeErrorInMembers fields (membersBefore fields i kvs) = false →
      (∃ x, decodeValue hook f.type (cur.getD i .nil) v none = .ok x (some e)) →
      ∃ out, decodeFields hook fields cur kvs none = .ok out (some e)
  | [], _, _, hm, _, _ => by simp [membersOf_nil] at hm
  | (k, v0) :: kvs, cur, hi, hm, hpre, hv => by
    rw [membersOf_cons] at hm
    rw [membersBefore_cons] at hpre
    simp only [decodeFields]
    cases hk : findField fields k with
    | none =>
      simp only [hk, Option.map_none', reduceCtorEq, if_false] at hm hpre
      simp only [typeErrorInMembers, hk, Bool.false_or] at hpre
      exact decodeFields_error hook fields i f hf hfree v e kvs cur hi hm hpre hv
    | some r =>
      obtain ⟨i2, f2⟩ := r
      simp only
      by_cases hii : i2 = i
      · subst hii
        have hff : f2 = f := by
          have := findField_get fields k i2 f2 hk
          rw [hf] at this
          exact (Option.some.inj this).symm
        subst hff
        simp only [hk, Option.map_some', if_true, List.cons.injEq] at hm
        obtain ⟨x, hx⟩ := hv
        rw [hm.1, hx]
        simp only
        obtain ⟨out, s2, hout⟩ := decodeFields_others hook fields i2 hfree kvs (cur.set i2 x)
          (some e) hm.2
        rcases decodeFields_some hook fields (cur.set i2 x) kvs e with ⟨vs, hr⟩ | ⟨st, hr⟩
        · exact ⟨vs, hr⟩
        · rw [hr] at hout
          cases hout
      · have hne : ¬ (some i2 = some i) := by simpa using hii
        simp only [hk, Option.map_some', hne, if_false] at hm hpre
        simp only [typeErrorInMembers, hk, Bool.or_eq_false_iff] at hpre
        have hfr := hfree i2 f2 (findField_get fields k i2 f2 hk) hii
        obtain ⟨x, hok⟩ := decodeValue_quiet hook v0 f2.type (cur.getD i2 .nil) none hfr hpre.1
        rw [hok]
        simp only
        apply decodeFields_error hook fields i f hf hfree v e kvs _
          (by simpa using hi) hm hpre.2
        have hget : (cur.set i2 x).getD i .nil = cur.getD i .nil := by
          simp [List.getD_eq_getElem?_getD, List.getElem?_set, hii]
        rw [hget]
        exact hv

/-- No member of an envelope before `definition` is decoded in the second pass on a
group. -/
theorem groupWidget_before (kvs : List (String × Json)) :
    typeErrorInMembers TypeName.groupWidget.fields
      (membersBefore TypeName.groupWidget.fields 0 kvs) = false := by
  induction kvs with
  | nil => rfl
  | cons kv kvs ih =>
    obtain ⟨k, v⟩ := kv
    rw [membersBefore_cons]
    cases hk : findField TypeName.groupWidget.fields k with
    | none =>
      simp only [Option.map_none', reduceCtorEq, if_false, typeErrorInMembers, hk,
        Bool.false_or]
      exact ih
    | some r =>
      obtain ⟨i2, f2⟩ := r
      have hget := findField_get _ k i2 f2 hk
      have hi2 : i2 = 0 := by
        rcases i2 with _ | i2
        · rfl
        · simp [TypeName.fields] at hget
      subst hi2
      simp [typeErrorInMembers]

/-- The second pass on a group whose widgets are all decoded, with the error `e` saved,
and whose definition has no value of the wrong kind before the widgets: it returns
`e`. -/
theorem jsonUnmarshal_group_error (h : Hook) (kvs dkvs : List (String × Json))
    (ws : List Json) (e : JsonError)
    (hdef : membersOf TypeName.groupWidget.fields 0 kvs = [.obj dkvs])
    (hws : membersOf TypeName.GroupDefinition.fields 2 dkvs = [.arr ws])
    (hpre : typeErrorInMembers TypeName.GroupDefinition.fields
      (membersBefore TypeName.GroupDefinition.fields 2 dkvs) = false)
    (hel : ∃ vs, decodeElems h (.named .BoardWidget) [] ws none = .ok vs (some e)) :
    jsonUnmarshal h (.named .groupWidget) (.obj kvs) = .error (.error e) := by
  obtain ⟨vs, hvs⟩ := hel
  have hinner : ∃ g, decodeValue h (.named .GroupDefinition)
      ((zero (.named .groupWidget)).structFields.getD 0 .nil) (.obj dkvs) none
        = .ok g (some e) := by
    rw [decodeValue_struct h .GroupDefinition rfl]
    obtain ⟨out, hout⟩ := decodeFields_error h TypeName.GroupDefinition.fields 2
      ⟨"Widgets", "widgets", false, .slice (.named .BoardWidget)⟩ rfl
      GroupDefinition_hookFree_others (.arr ws) e
      dkvs ((zero (.named .groupWidget)).structFields.getD 0 .nil).structFields
      (by decide) hws hpre
      ⟨.slice vs, by
        show decodeValue h (.slice (.named .BoardWidget)) .nil (.arr ws) none = _
        rw [decodeValue_widgets, hvs]⟩
    rw [hout]
    exact ⟨_, rfl⟩
  obtain ⟨g, hg⟩ := hinner
  unfold jsonUnmarshal
  rw [decodeValue_struct h .groupWidget rfl]
  obtain ⟨out, hout⟩ := decodeFields_error h TypeName.groupWidget.fields 0
    ⟨"Definition", "definition", false, .named .GroupDefinition⟩ rfl
    groupWidget_hookFree_others (.obj dkvs) e
    kvs (zero (.named .groupWidget)).structFields (by decide) hdef (groupWidget_before kvs)
    ⟨g, hg⟩
  rw [hout]

/-- A group whose first pass finds the discriminator `group`, whose definition has no
value of the wrong kind before the widgets, whose widgets decode up to `x`, which
returns the error `e`, and none of whose later widgets faults: the group returns `e`
and stores no definition. -/
theorem group_error (widget : BoardWidget) (kvs dkvs : List (String × Json))
    (a : List Json) (x : Json) (b : List Json) (e : JsonError)
    (hdisc : discriminator (.obj kvs) = some GROUP_WIDGET)
    (hdef : membersOf TypeName.groupWidget.fields 0 kvs = [.obj dkvs])
    (hws : membersOf TypeName.GroupDefinition.fields 2 dkvs = [.arr (a ++ x :: b)])
    (hpre : typeErrorInMembers TypeName.GroupDefinition.fields
      (membersBefore TypeName.GroupDefinition.fields 2 dkvs) = false)
    (ha : ∀ y ∈ a, (zeroWidget.UnmarshalJSON y).1 = .nil)
    (hx : (zeroWidget.UnmarshalJSON x).1 = .error e)
    (hb : ∀ y ∈ b, (zeroWidget.UnmarshalJSON y).1 ≠ .panic) :
    (widget.UnmarshalJSON (.obj kvs)).1 = .error e ∧
      (widget.UnmarshalJSON (.obj kvs)).2.Definition = widget.Definition := by
  obtain ⟨h, d, hp, hd, ht⟩ := discriminator_some hdisc
  have hel := decodeElems_widgets_error (fuelHook (Json.obj kvs).depth) x b e a
    (by
      intro y hy
      rw [group_hook kvs dkvs _ hdef hws y (by simp [hy])]
      exact ha y hy)
    (by
      rw [group_hook kvs dkvs _ hdef hws x (by simp)]
      exact hx)
    (by
      intro y hy
      rw [group_hook kvs dkvs _ hdef hws y (by simp [hy])]
      have h1 := hb y hy
      have h2 := status_ne_outOfFuel zeroWidget y
      simp only
      cases hst : (zeroWidget.UnmarshalJSON y).1 with
      | nil => rfl
      | error e2 => rfl
      | panic => exact absurd hst h1
      | outOfFuel => exact absurd hst h2)
  rw [UnmarshalJSON_eq, unmarshalBody_discriminator _ widget _ _ h d hp hd ht,
    unmarshalSwitch_group]
  unfold unmarshalDefinition
  rw [jsonUnmarshal_group_error _ kvs dkvs _ e hdef hws hpre ⟨_, hel⟩]
  exact ⟨rfl, rfl⟩

/-! ## The first pass and an unknown discriminator -/

/-- C6, as stated, fails: in the group
`{"definition":{"type":"group","title":5,"widgets":[{"definition":{"type":"zzz"}}]}}`
the only nested envelope fails to decode, with the error
`Cannot unmarshal widget of type: zzz`, and `UnmarshalJSON` on the group returns
another error: the type error of `title`, which `json.Unmarshal` met first. -/
theorem group_first_failure_counterexample :
    (zeroWidget.UnmarshalJSON (.obj [("definition", .obj [("type", .str "zzz")])])).1
      = .error (.Errorf "Cannot unmarshal widget of type: zzz") ∧
    (zeroWidget.UnmarshalJSON (.obj [("definition", .obj [("type", .str "group"),
        ("title", .num (.int 5)),
        ("widgets", .arr [.obj [("definition", .obj [("type", .str "zzz")])]])])])).1
      = .error (.UnmarshalTypeError "number" .string) :=
  ⟨rfl, rfl⟩

/-- C6, amended: in a group envelope whose first pass finds the discriminator `group`
(so it returns no error), where `definition` is the one member decoded into the
definition and `widgets` the one member decoded into the widget list, no member of the
definition before `widgets` holds a value of a kind its field cannot hold, the nested
envelopes before `x` decode, `x` on its own returns the error `e`, and no nested
envelope after `x` makes `UnmarshalJSON` fault: `UnmarshalJSON` on the group returns
that same error `e`, the error of the first failing nested element, and stores no
definition. -/
theorem group_first_failure (widget : BoardWidget) (kvs dkvs : List (String × Json))
    (a : List Json) (x : Json) (b : List Json) (e : JsonError)
    (hdisc : discriminator (.obj kvs) = some GROUP_WIDGET)
    (hdef : membersOf TypeName.groupWidget.fields 0 kvs = [.obj dkvs])
    (hws : membersOf TypeName.GroupDefinition.fields 2 dkvs = [.arr (a ++ x :: b)])
    (hpre : typeErrorInMembers TypeName.GroupDefinition.fields
      (membersBefore TypeName.GroupDefinition.fields 2 dkvs) = false)
    (ha : ∀ y ∈ a, (zeroWidget.UnmarshalJSON y).1 = .nil)
    (hx : (zeroWidget.UnmarshalJSON x).1 = .error e)
    (hb : ∀ y ∈ b, (zeroWidget.UnmarshalJSON y).1 ≠ .panic) :
    (widget.UnmarshalJSON (.obj kvs)).1 = .error e ∧
      (widget.UnmarshalJSON (.obj kvs)).2.Definition = widget.Definition :=
  group_error widget kvs dkvs a x b e hdisc hdef hws hpre ha hx hb

/-- C6, amended, on a group whose second envelope has an unknown discriminator, whose
third has a number for the content of a note, and whose `title`, after the widgets, is
a number: the error is the one of the second envelope. -/
theorem group_first_failure_witness :
    (zeroWidget.UnmarshalJSON (.obj [("definition", .obj [("type", .str "group"),
        ("layout_type", .str "ordered"),
        ("widgets", .arr [
          .obj [("definition", .obj [("type", .str "note"), ("content", .str "a")])],
          .obj [("definition", .obj [("type", .str "unknown_widget")])],
          .obj [("definition", .obj [("type", .str "note"), ("content", .num (.int 1))])]]),
        ("title", .num (.int 5))])])).1
      = .error (.Errorf "Cannot unmarshal widget of type: unknown_widget") :=
  (group_first_failure zeroWidget
    [("definition", .obj [("type", .str "group"),
        ("layout_type", .str "ordered"),
        ("widgets", .arr [
          .obj [("definition", .obj [("type", .str "note"), ("content", .str "a")])],
          .obj [("definition", .obj [("type", .str "unknown_widget")])],
          .obj [("definition", .obj [("type", .str "note"), ("content", .num (.int 1))])]]),
        ("title", .num (.int 5))])]
    [("type", .str "group"),
        ("layout_type", .str "ordered"),
        ("widgets", .arr [
          .obj [("definition", .obj [("type", .str "note"), ("content", .str "a")])],
          .obj [("definition", .obj [("type", .str "unknown_widget")])],
          .obj [("definition", .obj [("type", .str "note"), ("content", .num (.int 1))])]]),
        ("title", .num (.int 5))]
    [.obj [("definition", .obj [("type", .str "note"), ("content", .str "a")])]]
    (.obj [("definition", .obj [("type", .str "unknown_widget")])])
    [.obj [("definition", .obj [("type", .str "note"), ("content", .num (.int 1))])]]
    (.Errorf "Cannot unmarshal widget of type: unknown_widget")
    rfl rfl rfl rfl
    (by
      intro y hy
      rw [List.mem_singleton.mp hy]
      rfl)
    rfl
    (by
      intro y hy
      rw [List.mem_singleton.mp hy]
      decide)).1

/-- C7, amended: the error a group returns for its first failing nested envelope `x`
is the error `x` gives on its own, whatever the position of `x` in the array: two
groups with `x` behind different numbers of decoding envelopes return the same error,
which carries no index.  Each group is as in C6: its first pass finds the discriminator
`group`, no member of its definition before `widgets` holds a value of a kind its
field cannot hold, the envelopes before `x` decode, `x` on its own returns the error
`e`, and no envelope after `x` makes `UnmarshalJSON` fault. -/
theorem nested_error_position_independent (w1 w2 : BoardWidget)
    (kvs1 dkvs1 kvs2 dkvs2 : List (String × Json))
    (a1 b1 a2 b2 : List Json) (x : Json) (e : JsonError)
    (hdisc1 : discriminator (.obj kvs1) = some GROUP_WIDGET)
    (hdef1 : membersOf TypeName.groupWidget.fields 0 kvs1 = [.obj dkvs1])
    (hws1 : membersOf TypeName.GroupDefinition.fields 2 dkvs1 = [.arr (a1 ++ x :: b1)])
    (hpre1 : typeErrorInMembers TypeName.GroupDefinition.fields
      (membersBefore TypeName.GroupDefinition.fields 2 dkvs1) = false)
    (ha1 : ∀ y ∈ a1, (zeroWidget.UnmarshalJSON y).1 = .nil)
    (hb1 : ∀ y ∈ b1, (zeroWidget.UnmarshalJSON y).1 ≠ .panic)
    (hdisc2 : discriminator (.obj kvs2) = some GROUP_WIDGET)
    (hdef2 : membersOf TypeName.groupWidget.fields 0 kvs2 = [.obj dkvs2])
    (hws2 : membersOf TypeName.GroupDefinition.fields 2 dkvs2 = [.arr (a2 ++ x :: b2)])
    (hpre2 : typeErrorInMembers TypeName.GroupDefinition.fields
      (membersBefore TypeName.GroupDefinition.fields 2 dkvs2) = false)
    (ha2 : ∀ y ∈ a2, (zeroWidget.UnmarshalJSON y).1 = .nil)
    (hb2 : ∀ y ∈ b2, (zeroWidget.UnmarshalJSON y).1 ≠ .panic)
    (hx : (zeroWidget.UnmarshalJSON x).1 = .error e) :
    (w1.UnmarshalJSON (.obj kvs1)).1 = .error e ∧
      (w2.UnmarshalJSON (.obj kvs2)).1 = (w1.UnmarshalJSON (.obj kvs1)).1 := by
  have h1 := (group_error w1 kvs1 dkvs1 a1 x b1 e hdisc1 hdef1 hws1 hpre1 ha1 hx hb1).1
  have h2 := (group_error w2 kvs2 dkvs2 a2 x b2 e hdisc2 hdef2 hws2 hpre2 ha2 hx hb2).1
  exact ⟨h1, by rw [h1, h2]⟩

/-- C7, amended, on the two groups of the counterexample: failing envelope at index 1
and at index 0. -/
theorem nested_error_position_independent_witness :
    (zeroWidget.UnmarshalJSON (.obj [("definition", .obj [("type", .str "group"),
        ("widgets", .arr [
          .obj [("definition", .obj [("type", .str "note"), ("content", .str "a")])],
          .obj [("definition", .obj [("type", .str "unknown_widget")])]])])])).1
      = .error (.Errorf "Cannot unmarshal widget of type: unknown_widget") ∧
    (zeroWidget.UnmarshalJSON (.obj [("definition", .obj [("type", .str "group"),
        ("widgets", .arr [
          .obj [("definition", .obj [("type", .str "unknown_widget")])],
          .obj [("definition", .obj [("type", .str "note"), ("content", .str "a")])]])])])).1
      = (zeroWidget.UnmarshalJSON (.obj [("definition", .obj [("type", .str "group"),
        ("widgets", .arr [
          .obj [("definition", .obj [("type", .str "note"), ("content", .str "a")])],
          .obj [("definition", .obj [("type", .str "unknown_widget")])]])])])).1 :=
  nested_error_position_independent zeroWidget zeroWidget
    [("definition", .obj [("type", .str "group"),
        ("widgets", .arr [
          .obj [("definition", .obj [("type", .str "note"), ("content", .str "a")])],
          .obj [("definition", .obj [("type", .str "unknown_widget")])]])])]
    [("type", .str "group"),
        ("widgets", .arr [
          .obj [("definition", .obj [("type", .str "note"), ("content", .str "a")])],
          .obj [("definition", .obj [("type", .str "unknown_widget")])]])]
    [("definition", .obj [("type", .str "group"),
        ("widgets", .arr [
          .obj [("definition", .obj [("type", .str "unknown_widget")])],
          .obj [("definition", .obj [("type", .str "note"), ("content", .str "a")])]])])]
    [("type", .str "group"),
        ("widgets", .arr [
          .obj [("definition", .obj [("type", .str "unknown_widget")])],
          .obj [("definition", .obj [("type", .str "note"), ("content", .str "a")])]])]
    [.obj [("definition", .obj [("type", .str "note"), ("content", .str "a")])]] []
    [] [.obj [("definition", .obj [("type", .str "note"), ("content", .str "a")])]]
    (.obj [("definition", .obj [("type", .str "unknown_widget")])])
    (.Errorf "Cannot unmarshal widget of type: unknown_widget")
    rfl rfl rfl rfl
    (by
      intro y hy
      rw [List.mem_singleton.mp hy]
      rfl)
    (by
      intro y hy
      cases hy)
    rfl rfl rfl rfl
    (by
      intro y hy
      cases hy)
    (by
      intro y hy
      rw [List.mem_singleton.mp hy]
      decide)
    rfl

end BoardWidgets
